import Mathlib

/-!
Shallow embedding of the client-side durability tracker in
src/src/UnsyncedRpcTracker.cc (class RAMCloud::UnsyncedRpcTracker).

State that the C++ keeps on the heap is made explicit:
* the per-master map becomes an association list from session id to Master;
* callback closures become first-order `Cb` values, and invoking one is
  recorded in an event trace;
* the shared fan-in counters allocated by sync(callback) become a list of
  naturals held next to the master map (the list index plays the role of
  the heap address);
* network responses (log-state reports, retry statuses) are supplied by
  explicit oracle arguments.
Observable effects (callback invocations, request-pool frees, outgoing
sync and retry exchanges) are collected in a list of `Event`s.
-/

/-- Session identity: the C++ code keys masters by a raw
Transport::Session pointer; we use a natural number. -/
abbrev Session := Nat

/-- Modelled from the spec: WireFormat::LogState is declared in
UnsyncedRpcTracker.h / WireFormat.h, which are not part of the sources here.
The spec describes it as a totally ordered marker of a node's
replicated-log progress, and a PendingWrite's logPosition as the log
position the write will occupy once applied.  We model a LogState as a pair
of naturals: `appended`, the furthest log position the node has appended
(the position a write occupies), and `synced`, the position up to which the
log is replicated to backups. -/
structure LogState where
  appended : Nat
  synced : Nat
deriving DecidableEq

/-- Modelled from the spec: a position is covered by (synced under) a state
when the state's replication watermark has reached the position where the
write was appended. -/
def LogState.isSynced (pos state : LogState) : Bool :=
  Nat.ble pos.appended state.synced

/-- Modelled from the spec: the total order on LogState compares
replication progress first; ties are broken by the appended position. -/
def LogState.lt (a b : LogState) : Bool :=
  Nat.blt a.synced b.synced || (a.synced == b.synced && Nat.blt a.appended b.appended)

/-- ClientRequest { void* data; size_t size; }: the request payload handed
to the tracker.  `data` is the pool pointer (0 plays the role of NULL). -/
structure ClientRequest where
  data : Nat
  size : Nat
deriving DecidableEq

/-- First-order model of the std::function callbacks stored in the queue:
either an application callback (identified by a number), the empty lambda
installed for transaction prepares, or the fan-in wrapper that
sync(callback) installs (capturing the counter's heap slot, the number of
masters in the round, and the aggregate callback's identity). -/
inductive Cb where
  | user (id : Nat)
  | nop
  | fanin (round : Nat) (numMasters : Nat) (agg : Nat)
deriving DecidableEq

/-- RPC response status codes relevant to RetryUnsyncedRpc::wait:
STATUS_OK, STATUS_STALE_RPC, and every other (error) status. -/
inductive Status where
  | ok
  | staleRpc
  | err (code : Nat)
deriving DecidableEq

/-- Observable effects of the tracker. -/
inductive Event where
  | invoked (cb : Cb)
  | agg (id : Nat)
  | free (data : Nat)
  | retrySent (data : Nat)
  | syncSent (s : Session)
deriving DecidableEq

/-- Run a callback.  A user callback or the empty lambda just records its
invocation; the fan-in wrapper additionally increments its shared counter
and, once the counter has reached the number of masters of its round,
invokes the aggregate callback (lines 360-369 of the source). -/
def runCb (cb : Cb) (counters : List Nat) : List Nat × List Event :=
  match cb with
  | Cb.user _ => (counters, [Event.invoked cb])
  | Cb.nop => (counters, [Event.invoked cb])
  | Cb.fanin round num agg =>
    let c := counters.getD round 0 + 1
    let counters' := counters.set round c
    if num ≤ c then (counters', [Event.invoked cb, Event.agg agg])
    else (counters', [Event.invoked cb])

/-- struct UnsyncedRpc: one entry of a master's queue of unsynced RPCs.
txWithUnsyncedPrepare models the ClientTransactionTask* field (none for
the null pointer). -/
structure UnsyncedRpc where
  request : ClientRequest
  tableId : Nat
  keyHash : Nat
  objVer : Nat
  txWithUnsyncedPrepare : Option Nat
  logPosition : LogState
  callback : Cb
deriving DecidableEq

/-- struct Master: per-master record.  syncRpcHolder models the
Tub<SyncRpc> (some goal while a sync exchange is outstanding). -/
structure Master where
  session : Session
  rpcs : List UnsyncedRpc
  lastestLogState : LogState
  syncRpcHolder : Option LogState
deriving DecidableEq

/-- The garbage-collection loop of Master::updateLogState (lines 536-546):
pop entries from the front while their position is covered by the newly
reported state, invoking each one's callback and freeing its payload
unless it belongs to a transaction prepare. -/
def gcDrain (newLogState : LogState) : List UnsyncedRpc → List Nat →
    List UnsyncedRpc × List Nat × List Event
  | [], cs => ([], cs, [])
  | rpc :: rest, cs =>
    if LogState.isSynced rpc.logPosition newLogState then
      let p1 := runCb rpc.callback cs
      let evs2 := if rpc.txWithUnsyncedPrepare.isSome then []
                  else [Event.free rpc.request.data]
      let p2 := gcDrain newLogState rest p1.1
      (p2.1, p2.2.1, p1.2 ++ evs2 ++ p2.2.2)
    else (rpc :: rest, cs, [])

/-- UnsyncedRpcTracker::Master::updateLogState (lines 528-547): keep the
maximum of the stored and the reported log state, then garbage-collect the
durable prefix of the queue against the reported state. -/
def Master.updateLogState (m : Master) (newLogState : LogState)
    (counters : List Nat) : Master × List Nat × List Event :=
  let latest := if LogState.lt m.lastestLogState newLogState then newLogState
                else m.lastestLogState
  let p := gcDrain newLogState m.rpcs counters
  ({ m with lastestLogState := latest, rpcs := p.1 }, p.2.1, p.2.2)

/-- UnsyncedRpcTracker::RetryUnsyncedRpc::wait (lines 498-511): OK and
STALE_RPC return normally, every other status raises a client exception
(modelled as the error branch of Except). -/
def RetryUnsyncedRpc.wait (status : Status) : Except Status Unit :=
  match status with
  | Status.ok => Except.ok ()
  | Status.staleRpc => Except.ok ()
  | Status.err c => Except.error (Status.err c)

/-- class UnsyncedRpcTracker: the master map plus the heap of fan-in
counters allocated by sync(callback). -/
structure UnsyncedRpcTracker where
  masters : List (Session × Master)
  counters : List Nat
deriving DecidableEq

/-- Replace the record of the first entry whose key is the given session
(the pointer through which the C++ code mutates the looked-up Master). -/
def setMaster : List (Session × Master) → Session → Master →
    List (Session × Master)
  | [], _, _ => []
  | p :: rest, s, m => if p.1 = s then (s, m) :: rest else p :: setMaster rest s m

/-- Common body of the two registerUnsynced overloads (lines 80-119):
locate or create the master record, append the new entry to its queue, and
immediately fold the entry's log position into the record. -/
def UnsyncedRpcTracker.registerEntry (t : UnsyncedRpcTracker) (session : Session)
    (entry : UnsyncedRpc) (logPos : LogState) : UnsyncedRpcTracker × List Event :=
  match t.masters.lookup session with
  | some m =>
    let p := Master.updateLogState { m with rpcs := m.rpcs ++ [entry] } logPos t.counters
    ({ masters := setMaster t.masters session p.1, counters := p.2.1 }, p.2.2)
  | none =>
    let m0 : Master :=
      { session := session, rpcs := [entry],
        lastestLogState := { appended := 0, synced := 0 }, syncRpcHolder := none }
    let p := Master.updateLogState m0 logPos t.counters
    ({ masters := t.masters ++ [(session, p.1)], counters := p.2.1 }, p.2.2)

/-- The queue entry built by the plain-write registerUnsynced overload
(line 91): the request, target identity, object version, a null
transaction pointer, the log position and the callback. -/
def mkWrite (rpcRequest : ClientRequest) (tableId keyHash objVer : Nat)
    (logPos : LogState) (callback : Cb) : UnsyncedRpc :=
  { request := rpcRequest, tableId := tableId, keyHash := keyHash,
    objVer := objVer, txWithUnsyncedPrepare := none,
    logPosition := logPos, callback := callback }

/-- UnsyncedRpcTracker::registerUnsynced (lines 80-95), the plain-write
overload. -/
def UnsyncedRpcTracker.registerUnsynced (t : UnsyncedRpcTracker) (session : Session)
    (rpcRequest : ClientRequest) (tableId keyHash objVer : Nat)
    (logPos : LogState) (callback : Cb) : UnsyncedRpcTracker × List Event :=
  t.registerEntry session (mkWrite rpcRequest tableId keyHash objVer logPos callback) logPos

/-- The queue entry built by the transaction-prepare registerUnsynced
overload (lines 116-117): an empty request of size zero, zeroed target
fields, the transaction task pointer and the empty lambda as callback. -/
def mkPrepare (txTask : Nat) (logPos : LogState) : UnsyncedRpc :=
  { request := { data := 0, size := 0 }, tableId := 0, keyHash := 0,
    objVer := 0, txWithUnsyncedPrepare := some txTask,
    logPosition := logPos, callback := Cb.nop }

/-- UnsyncedRpcTracker::registerUnsynced (lines 109-119), the
transaction-prepare overload. -/
def UnsyncedRpcTracker.registerUnsyncedTx (t : UnsyncedRpcTracker) (session : Session)
    (txTask : Nat) (logPos : LogState) : UnsyncedRpcTracker × List Event :=
  t.registerEntry session (mkPrepare txTask logPos) logPos

/-- UnsyncedRpcTracker::updateLogState (lines 173-187): look up the master
record for the session; if none exists, return; otherwise fold the
reported state into the record. -/
def UnsyncedRpcTracker.updateLogState (t : UnsyncedRpcTracker) (sessionPtr : Session)
    (masterLogState : LogState) : UnsyncedRpcTracker × List Event :=
  match t.masters.lookup sessionPtr with
  | none => (t, [])
  | some master =>
    let p := Master.updateLogState master masterLogState t.counters
    ({ masters := setMaster t.masters sessionPtr p.1, counters := p.2.1 }, p.2.2)

/-- The drain loop of flushSession (lines 143-159).  For each entry at the
front of the queue: an entry with a pending transaction prepare is popped
with no further action (the retry of prepares is an unimplemented TODO in
the source); otherwise a RetryUnsyncedRpc is sent and waited for (the
response statuses are supplied by the oracle list, Status.ok once the list
runs out), and on normal return the entry's callback is invoked, its
request payload freed and the entry popped.  A status that makes wait
throw propagates out, leaving the entry and the rest of the queue in
place. -/
def flushLoop : List UnsyncedRpc → List Status → List Nat →
    List UnsyncedRpc × List Nat × List Event × Option Status
  | [], _, cs => ([], cs, [], none)
  | rpc :: rest, sts, cs =>
    if rpc.txWithUnsyncedPrepare.isSome then
      flushLoop rest sts cs
    else
      match RetryUnsyncedRpc.wait (sts.headD Status.ok) with
      | Except.error e => (rpc :: rest, cs, [Event.retrySent rpc.request.data], some e)
      | Except.ok _ =>
        let p1 := runCb rpc.callback cs
        let p2 := flushLoop rest sts.tail p1.1
        (p2.1, p2.2.1,
         Event.retrySent rpc.request.data :: (p1.2 ++ [Event.free rpc.request.data] ++ p2.2.2.1),
         p2.2.2.2)

/-- UnsyncedRpcTracker::flushSession (lines 129-161): on an unknown
session return immediately; otherwise drain the master's queue through the
retry loop.  The master record itself stays in the map. -/
def UnsyncedRpcTracker.flushSession (t : UnsyncedRpcTracker) (sessionPtr : Session)
    (statuses : List Status) : UnsyncedRpcTracker × List Event × Option Status :=
  match t.masters.lookup sessionPtr with
  | none => (t, [], none)
  | some master =>
    let p := flushLoop master.rpcs statuses t.counters
    ({ masters := setMaster t.masters sessionPtr { master with rpcs := p.1 },
       counters := p.2.1 }, p.2.2.1, p.2.2.2)

/-- Eligibility test of the send loops (lines 280 and 307): the master has
pending writes and, when a session is to be skipped, a different session. -/
def elig (skip : Option Session) (m : Master) : Bool :=
  !m.rpcs.isEmpty &&
    (match skip with
     | none => true
     | some sk => m.session != sk)

/-- First loop of sync() / efficientSync() (lines 278-285 and 305-312):
for every master with a non-empty queue (and, for efficientSync, a session
other than the one to skip) construct and send a SyncRpc asking for
replication up to the latest known log state, recording it in the
master's holder. -/
def syncPhase1 (skip : Option Session) : List (Session × Master) →
    List (Session × Master) × List Event
  | [] => ([], [])
  | p :: rest =>
    let r := syncPhase1 skip rest
    if elig skip p.2 then
      ((p.1, { p.2 with syncRpcHolder := some p.2.lastestLogState }) :: r.1,
       Event.syncSent p.2.session :: r.2)
    else (p :: r.1, r.2)

/-- Second loop of sync() / efficientSync() (lines 287-295 and 314-322):
for every master with an outstanding sync exchange, wait for its response
(the reported log state is supplied by the oracle association list),
destroy the holder and fold the new state into the record. -/
def syncPhase2 : List (Session × Master) → List (Session × LogState) → List Nat →
    List (Session × Master) × List Nat × List Event
  | [], _, cs => ([], cs, [])
  | p :: rest, resp, cs =>
    match p.2.syncRpcHolder with
    | none =>
      let r := syncPhase2 rest resp cs
      (p :: r.1, r.2.1, r.2.2)
    | some _ =>
      let newLogState := (resp.lookup p.2.session).getD { appended := 0, synced := 0 }
      let q := Master.updateLogState { p.2 with syncRpcHolder := none } newLogState cs
      let r := syncPhase2 rest resp q.2.1
      ((p.1, q.1) :: r.1, r.2.1, q.2.2 ++ r.2.2)

/-- UnsyncedRpcTracker::sync() (lines 301-323), the blocking variant:
send one sync exchange per master with pending writes, then wait on each
and fold the reported states. -/
def UnsyncedRpcTracker.sync (t : UnsyncedRpcTracker)
    (resp : List (Session × LogState)) : UnsyncedRpcTracker × List Event :=
  let a := syncPhase1 none t.masters
  let b := syncPhase2 a.1 resp t.counters
  ({ masters := b.1, counters := b.2.1 }, a.2 ++ b.2.2)

/-- UnsyncedRpcTracker::efficientSync (lines 271-296): identical to sync()
except that the master whose session equals the one used by the
concurrently dispatched synchronous RPC is skipped in the send loop. -/
def UnsyncedRpcTracker.efficientSync (t : UnsyncedRpcTracker) (sessionToSkip : Session)
    (resp : List (Session × LogState)) : UnsyncedRpcTracker × List Event :=
  let a := syncPhase1 (some sessionToSkip) t.masters
  let b := syncPhase2 a.1 resp t.counters
  ({ masters := b.1, counters := b.2.1 }, a.2 ++ b.2.2)

/-- Replace the callback of the last entry of a queue (the write through
master->rpcs.back().callback in line 360). -/
def setLast : List UnsyncedRpc → Cb → List UnsyncedRpc
  | [], _ => []
  | [e], c => [{ e with callback := c }]
  | e :: e' :: rest, c => e :: setLast (e' :: rest) c

/-- Per-master effect of sync(std::function) (lines 351-370): a master
with pending writes has the callback of the tail entry of its queue
overwritten with the fan-in wrapper; a master with an empty queue is
skipped. -/
def syncCbM (round num agg : Nat) (m : Master) : Master :=
  if m.rpcs.isEmpty then m
  else { m with rpcs := setLast m.rpcs (Cb.fanin round num agg) }

/-- UnsyncedRpcTracker::sync(std::function) (lines 332-371), the
asynchronous fan-in variant: count the masters with pending writes; if
none, return at once.  Otherwise allocate a fresh shared counter at zero
(a new slot at the end of the counter heap) and overwrite the callback of
the tail entry of each such master's queue with the fan-in wrapper. -/
def UnsyncedRpcTracker.syncCallback (t : UnsyncedRpcTracker) (agg : Nat) :
    UnsyncedRpcTracker × List Event :=
  let numMasters := (t.masters.filter (fun p => !p.2.rpcs.isEmpty)).length
  if numMasters == 0 then (t, [])
  else
    ({ masters := t.masters.map (fun p =>
         (p.1, syncCbM t.counters.length numMasters agg p.2)),
       counters := t.counters ++ [0] }, [])

/-- One public operation on the tracker, with the network responses it
consumes carried as oracle data. -/
inductive Op where
  | register (s : Session) (req : ClientRequest) (tableId keyHash objVer : Nat)
      (pos : LogState) (cb : Cb)
  | registerTx (s : Session) (txTask : Nat) (pos : LogState)
  | update (s : Session) (st : LogState)
  | flush (s : Session) (statuses : List Status)
  | syncBlocking (resp : List (Session × LogState))
  | effSync (skip : Session) (resp : List (Session × LogState))
  | syncCb (agg : Nat)
deriving DecidableEq

/-- Apply one operation to the tracker. -/
def UnsyncedRpcTracker.step (t : UnsyncedRpcTracker) : Op → UnsyncedRpcTracker × List Event
  | Op.register s req tableId keyHash objVer pos cb =>
    t.registerUnsynced s req tableId keyHash objVer pos cb
  | Op.registerTx s txTask pos => t.registerUnsyncedTx s txTask pos
  | Op.update s st => t.updateLogState s st
  | Op.flush s statuses =>
    let r := t.flushSession s statuses
    (r.1, r.2.1)
  | Op.syncBlocking resp => t.sync resp
  | Op.effSync skip resp => t.efficientSync skip resp
  | Op.syncCb agg => t.syncCallback agg

/-- Run a sequence of operations, accumulating the event trace. -/
def UnsyncedRpcTracker.runOps (t : UnsyncedRpcTracker) : List Op →
    UnsyncedRpcTracker × List Event
  | [] => (t, [])
  | op :: rest =>
    let p := t.step op
    let q := p.1.runOps rest
    (q.1, p.2 ++ q.2)

/-- Extract a callback-invocation event. -/
def evInvoked : Event → Option Cb
  | Event.invoked c => some c
  | _ => none

/-- Extract a payload-free event. -/
def evFree : Event → Option Nat
  | Event.free d => some d
  | _ => none

/-- Extract a retry-exchange event. -/
def evRetry : Event → Option Nat
  | Event.retrySent d => some d
  | _ => none

/-- Extract a sync-exchange event. -/
def evSync : Event → Option Session
  | Event.syncSent s => some s
  | _ => none

/-- The per-peer queue invariant stated by the spec: entries appear in
non-decreasing order of the log position they will occupy. -/
abbrev posSorted (l : List UnsyncedRpc) : Prop :=
  l.Pairwise (fun a b => a.logPosition.appended ≤ b.logPosition.appended)

/-- Coverage test used throughout: the entry's position is synced under
the given state. -/
def coveredBy (S : LogState) (e : UnsyncedRpc) : Bool :=
  LogState.isSynced e.logPosition S

/-- The queue currently recorded for a session (empty when no record
exists). -/
def queueOf (t : UnsyncedRpcTracker) (s : Session) : List UnsyncedRpc :=
  match t.masters.lookup s with
  | some m => m.rpcs
  | none => []

/-- Master-level effect of the wait loop of a sync round: a master with an
outstanding exchange is folded against the oracle response, all others are
untouched.  Counters do not influence the resulting master, so they are
elided here; syncPhase2 is proved to act as this map on the master list. -/
def phase2M (resp : List (Session × LogState)) (m : Master) : Master :=
  match m.syncRpcHolder with
  | none => m
  | some _ =>
    (Master.updateLogState { m with syncRpcHolder := none }
      ((resp.lookup m.session).getD { appended := 0, synced := 0 }) []).1

/-- Master-level effect of the send loop of a sync round. -/
def phase1M (skip : Option Session) (m : Master) : Master :=
  if elig skip m then { m with syncRpcHolder := some m.lastestLogState }
  else m

/-- Number of masters with pending writes (the numMasters count of
lines 336-342). -/
def countNonEmpty (t : UnsyncedRpcTracker) : Nat :=
  (t.masters.filter (fun p => !p.2.rpcs.isEmpty)).length

/-- Does this callback reference the fan-in round whose aggregate callback
is a? -/
def cbMentions (a : Nat) : Cb → Bool
  | Cb.fanin _ _ b => b == a
  | _ => false

/-- Well-shapedness of callbacks with respect to one fan-in round: every
wrapper for aggregate a carries exactly the round slot r and master count
n, and no other wrapper uses slot r. -/
def tagShapeOk (r n a : Nat) : Cb → Bool
  | Cb.fanin r' n' b => if b == a then r' == r && n' == n else r' != r
  | _ => true

/-- A fan-in wrapper's counter slot is below the given heap size. -/
def cbRoundOk (len : Nat) : Cb → Bool
  | Cb.fanin r _ _ => Nat.blt r len
  | _ => true

/-- Number of entries of a queue whose callback references aggregate a. -/
def mcountQ (a : Nat) (q : List UnsyncedRpc) : Nat :=
  (q.filter (fun e => cbMentions a e.callback)).length

/-- Number of entries of a queue whose payload pointer is d. -/
def dcountQ (d : Nat) (q : List UnsyncedRpc) : Nat :=
  (q.filter (fun e => e.request.data == d)).length

/-- Number of entries of a queue whose callback is the user callback c. -/
def ccountQ (c : Nat) (q : List UnsyncedRpc) : Nat :=
  (q.filter (fun e => e.callback == Cb.user c)).length

/-- Sum of a per-master measure over the master map. -/
def sumOver (f : Master → Nat) (ms : List (Session × Master)) : Nat :=
  (ms.map (fun p => f p.2)).sum

/-- Total number of queued entries referencing aggregate a. -/
def tagCount (a : Nat) (t : UnsyncedRpcTracker) : Nat :=
  sumOver (fun m => mcountQ a m.rpcs) t.masters

/-- Total number of queued entries whose payload pointer is d. -/
def pendingData (d : Nat) (t : UnsyncedRpcTracker) : Nat :=
  sumOver (fun m => dcountQ d m.rpcs) t.masters

/-- Total number of queued entries whose callback is the user callback
c. -/
def pendingCb (c : Nat) (t : UnsyncedRpcTracker) : Nat :=
  sumOver (fun m => ccountQ c m.rpcs) t.masters

/-- Number of times the aggregate callback a fired in a trace. -/
def aggCount (a : Nat) (evs : List Event) : Nat :=
  evs.count (Event.agg a)

/-- State invariant tying a fan-in round to a tracker: all callbacks are
well shaped for the round, and no transaction-prepare entry carries its
wrapper (flushSession would pop such an entry without invoking it). -/
def stateTagOk (r n a : Nat) (t : UnsyncedRpcTracker) : Prop :=
  ∀ p ∈ t.masters, ∀ e ∈ p.2.rpcs,
    tagShapeOk r n a e.callback = true ∧
    (e.txWithUnsyncedPrepare.isSome → cbMentions a e.callback = false)

/-- No queued callback references aggregate a. -/
abbrev aggFreshT (a : Nat) (t : UnsyncedRpcTracker) : Prop :=
  ∀ p ∈ t.masters, ∀ e ∈ p.2.rpcs, cbMentions a e.callback = false

/-- Every queued fan-in wrapper's counter slot lies inside the counter
heap. -/
abbrev roundsOk (t : UnsyncedRpcTracker) : Prop :=
  ∀ p ∈ t.masters, ∀ e ∈ p.2.rpcs, cbRoundOk t.counters.length e.callback = true

/-- No queued entry belongs to a transaction prepare. -/
abbrev allNonTx (t : UnsyncedRpcTracker) : Prop :=
  ∀ p ∈ t.masters, ∀ e ∈ p.2.rpcs, e.txWithUnsyncedPrepare = none

/-- Operations that leave an installed fan-in round alone: no further
sync(callback) call (a later round would overwrite the wrappers of the
tails it tags, since the source does not chain callbacks), and no
registration that smuggles in a wrapper value as its callback. -/
def opsBenign (ops : List Op) : Bool :=
  ops.all (fun op =>
    match op with
    | Op.syncCb _ => false
    | Op.register _ _ _ _ _ _ cb =>
      match cb with
      | Cb.fanin _ _ _ => false
      | _ => true
    | _ => true)

/-- Number of plain-write registrations in a trace whose payload pointer
is d. -/
def registersFor (d : Nat) (ops : List Op) : Nat :=
  (ops.filter (fun op =>
    match op with
    | Op.register _ req _ _ _ _ _ => req.data == d
    | _ => false)).length

/-- Number of plain-write registrations in a trace whose callback is the
user callback c. -/
def registersCb (c : Nat) (ops : List Op) : Nat :=
  (ops.filter (fun op =>
    match op with
    | Op.register _ _ _ _ _ _ cb => cb == Cb.user c
    | _ => false)).length

/-- Every queued entry whose payload pointer is d is a plain write (the
tracker frees plain-write payloads on resolution but never
transaction-prepare ones). -/
def dataTxOk (d : Nat) (t : UnsyncedRpcTracker) : Prop :=
  ∀ p ∈ t.masters, ∀ e ∈ p.2.rpcs,
    e.request.data = d → e.txWithUnsyncedPrepare = none

/-- Does RetryUnsyncedRpc::wait return normally on this status? -/
def waitOk (st : Status) : Bool :=
  match st with
  | Status.ok => true
  | Status.staleRpc => true
  | Status.err _ => false

/-- Demo plain-write entry at appended position a with payload pointer d
and user callback c (for concrete instances). -/
def demoEntry (a d c : Nat) : UnsyncedRpc :=
  { request := { data := d, size := 1 }, tableId := 0, keyHash := 0, objVer := 0,
    txWithUnsyncedPrepare := none, logPosition := { appended := a, synced := 0 },
    callback := Cb.user c }

/-- Demo master record for session 0 holding a given queue. -/
def demoMaster (q : List UnsyncedRpc) : Master :=
  { session := 0, rpcs := q,
    lastestLogState := { appended := 0, synced := 0 }, syncRpcHolder := none }

/-- Demo tracker with a single master record for session 0. -/
def demoT (q : List UnsyncedRpc) : UnsyncedRpcTracker :=
  { masters := [(0, demoMaster q)], counters := [] }

/-- Demo transaction-prepare entry (payload pointer 0, empty callback). -/
def demoTxEntry : UnsyncedRpc :=
  { request := { data := 0, size := 0 }, tableId := 0, keyHash := 0, objVer := 0,
    txWithUnsyncedPrepare := some 1, logPosition := { appended := 10, synced := 0 },
    callback := Cb.nop }

/-- Demo master record with an empty queue but an advanced stored log
state. -/
def demoStoredMaster : Master :=
  { session := 0, rpcs := [],
    lastestLogState := { appended := 50, synced := 50 }, syncRpcHolder := none }

/-- Demo tracker whose session-0 master has an empty queue but an advanced
stored log state. -/
def demoStoredT : UnsyncedRpcTracker :=
  { masters := [(0, demoStoredMaster)], counters := [] }

/-- Demo master record for an arbitrary session. -/
def demoMasterS (s : Session) (q : List UnsyncedRpc) : Master :=
  { session := s, rpcs := q,
    lastestLogState := { appended := 0, synced := 0 }, syncRpcHolder := none }

/-- Demo tracker with two master records, for sessions 0 and 1. -/
def demoT2 (q0 q1 : List UnsyncedRpc) : UnsyncedRpcTracker :=
  { masters := [(0, demoMasterS 0 q0), (1, demoMasterS 1 q1)], counters := [] }

/-- Demo plain-write entry carrying an installed fan-in wrapper for
round 0 of a single-master round with aggregate callback 7. -/
def demoFaninEntry : UnsyncedRpc :=
  { request := { data := 3, size := 1 }, tableId := 0, keyHash := 0, objVer := 0,
    txWithUnsyncedPrepare := none, logPosition := { appended := 10, synced := 0 },
    callback := Cb.fanin 0 1 7 }

/-- Demo tracker holding one master whose only entry carries the fan-in
wrapper of an installed one-master round, with the round's counter slot
allocated. -/
def demoFaninT : UnsyncedRpcTracker :=
  { masters := [(0, demoMaster [demoFaninEntry])], counters := [0] }

/-- An entry is held in some queue of the tracker. -/
def memT (e : UnsyncedRpc) (t : UnsyncedRpcTracker) : Prop :=
  ∃ p ∈ t.masters, e ∈ p.2.rpcs

/-- The queue entry freshly created by an operation, if any. -/
def opNew (op : Op) (e : UnsyncedRpc) : Prop :=
  match op with
  | Op.register _ req tableId keyHash objVer pos cb =>
    e = mkWrite req tableId keyHash objVer pos cb
  | Op.registerTx _ txTask pos => e = mkPrepare txTask pos
  | _ => False

/-- The callback-rewriting effect of an operation: sync(callback)
replaces the callback of the tail entry of each non-empty queue. -/
def opRetag (t : UnsyncedRpcTracker) (op : Op) (e : UnsyncedRpc) : Prop :=
  match op with
  | Op.syncCb agg => ∃ e0, memT e0 t ∧
      e = { e0 with
            callback := Cb.fanin t.counters.length (countNonEmpty t) agg }
  | _ => False

/-- Demo trace: a plain write registered with user callback 5, then a
sync(callback) with aggregate 9 that replaces the tail callback, then an
updateLogState that garbage-collects the entry. -/
def c2ops : List Op :=
  [Op.register 0 { data := 1, size := 1 } 0 0 0 { appended := 10, synced := 0 }
     (Cb.user 5),
   Op.syncCb 9,
   Op.update 0 { appended := 20, synced := 20 }]

/-- Demo start state for the fan-in counterexample: one peer with one
pending plain write. -/
def c4start : UnsyncedRpcTracker :=
  demoT [demoEntry 10 1 5]

/-- Demo trace: two sync(callback) calls in a row, then an updateLogState
that garbage-collects the queue. -/
def c4ops : List Op :=
  [Op.syncCb 7, Op.syncCb 8, Op.update 0 { appended := 20, synced := 20 }]

/-- The fresh master record getOrInitMasterRecord builds for an unknown
session (lines 382-396), already holding its first entry. -/
def freshMaster (s : Session) (entry : UnsyncedRpc) : Master :=
  { session := s, rpcs := [entry],
    lastestLogState := { appended := 0, synced := 0 }, syncRpcHolder := none }

/-! Order and coverage helper lemmas. -/

theorem LogState.isSynced_iff (pos state : LogState) :
    LogState.isSynced pos state = true ↔ pos.appended ≤ state.synced := by
  simp [LogState.isSynced, Nat.ble_eq]

theorem LogState.isSynced_false_iff (pos state : LogState) :
    LogState.isSynced pos state = false ↔ state.synced < pos.appended := by
  rw [Bool.eq_false_iff, Ne, LogState.isSynced_iff]
  omega

theorem LogState.lt_iff (a b : LogState) : LogState.lt a b = true ↔
    (a.synced < b.synced ∨ (a.synced = b.synced ∧ a.appended < b.appended)) := by
  simp [LogState.lt, Bool.or_eq_true, Bool.and_eq_true, Nat.blt_eq, beq_iff_eq]

theorem LogState.lt_false_iff (a b : LogState) : LogState.lt a b = false ↔
    (b.synced < a.synced ∨ (b.synced = a.synced ∧ b.appended ≤ a.appended)) := by
  simp only [Bool.eq_false_iff, Ne, LogState.lt_iff]
  omega

theorem LogState.lt_irrefl (a : LogState) : LogState.lt a a = false := by
  rw [LogState.lt_false_iff]
  omega

theorem LogState.lt_false_trans (a b c : LogState) (h1 : LogState.lt a b = false)
    (h2 : LogState.lt b c = false) : LogState.lt a c = false := by
  rw [LogState.lt_false_iff] at h1 h2 ⊢
  omega

theorem LogState.lt_max_false (a b : LogState) :
    LogState.lt (if LogState.lt a b then b else a) a = false := by
  by_cases h : LogState.lt a b = true
  · rw [if_pos h]
    rw [LogState.lt_iff] at h
    rw [LogState.lt_false_iff]
    omega
  · rw [Bool.not_eq_true] at h
    rw [h]
    simp [LogState.lt_irrefl]

theorem coveredBy_iff (S : LogState) (e : UnsyncedRpc) :
    coveredBy S e = true ↔ e.logPosition.appended ≤ S.synced := by
  simp [coveredBy, LogState.isSynced_iff]

theorem coveredBy_false_iff (S : LogState) (e : UnsyncedRpc) :
    coveredBy S e = false ↔ S.synced < e.logPosition.appended := by
  simp [coveredBy, LogState.isSynced_false_iff]

/-- C7: RetryUnsyncedRpc::wait returns normally exactly on STATUS_OK and on
STATUS_STALE_RPC (which is treated as success), and every other status is
raised as an exception. -/
theorem c7_retry_wait_status :
    (∀ st : Status, RetryUnsyncedRpc.wait st = Except.ok () ↔
      (st = Status.ok ∨ st = Status.staleRpc)) ∧
    (∀ st : Status, RetryUnsyncedRpc.wait st = Except.ok () ∨
      RetryUnsyncedRpc.wait st = Except.error st) := by
  constructor <;> intro st <;> cases st <;> simp [RetryUnsyncedRpc.wait]

/-- C9: the tracker-level updateLogState on a session with no master
record is a silent no-op: it creates no record, fires nothing, and leaves
the whole tracker unchanged. -/
theorem c9_update_unknown_noop (t : UnsyncedRpcTracker) (sessionPtr : Session)
    (st : LogState) (h : t.masters.lookup sessionPtr = none) :
    t.updateLogState sessionPtr st = (t, []) := by
  simp [UnsyncedRpcTracker.updateLogState, h]

/-- Witness for C9 at a concrete tracker and unknown session. -/
theorem c9_update_unknown_noop_witness :
    (demoT []).masters.lookup 5 = none ∧
    (demoT []).updateLogState 5 { appended := 9, synced := 9 } = (demoT [], []) :=
  ⟨by decide, c9_update_unknown_noop _ _ _ (by decide)⟩

/-! Event-extraction behaviour of runCb. -/

theorem runCb_filterMap_invoked (cb : Cb) (cs : List Nat) :
    (runCb cb cs).2.filterMap evInvoked = [cb] := by
  cases cb with
  | user i => simp [runCb, evInvoked]
  | nop => simp [runCb, evInvoked]
  | fanin r n a =>
    simp only [runCb]
    split <;> simp [evInvoked]

theorem runCb_filterMap_free (cb : Cb) (cs : List Nat) :
    (runCb cb cs).2.filterMap evFree = [] := by
  cases cb with
  | user i => simp [runCb, evFree]
  | nop => simp [runCb, evFree]
  | fanin r n a =>
    simp only [runCb]
    split <;> simp [evFree]

theorem runCb_filterMap_retry (cb : Cb) (cs : List Nat) :
    (runCb cb cs).2.filterMap evRetry = [] := by
  cases cb with
  | user i => simp [runCb, evRetry]
  | nop => simp [runCb, evRetry]
  | fanin r n a =>
    simp only [runCb]
    split <;> simp [evRetry]

theorem runCb_filterMap_sync (cb : Cb) (cs : List Nat) :
    (runCb cb cs).2.filterMap evSync = [] := by
  cases cb with
  | user i => simp [runCb, evSync]
  | nop => simp [runCb, evSync]
  | fanin r n a =>
    simp only [runCb]
    split <;> simp [evSync]

theorem txFreeEvs_filterMap_invoked (e : UnsyncedRpc) :
    ((if e.txWithUnsyncedPrepare.isSome then ([] : List Event)
      else [Event.free e.request.data]).filterMap evInvoked) = [] := by
  split <;> simp [evInvoked]

theorem txFreeEvs_filterMap_free (e : UnsyncedRpc) :
    ((if e.txWithUnsyncedPrepare.isSome then ([] : List Event)
      else [Event.free e.request.data]).filterMap evFree) =
      (if e.txWithUnsyncedPrepare.isSome then [] else [e.request.data]) := by
  split <;> simp [evFree]

/-! Structure of the garbage-collection loop. -/

theorem gcDrain_rpcs (S : LogState) (q : List UnsyncedRpc) (cs : List Nat) :
    (gcDrain S q cs).1 = q.dropWhile (coveredBy S) := by
  induction q generalizing cs with
  | nil => simp [gcDrain]
  | cons e rest ih =>
    by_cases h : LogState.isSynced e.logPosition S = true
    · simp [gcDrain, h, List.dropWhile_cons, coveredBy, ih]
    · rw [Bool.not_eq_true] at h
      simp [gcDrain, h, List.dropWhile_cons, coveredBy]

theorem gcDrain_invoked (S : LogState) (q : List UnsyncedRpc) (cs : List Nat) :
    (gcDrain S q cs).2.2.filterMap evInvoked =
      (q.takeWhile (coveredBy S)).map (fun e => e.callback) := by
  induction q generalizing cs with
  | nil => simp [gcDrain]
  | cons e rest ih =>
    by_cases h : LogState.isSynced e.logPosition S = true
    · simp [gcDrain, h, List.takeWhile_cons, coveredBy, List.filterMap_append,
        runCb_filterMap_invoked, txFreeEvs_filterMap_invoked, ih]
    · rw [Bool.not_eq_true] at h
      simp [gcDrain, h, List.takeWhile_cons, coveredBy]

theorem gcDrain_free (S : LogState) (q : List UnsyncedRpc) (cs : List Nat) :
    (gcDrain S q cs).2.2.filterMap evFree =
      ((q.takeWhile (coveredBy S)).filter (fun e => e.txWithUnsyncedPrepare.isNone)).map
        (fun e => e.request.data) := by
  induction q generalizing cs with
  | nil => simp [gcDrain]
  | cons e rest ih =>
    by_cases h : LogState.isSynced e.logPosition S = true
    · by_cases htx : e.txWithUnsyncedPrepare.isSome = true
      · have hne : e.txWithUnsyncedPrepare ≠ none := Option.isSome_iff_ne_none.mp htx
        simp [gcDrain, h, htx, List.takeWhile_cons, coveredBy, List.filter_cons,
          List.filterMap_append, runCb_filterMap_free, txFreeEvs_filterMap_free,
          Option.isNone_iff_eq_none, hne, ih]
      · rw [Bool.not_eq_true] at htx
        have hnn : e.txWithUnsyncedPrepare = none := Option.not_isSome_iff_eq_none.mp (by simp [htx])
        simp [gcDrain, h, htx, List.takeWhile_cons, coveredBy, List.filter_cons,
          List.filterMap_append, List.filterMap_cons, evFree, runCb_filterMap_free,
          txFreeEvs_filterMap_free, Option.isNone_iff_eq_none, hnn, ih]
    · rw [Bool.not_eq_true] at h
      simp [gcDrain, h, List.takeWhile_cons, coveredBy]

/-! Sorted queues: the covered entries form exactly the front prefix. -/

theorem posSorted_head_uncovered (S : LogState) (e : UnsyncedRpc)
    (rest : List UnsyncedRpc) (hs : posSorted (e :: rest))
    (h : coveredBy S e = false) : ∀ x ∈ rest, coveredBy S x = false := by
  intro x hx
  rw [coveredBy_false_iff] at h ⊢
  have := (List.pairwise_cons.mp hs).1 x hx
  omega

theorem sorted_takeWhile_eq_filter (S : LogState) (q : List UnsyncedRpc)
    (hs : posSorted q) : q.takeWhile (coveredBy S) = q.filter (coveredBy S) := by
  induction q with
  | nil => rfl
  | cons e rest ih =>
    rcases List.pairwise_cons.mp hs with ⟨hhead, htail⟩
    by_cases h : coveredBy S e = true
    · simp [List.takeWhile_cons, List.filter_cons, h, ih htail]
    · rw [Bool.not_eq_true] at h
      have hall := posSorted_head_uncovered S e rest hs h
      simp only [List.takeWhile_cons, List.filter_cons, h]
      simp only [Bool.false_eq_true, if_false, cond_false]
      symm
      rw [List.filter_eq_nil_iff]
      intro x hx
      simp [hall x hx]

theorem sorted_dropWhile_eq_filter (S : LogState) (q : List UnsyncedRpc)
    (hs : posSorted q) :
    q.dropWhile (coveredBy S) = q.filter (fun e => !(coveredBy S e)) := by
  induction q with
  | nil => rfl
  | cons e rest ih =>
    rcases List.pairwise_cons.mp hs with ⟨hhead, htail⟩
    by_cases h : coveredBy S e = true
    · simp [List.dropWhile_cons, List.filter_cons, h, ih htail]
    · rw [Bool.not_eq_true] at h
      have hall := posSorted_head_uncovered S e rest hs h
      simp only [List.dropWhile_cons, List.filter_cons, h]
      simp only [Bool.false_eq_true, if_false, Bool.not_false, cond_true]
      congr 1
      symm
      rw [List.filter_eq_self]
      intro x hx
      simp [hall x hx]

/-- C1: on a queue in non-decreasing position order, Master::updateLogState
with reported state S removes exactly the entries covered by S (the maximal
covered prefix), in queue order, invoking each removed entry's callback
exactly once and releasing its payload except for transaction-prepare
entries, and leaves every entry not covered by S untouched. -/
theorem c1_gc_exactness (m : Master) (S : LogState) (cs : List Nat)
    (hsorted : posSorted m.rpcs) :
    (Master.updateLogState m S cs).1.rpcs =
      m.rpcs.filter (fun e => !(coveredBy S e)) ∧
    (Master.updateLogState m S cs).2.2.filterMap evInvoked =
      (m.rpcs.filter (coveredBy S)).map (fun e => e.callback) ∧
    (Master.updateLogState m S cs).2.2.filterMap evFree =
      ((m.rpcs.filter (coveredBy S)).filter
        (fun e => e.txWithUnsyncedPrepare.isNone)).map (fun e => e.request.data) := by
  refine ⟨?_, ?_, ?_⟩
  · show (gcDrain S m.rpcs cs).1 = _
    rw [gcDrain_rpcs, sorted_dropWhile_eq_filter S _ hsorted]
  · show (gcDrain S m.rpcs cs).2.2.filterMap evInvoked = _
    rw [gcDrain_invoked, sorted_takeWhile_eq_filter S _ hsorted]
  · show (gcDrain S m.rpcs cs).2.2.filterMap evFree = _
    rw [gcDrain_free, sorted_takeWhile_eq_filter S _ hsorted]

/-- Witness for C1: the spec scenario queue at positions 10, 20, 30 under a
report synced through 20. -/
theorem c1_gc_exactness_witness :
    posSorted [demoEntry 10 1 1, demoEntry 20 2 2, demoEntry 30 3 3] ∧
    (Master.updateLogState
      (demoMaster [demoEntry 10 1 1, demoEntry 20 2 2, demoEntry 30 3 3])
      { appended := 20, synced := 20 } []).1.rpcs =
      [demoEntry 10 1 1, demoEntry 20 2 2, demoEntry 30 3 3].filter
        (fun e => !(coveredBy { appended := 20, synced := 20 } e)) :=
  ⟨by decide,
   (c1_gc_exactness (demoMaster [demoEntry 10 1 1, demoEntry 20 2 2, demoEntry 30 3 3])
     { appended := 20, synced := 20 } [] (by decide)).1⟩

/-! Association-list helpers for the master map. -/

theorem lookup_setMaster_self (ms : List (Session × Master)) (s : Session)
    (m m' : Master) (h : ms.lookup s = some m) :
    (setMaster ms s m').lookup s = some m' := by
  induction ms with
  | nil => simp [List.lookup] at h
  | cons p rest ih =>
    by_cases hp : p.1 = s
    · simp [setMaster, hp, List.lookup]
    · simp only [setMaster, hp, if_false]
      have hne : (s == p.1) = false := by
        simp [beq_iff_eq]
        exact fun hh => hp hh.symm
      simp only [List.lookup, hne] at h ⊢
      exact ih h

theorem lookup_setMaster_ne (ms : List (Session × Master)) (s k : Session)
    (m' : Master) (hk : k ≠ s) :
    (setMaster ms s m').lookup k = ms.lookup k := by
  induction ms with
  | nil => simp [setMaster]
  | cons p rest ih =>
    by_cases hp : p.1 = s
    · have hne : (k == s) = false := by simp [beq_iff_eq, hk]
      have hne2 : (k == p.1) = false := by simp [beq_iff_eq, hp, hk]
      simp [setMaster, hp, List.lookup, hne, hne2]
    · simp only [setMaster, hp, if_false]
      simp only [List.lookup]
      cases hkp : (k == p.1) with
      | true => rfl
      | false => exact ih

theorem lookup_append_none {α β : Type} [BEq α] (l1 l2 : List (α × β)) (k : α)
    (h : l1.lookup k = none) : (l1 ++ l2).lookup k = l2.lookup k := by
  induction l1 with
  | nil => simp
  | cons p rest ih =>
    simp only [List.lookup, List.cons_append] at h ⊢
    cases hkp : (k == p.1) with
    | true => simp [hkp] at h
    | false =>
      simp only [hkp] at h ⊢
      exact ih h

theorem takeWhile_all {α : Type} (p : α → Bool) (l : List α)
    (h : ∀ x ∈ l, p x = true) : l.takeWhile p = l := by
  induction l with
  | nil => rfl
  | cons a t ih =>
    rw [List.takeWhile_cons, if_pos (h a (by simp))]
    rw [ih (fun x hx => h x (by simp [hx]))]

theorem dropWhile_all {α : Type} (p : α → Bool) (l : List α)
    (h : ∀ x ∈ l, p x = true) : l.dropWhile p = [] := by
  induction l with
  | nil => rfl
  | cons a t ih =>
    rw [List.dropWhile_cons, if_pos (h a (by simp))]
    exact ih (fun x hx => h x (by simp [hx]))

/-- C3 (counterexample): the claim fails on the code.  The peer's stored
LogState is (appended 50, synced 50), which covers the new write's
position 10, yet registering the write at logPos (appended 10, synced 5)
fires no callback during the call and leaves the write queued: the
registration-time garbage collection scans against the newly supplied
state, whose synced watermark (5) does not cover position 10. -/
theorem c3_counterexample :
    LogState.isSynced { appended := 10, synced := 5 }
      demoStoredMaster.lastestLogState = true ∧
    (demoStoredT.registerUnsynced 0 { data := 1, size := 1 } 0 0 0
      { appended := 10, synced := 5 } (Cb.user 7)).2 = [] ∧
    queueOf (demoStoredT.registerUnsynced 0 { data := 1, size := 1 } 0 0 0
      { appended := 10, synced := 5 } (Cb.user 7)).1 0 =
      [{ request := { data := 1, size := 1 }, tableId := 0, keyHash := 0, objVer := 0,
         txWithUnsyncedPrepare := none, logPosition := { appended := 10, synced := 5 },
         callback := Cb.user 7 }] := by
  decide

/-- C3 (amended): a write is resolved during the registration call itself
precisely on the strength of the newly supplied log state: if logPos
covers its own appended position and the positions of all entries already
queued for the peer, then every queued callback and then the new write's
callback fire before registerUnsynced returns, and the peer's queue is
left empty (in particular the new write never rests in it).  The
previously stored LogState plays no role in this registration-time
collection. -/
theorem c3_amended (t : UnsyncedRpcTracker) (s : Session) (req : ClientRequest)
    (tableId keyHash objVer : Nat) (logPos : LogState) (cb : Cb)
    (hself : LogState.isSynced logPos logPos = true)
    (hq : ∀ e ∈ queueOf t s, LogState.isSynced e.logPosition logPos = true) :
    (t.registerUnsynced s req tableId keyHash objVer logPos cb).2.filterMap evInvoked =
      (queueOf t s).map (fun e => e.callback) ++ [cb] ∧
    queueOf (t.registerUnsynced s req tableId keyHash objVer logPos cb).1 s = [] := by
  unfold UnsyncedRpcTracker.registerUnsynced UnsyncedRpcTracker.registerEntry
  cases hl : t.masters.lookup s with
  | some m =>
    have hqm : queueOf t s = m.rpcs := by simp [queueOf, hl]
    rw [hqm] at hq
    have hcov : ∀ x ∈ m.rpcs ++ [mkWrite req tableId keyHash objVer logPos cb],
        coveredBy logPos x = true := by
      intro x hx
      rcases List.mem_append.mp hx with hx1 | hx2
      · exact hq x hx1
      · simp at hx2
        subst hx2
        exact hself
    constructor
    · show (gcDrain logPos (m.rpcs ++ [mkWrite req tableId keyHash objVer logPos cb])
        t.counters).2.2.filterMap evInvoked = _
      rw [gcDrain_invoked, takeWhile_all _ _ hcov, hqm]
      simp [mkWrite]
    · show queueOf _ s = []
      unfold queueOf
      rw [lookup_setMaster_self _ _ m _ hl]
      show (gcDrain logPos (m.rpcs ++ [mkWrite req tableId keyHash objVer logPos cb])
        t.counters).1 = []
      rw [gcDrain_rpcs, dropWhile_all _ _ hcov]
  | none =>
    have hqm : queueOf t s = [] := by simp [queueOf, hl]
    rw [hqm] at hq ⊢
    have hcov : ∀ x ∈ [mkWrite req tableId keyHash objVer logPos cb],
        coveredBy logPos x = true := by
      intro x hx
      simp at hx
      subst hx
      exact hself
    constructor
    · show (gcDrain logPos [mkWrite req tableId keyHash objVer logPos cb]
        t.counters).2.2.filterMap evInvoked = _
      rw [gcDrain_invoked, takeWhile_all _ _ hcov]
      simp [mkWrite]
    · show queueOf _ s = []
      unfold queueOf
      rw [lookup_append_none _ _ _ hl]
      simp only [List.lookup, beq_self_eq_true]
      show (gcDrain logPos [mkWrite req tableId keyHash objVer logPos cb]
        t.counters).1 = []
      rw [gcDrain_rpcs, dropWhile_all _ _ hcov]

/-- Witness for C3 (amended): registering onto a one-entry queue with a
report that covers both positions resolves both entries and empties the
queue. -/
theorem c3_amended_witness :
    LogState.isSynced { appended := 20, synced := 20 }
        { appended := 20, synced := 20 } = true ∧
    (∀ e ∈ queueOf (demoT [demoEntry 10 1 1]) 0,
      LogState.isSynced e.logPosition { appended := 20, synced := 20 } = true) ∧
    ((demoT [demoEntry 10 1 1]).registerUnsynced 0 { data := 2, size := 1 } 0 0 0
        { appended := 20, synced := 20 } (Cb.user 9)).2.filterMap evInvoked =
      (queueOf (demoT [demoEntry 10 1 1]) 0).map (fun e => e.callback) ++ [Cb.user 9] ∧
    queueOf ((demoT [demoEntry 10 1 1]).registerUnsynced 0 { data := 2, size := 1 } 0 0 0
        { appended := 20, synced := 20 } (Cb.user 9)).1 0 = [] := by
  refine ⟨by decide, by decide, ?_⟩
  exact c3_amended (demoT [demoEntry 10 1 1]) 0 { data := 2, size := 1 } 0 0 0
    { appended := 20, synced := 20 } (Cb.user 9) (by decide) (by decide)

/-! Characterizations of the two sync loops. -/

theorem gcDrain_fst_cs (S : LogState) (q : List UnsyncedRpc) (cs cs' : List Nat) :
    (gcDrain S q cs).1 = (gcDrain S q cs').1 := by
  rw [gcDrain_rpcs, gcDrain_rpcs]

theorem updateLogState_fst_cs (m : Master) (S : LogState) (cs cs' : List Nat) :
    (Master.updateLogState m S cs).1 = (Master.updateLogState m S cs').1 := by
  simp only [Master.updateLogState]
  rw [gcDrain_fst_cs S m.rpcs cs cs']

theorem updateLogState_lastest (m : Master) (S : LogState) (cs : List Nat) :
    (Master.updateLogState m S cs).1.lastestLogState =
      if LogState.lt m.lastestLogState S then S else m.lastestLogState := rfl

theorem updateLogState_rpcs (m : Master) (S : LogState) (cs : List Nat) :
    (Master.updateLogState m S cs).1.rpcs = m.rpcs.dropWhile (coveredBy S) := by
  simp only [Master.updateLogState]
  exact gcDrain_rpcs S m.rpcs cs

theorem phase1M_lastest (skip : Option Session) (m : Master) :
    (phase1M skip m).lastestLogState = m.lastestLogState := by
  unfold phase1M
  split <;> rfl

theorem phase1M_rpcs (skip : Option Session) (m : Master) :
    (phase1M skip m).rpcs = m.rpcs := by
  unfold phase1M
  split <;> rfl

theorem syncPhase1_masters (skip : Option Session) (ms : List (Session × Master)) :
    (syncPhase1 skip ms).1 = ms.map (fun p => (p.1, phase1M skip p.2)) := by
  induction ms with
  | nil => rfl
  | cons p rest ih =>
    simp only [syncPhase1, List.map_cons]
    by_cases h : elig skip p.2 = true
    · rw [if_pos h]
      have hm : phase1M skip p.2 = { p.2 with syncRpcHolder := some p.2.lastestLogState } := by
        unfold phase1M
        rw [if_pos h]
      rw [hm]
      show (p.1, _) :: (syncPhase1 skip rest).1 = _
      rw [ih]
    · rw [if_neg h]
      have hm : phase1M skip p.2 = p.2 := by
        unfold phase1M
        rw [if_neg h]
      rw [hm]
      show p :: (syncPhase1 skip rest).1 = _
      rw [ih]

theorem syncPhase1_evs (skip : Option Session) (ms : List (Session × Master)) :
    (syncPhase1 skip ms).2 =
      (ms.filter (fun p => elig skip p.2)).map (fun p => Event.syncSent p.2.session) := by
  induction ms with
  | nil => rfl
  | cons p rest ih =>
    simp only [syncPhase1, List.filter_cons]
    by_cases h : elig skip p.2 = true
    · rw [if_pos h, ih]
      simp [h]
    · rw [if_neg h, ih]
      have hb : elig skip p.2 = false := by
        rw [Bool.eq_false_iff]
        exact h
      simp [hb]

theorem syncPhase2_masters (ms : List (Session × Master))
    (resp : List (Session × LogState)) (cs : List Nat) :
    (syncPhase2 ms resp cs).1 = ms.map (fun p => (p.1, phase2M resp p.2)) := by
  induction ms generalizing cs with
  | nil => rfl
  | cons p rest ih =>
    cases hh : p.2.syncRpcHolder with
    | none =>
      simp only [syncPhase2, hh, List.map_cons]
      rw [ih]
      have : phase2M resp p.2 = p.2 := by simp [phase2M, hh]
      rw [this]
    | some g =>
      simp only [syncPhase2, hh, List.map_cons]
      rw [ih]
      have : phase2M resp p.2 =
          (Master.updateLogState { p.2 with syncRpcHolder := none }
            ((resp.lookup p.2.session).getD { appended := 0, synced := 0 }) cs).1 := by
        simp only [phase2M, hh]
        exact updateLogState_fst_cs _ _ [] cs
      rw [this]

theorem txFreeEvs_filterMap_sync (e : UnsyncedRpc) :
    ((if e.txWithUnsyncedPrepare.isSome then ([] : List Event)
      else [Event.free e.request.data]).filterMap evSync) = [] := by
  split <;> simp [evSync]

theorem gcDrain_filterMap_sync (S : LogState) (q : List UnsyncedRpc) (cs : List Nat) :
    (gcDrain S q cs).2.2.filterMap evSync = [] := by
  induction q generalizing cs with
  | nil => simp [gcDrain]
  | cons e rest ih =>
    by_cases h : LogState.isSynced e.logPosition S = true
    · simp [gcDrain, h, List.filterMap_append, runCb_filterMap_sync,
        txFreeEvs_filterMap_sync, ih]
    · rw [Bool.not_eq_true] at h
      simp [gcDrain, h]

theorem syncPhase2_evs_sync (ms : List (Session × Master))
    (resp : List (Session × LogState)) (cs : List Nat) :
    (syncPhase2 ms resp cs).2.2.filterMap evSync = [] := by
  induction ms generalizing cs with
  | nil => rfl
  | cons p rest ih =>
    cases hh : p.2.syncRpcHolder with
    | none => simp only [syncPhase2, hh]; exact ih cs
    | some g =>
      simp only [syncPhase2, hh, List.filterMap_append]
      rw [ih]
      have : (Master.updateLogState { p.2 with syncRpcHolder := none }
          ((resp.lookup p.2.session).getD { appended := 0, synced := 0 }) cs).2.2.filterMap
            evSync = [] := gcDrain_filterMap_sync _ _ _
      rw [this]
      rfl

/-! Lookup through entrywise maps of the master list. -/

theorem lookup_map_entry (f : Master → Master) (ms : List (Session × Master))
    (k : Session) :
    (ms.map (fun p => (p.1, f p.2))).lookup k = (ms.lookup k).map f := by
  induction ms with
  | nil => rfl
  | cons p rest ih =>
    simp only [List.map_cons, List.lookup]
    cases hkp : (k == p.1) with
    | true => rfl
    | false => exact ih

theorem lookup_mem (ms : List (Session × Master)) (k : Session) (m : Master)
    (h : ms.lookup k = some m) : (k, m) ∈ ms := by
  induction ms with
  | nil => simp [List.lookup] at h
  | cons p rest ih =>
    simp only [List.lookup] at h
    cases hkp : (k == p.1) with
    | true =>
      rw [hkp] at h
      simp only [Option.some.injEq] at h
      have hk : k = p.1 := beq_iff_eq.mp hkp
      subst hk
      rw [← h]
      exact List.mem_cons_self p rest
    | false =>
      rw [hkp] at h
      right
      exact ih h

theorem lookup_append_some {α β : Type} [BEq α] (l1 l2 : List (α × β)) (k : α)
    (v : β) (h : l1.lookup k = some v) : (l1 ++ l2).lookup k = some v := by
  induction l1 with
  | nil => simp [List.lookup] at h
  | cons p rest ih =>
    simp only [List.lookup, List.cons_append] at h ⊢
    cases hkp : (k == p.1) with
    | true =>
      rw [hkp] at h
      exact h
    | false =>
      rw [hkp] at h
      exact ih h

theorem map_session_filter_skip (ms : List (Session × Master)) (sk : Session)
    (hsess : ∀ p ∈ ms, p.2.session = p.1) :
    (ms.filter (fun p => elig (some sk) p.2)).map (fun p => p.2.session) =
      ((ms.filter (fun p => elig none p.2)).map (fun p => p.2.session)).filter
        (fun x => x != sk) := by
  induction ms with
  | nil => rfl
  | cons p rest ih =>
    have hp := hsess p (by simp)
    have ihr := ih (fun q hq => hsess q (by simp [hq]))
    by_cases hemp : p.2.rpcs.isEmpty = true
    · have h1 : elig (some sk) p.2 = false := by simp [elig, hemp]
      have h2 : elig none p.2 = false := by simp [elig, hemp]
      simp [List.filter_cons, h1, h2, ihr]
    · have hemp2 : (!p.2.rpcs.isEmpty) = true := by simp [hemp]
      have h2 : elig none p.2 = true := by simp [elig, hemp2]
      by_cases hne : p.2.session = sk
      · have h1 : elig (some sk) p.2 = false := by simp [elig, hne]
        have hev : (p.2.session != sk) = false := by simp [hne]
        simp [List.filter_cons, h1, h2, hev, ihr]
      · have h1 : elig (some sk) p.2 = true := by
          simp [elig, hemp2, bne_iff_ne, hne]
        have hev : (p.2.session != sk) = true := by
          simp [bne_iff_ne, hne]
        simp [List.filter_cons, h1, h2, hev, ihr]

theorem elig_none (m : Master) : elig none m = !m.rpcs.isEmpty := by
  simp [elig]

theorem filterMap_evSync_map (l : List (Session × Master)) :
    (l.map (fun p => Event.syncSent p.2.session)).filterMap evSync =
      l.map (fun p => p.2.session) := by
  induction l with
  | nil => rfl
  | cons p rest ih => simp [evSync, ih]

/-- C8: efficientSync is the sync round restricted to the peers whose
session differs from the skipped one.  Exactly the sync exchanges of
sync() other than the skipped peer's are sent, each response is folded so
that every other peer's record ends exactly as sync() would leave it, and
the skipped peer's record is left entirely untouched by the round. -/
theorem c8_efficient_sync_equiv (t : UnsyncedRpcTracker) (skip : Session)
    (resp : List (Session × LogState))
    (hsess : ∀ p ∈ t.masters, p.2.session = p.1)
    (hholders : ∀ p ∈ t.masters, p.2.syncRpcHolder = none) :
    (∀ ss : Session, ss ≠ skip →
      (t.efficientSync skip resp).1.masters.lookup ss =
        (t.sync resp).1.masters.lookup ss) ∧
    (t.efficientSync skip resp).1.masters.lookup skip = t.masters.lookup skip ∧
    (t.efficientSync skip resp).2.filterMap evSync =
      ((t.sync resp).2.filterMap evSync).filter (fun x => x != skip) ∧
    (t.sync resp).2.filterMap evSync =
      (t.masters.filter (fun p => !p.2.rpcs.isEmpty)).map (fun p => p.2.session) := by
  have hmE : (t.efficientSync skip resp).1.masters =
      t.masters.map (fun p => (p.1, phase2M resp (phase1M (some skip) p.2))) := by
    show (syncPhase2 (syncPhase1 (some skip) t.masters).1 resp t.counters).1 = _
    rw [syncPhase2_masters, syncPhase1_masters, List.map_map]
    rfl
  have hmS : (t.sync resp).1.masters =
      t.masters.map (fun p => (p.1, phase2M resp (phase1M none p.2))) := by
    show (syncPhase2 (syncPhase1 none t.masters).1 resp t.counters).1 = _
    rw [syncPhase2_masters, syncPhase1_masters, List.map_map]
    rfl
  have hevE : (t.efficientSync skip resp).2.filterMap evSync =
      (t.masters.filter (fun p => elig (some skip) p.2)).map (fun p => p.2.session) := by
    show ((syncPhase1 (some skip) t.masters).2 ++
      (syncPhase2 (syncPhase1 (some skip) t.masters).1 resp t.counters).2.2).filterMap
        evSync = _
    rw [List.filterMap_append, syncPhase2_evs_sync, syncPhase1_evs,
      filterMap_evSync_map, List.append_nil]
  have hevS : (t.sync resp).2.filterMap evSync =
      (t.masters.filter (fun p => elig none p.2)).map (fun p => p.2.session) := by
    show ((syncPhase1 none t.masters).2 ++
      (syncPhase2 (syncPhase1 none t.masters).1 resp t.counters).2.2).filterMap
        evSync = _
    rw [List.filterMap_append, syncPhase2_evs_sync, syncPhase1_evs,
      filterMap_evSync_map, List.append_nil]
  refine ⟨?_, ?_, ?_, ?_⟩
  · intro ss hss
    rw [hmE, hmS]
    have h1 := lookup_map_entry (fun m => phase2M resp (phase1M (some skip) m)) t.masters ss
    have h2 := lookup_map_entry (fun m => phase2M resp (phase1M none m)) t.masters ss
    rw [h1, h2]
    cases hl : t.masters.lookup ss with
    | none => rfl
    | some m =>
      have hm := hsess (ss, m) (lookup_mem _ _ _ hl)
      have heq : elig (some skip) m = elig none m := by
        simp only [elig]
        have hb : (m.session != skip) = true := by
          rw [bne_iff_ne]
          rw [hm]
          exact hss
        rw [hb]
      simp only [Option.map]
      have : phase1M (some skip) m = phase1M none m := by
        unfold phase1M
        rw [heq]
      rw [this]
  · rw [hmE]
    have h1 := lookup_map_entry (fun m => phase2M resp (phase1M (some skip) m)) t.masters skip
    rw [h1]
    cases hl : t.masters.lookup skip with
    | none => rfl
    | some m =>
      have hm := hsess (skip, m) (lookup_mem _ _ _ hl)
      have hm2 : m.session = skip := hm
      have h1m : phase1M (some skip) m = m := by
        unfold phase1M
        have hb : elig (some skip) m = false := by
          simp [elig, hm2]
        rw [hb]
        simp
      have h2m : phase2M resp m = m := by
        unfold phase2M
        rw [hholders (skip, m) (lookup_mem _ _ _ hl)]
      simp only [Option.map]
      rw [h1m, h2m]
  · rw [hevE, hevS]
    exact map_session_filter_skip t.masters skip hsess
  · rw [hevS]
    congr 1
    apply List.filter_congr
    intro p hp
    rw [elig_none]

/-- Witness for C8 at a concrete two-peer tracker with peer 1 skipped. -/
theorem c8_efficient_sync_equiv_witness :
    (∀ p ∈ (demoT2 [demoEntry 10 1 1] [demoEntry 12 2 2]).masters, p.2.session = p.1) ∧
    (∀ p ∈ (demoT2 [demoEntry 10 1 1] [demoEntry 12 2 2]).masters,
      p.2.syncRpcHolder = none) ∧
    ((demoT2 [demoEntry 10 1 1] [demoEntry 12 2 2]).efficientSync 1
        [(0, { appended := 20, synced := 20 })]).1.masters.lookup 0 =
      ((demoT2 [demoEntry 10 1 1] [demoEntry 12 2 2]).sync
        [(0, { appended := 20, synced := 20 })]).1.masters.lookup 0 ∧
    ((demoT2 [demoEntry 10 1 1] [demoEntry 12 2 2]).efficientSync 1
        [(0, { appended := 20, synced := 20 })]).1.masters.lookup 1 =
      (demoT2 [demoEntry 10 1 1] [demoEntry 12 2 2]).masters.lookup 1 := by
  refine ⟨by decide, by decide, ?_, ?_⟩
  · exact (c8_efficient_sync_equiv (demoT2 [demoEntry 10 1 1] [demoEntry 12 2 2]) 1
      [(0, { appended := 20, synced := 20 })] (by decide) (by decide)).1 0 (by decide)
  · exact (c8_efficient_sync_equiv (demoT2 [demoEntry 10 1 1] [demoEntry 12 2 2]) 1
      [(0, { appended := 20, synced := 20 })] (by decide) (by decide)).2.1

/-! The stored log state never decreases, operation by operation. -/

theorem lt_lastest_updateLogState (m : Master) (S : LogState) (cs : List Nat) :
    LogState.lt (Master.updateLogState m S cs).1.lastestLogState
      m.lastestLogState = false := by
  rw [updateLogState_lastest]
  exact LogState.lt_max_false m.lastestLogState S

theorem phase2M_lastest_mono (resp : List (Session × LogState)) (m : Master) :
    LogState.lt (phase2M resp m).lastestLogState m.lastestLogState = false := by
  unfold phase2M
  cases hh : m.syncRpcHolder with
  | none => exact LogState.lt_irrefl _
  | some g =>
    have := lt_lastest_updateLogState { m with syncRpcHolder := none }
      ((resp.lookup m.session).getD { appended := 0, synced := 0 }) []
    exact this

theorem registerEntry_lastest_mono (t : UnsyncedRpcTracker) (s : Session)
    (entry : UnsyncedRpc) (logPos : LogState) (k : Session) (ma mb : Master)
    (hma : t.masters.lookup k = some ma)
    (hmb : (t.registerEntry s entry logPos).1.masters.lookup k = some mb) :
    LogState.lt mb.lastestLogState ma.lastestLogState = false := by
  unfold UnsyncedRpcTracker.registerEntry at hmb
  cases hl : t.masters.lookup s with
  | some m =>
    rw [hl] at hmb
    by_cases hk : k = s
    · subst hk
      have hmm : ma = m := Option.some_inj.mp (hma.symm.trans hl)
      rw [lookup_setMaster_self _ _ m _ hl] at hmb
      have hbb : mb = (Master.updateLogState { m with rpcs := m.rpcs ++ [entry] }
          logPos t.counters).1 := (Option.some_inj.mp hmb).symm
      rw [hbb, hmm]
      exact lt_lastest_updateLogState { m with rpcs := m.rpcs ++ [entry] } logPos t.counters
    · rw [lookup_setMaster_ne _ _ _ _ hk] at hmb
      have : mb = ma := Option.some_inj.mp (hmb.symm.trans hma)
      rw [this]
      exact LogState.lt_irrefl _
  | none =>
    rw [hl] at hmb
    rw [lookup_append_some _ _ _ _ hma] at hmb
    have : ma = mb := Option.some_inj.mp hmb
    rw [← this]
    exact LogState.lt_irrefl _

theorem updateOp_lastest_mono (t : UnsyncedRpcTracker) (s : Session) (st : LogState)
    (k : Session) (ma mb : Master)
    (hma : t.masters.lookup k = some ma)
    (hmb : (t.updateLogState s st).1.masters.lookup k = some mb) :
    LogState.lt mb.lastestLogState ma.lastestLogState = false := by
  unfold UnsyncedRpcTracker.updateLogState at hmb
  cases hl : t.masters.lookup s with
  | some m =>
    rw [hl] at hmb
    by_cases hk : k = s
    · subst hk
      have hmm : ma = m := Option.some_inj.mp (hma.symm.trans hl)
      rw [lookup_setMaster_self _ _ m _ hl] at hmb
      have hbb : mb = (Master.updateLogState m st t.counters).1 :=
        (Option.some_inj.mp hmb).symm
      rw [hbb, hmm]
      exact lt_lastest_updateLogState m st t.counters
    · rw [lookup_setMaster_ne _ _ _ _ hk] at hmb
      have : mb = ma := Option.some_inj.mp (hmb.symm.trans hma)
      rw [this]
      exact LogState.lt_irrefl _
  | none =>
    rw [hl] at hmb
    have : ma = mb := Option.some_inj.mp (hma.symm.trans hmb)
    rw [← this]
    exact LogState.lt_irrefl _

theorem flushOp_lastest_mono (t : UnsyncedRpcTracker) (s : Session)
    (statuses : List Status) (k : Session) (ma mb : Master)
    (hma : t.masters.lookup k = some ma)
    (hmb : (t.flushSession s statuses).1.masters.lookup k = some mb) :
    LogState.lt mb.lastestLogState ma.lastestLogState = false := by
  unfold UnsyncedRpcTracker.flushSession at hmb
  cases hl : t.masters.lookup s with
  | some m =>
    rw [hl] at hmb
    by_cases hk : k = s
    · subst hk
      have hmm : ma = m := Option.some_inj.mp (hma.symm.trans hl)
      rw [lookup_setMaster_self _ _ m _ hl] at hmb
      have hbb : mb = { m with
          rpcs := (flushLoop m.rpcs statuses t.counters).1 } :=
        (Option.some_inj.mp hmb).symm
      rw [hbb, hmm]
      exact LogState.lt_irrefl _
    · rw [lookup_setMaster_ne _ _ _ _ hk] at hmb
      have : mb = ma := Option.some_inj.mp (hmb.symm.trans hma)
      rw [this]
      exact LogState.lt_irrefl _
  | none =>
    rw [hl] at hmb
    have : ma = mb := Option.some_inj.mp (hma.symm.trans hmb)
    rw [← this]
    exact LogState.lt_irrefl _

theorem syncRound_lastest_mono (skip : Option Session) (t : UnsyncedRpcTracker)
    (resp : List (Session × LogState)) (k : Session) (ma mb : Master)
    (hma : t.masters.lookup k = some ma)
    (hmb : (syncPhase2 (syncPhase1 skip t.masters).1 resp t.counters).1.lookup k =
      some mb) :
    LogState.lt mb.lastestLogState ma.lastestLogState = false := by
  rw [syncPhase2_masters, syncPhase1_masters, List.map_map] at hmb
  have h1 := lookup_map_entry (fun m => phase2M resp (phase1M skip m)) t.masters k
  have hmb2 : (t.masters.map
      (fun p => (p.1, phase2M resp (phase1M skip p.2)))).lookup k = some mb := hmb
  rw [h1, hma] at hmb2
  have : mb = phase2M resp (phase1M skip ma) := (Option.some_inj.mp hmb2).symm
  rw [this]
  have h2 := phase2M_lastest_mono resp (phase1M skip ma)
  rw [phase1M_lastest] at h2
  exact h2

theorem syncCbM_lastest (round num agg : Nat) (m : Master) :
    (syncCbM round num agg m).lastestLogState = m.lastestLogState := by
  unfold syncCbM
  split <;> rfl

theorem syncCb_lastest_mono (t : UnsyncedRpcTracker) (agg : Nat) (k : Session)
    (ma mb : Master) (hma : t.masters.lookup k = some ma)
    (hmb : (t.syncCallback agg).1.masters.lookup k = some mb) :
    LogState.lt mb.lastestLogState ma.lastestLogState = false := by
  unfold UnsyncedRpcTracker.syncCallback at hmb
  by_cases h : (((t.masters.filter (fun p => !p.2.rpcs.isEmpty)).length == 0) = true)
  · rw [if_pos h] at hmb
    have : ma = mb := Option.some_inj.mp (hma.symm.trans hmb)
    rw [← this]
    exact LogState.lt_irrefl _
  · rw [if_neg h] at hmb
    rw [lookup_map_entry _ _ k, hma] at hmb
    have : mb = syncCbM t.counters.length
        (t.masters.filter (fun p => !p.2.rpcs.isEmpty)).length agg ma :=
      (Option.some_inj.mp hmb).symm
    rw [this, syncCbM_lastest]
    exact LogState.lt_irrefl _

theorem dropWhile_head_not {α : Type} (p : α → Bool) (l : List α) :
    ∀ x ∈ (l.dropWhile p).head?, p x = false := by
  induction l with
  | nil => simp [List.dropWhile]
  | cons a t ih =>
    rw [List.dropWhile_cons]
    by_cases hp : p a = true
    · rw [if_pos hp]
      exact ih
    · rw [if_neg hp]
      intro x hx
      simp only [List.head?_cons, Option.mem_def, Option.some_inj] at hx
      rw [← hx, Bool.eq_false_iff]
      exact hp

theorem updateLogState_noop (m1 : Master) (S2 : LogState) (cs : List Nat)
    (hL : LogState.lt m1.lastestLogState S2 = false)
    (hq : ∀ x ∈ m1.rpcs.head?, coveredBy S2 x = false) :
    Master.updateLogState m1 S2 cs = (m1, cs, []) := by
  obtain ⟨sess, q, ll, hold⟩ := m1
  simp only [Master.updateLogState]
  simp only at hL hq
  rw [if_neg (by rw [hL]; exact Bool.false_ne_true)]
  cases q with
  | nil => simp [gcDrain]
  | cons x rest =>
    have hx : coveredBy S2 x = false := hq x (by simp)
    have hx2 : ¬ (LogState.isSynced x.logPosition S2 = true) := by
      rw [show LogState.isSynced x.logPosition S2 = coveredBy S2 x from rfl, hx]
      exact Bool.false_ne_true
    simp only [gcDrain]
    rw [if_neg hx2]

/-- C6: the stored LogState after Master::updateLogState equals the
maximum of the previously stored state and the reported one — so it never
decreases, and (last conjunct) no tracker operation whatsoever decreases
any master's stored state — and a second call with a state equal to or
smaller than an already applied one is a complete no-op: same record,
same counters, no callback firings. -/
theorem c6_monotonic_max_idempotent (m : Master) (S S2 : LogState) (cs : List Nat)
    (h2 : LogState.lt S S2 = false) :
    ((Master.updateLogState m S cs).1.lastestLogState = m.lastestLogState ∨
      (Master.updateLogState m S cs).1.lastestLogState = S) ∧
    LogState.lt (Master.updateLogState m S cs).1.lastestLogState
      m.lastestLogState = false ∧
    LogState.lt (Master.updateLogState m S cs).1.lastestLogState S = false ∧
    Master.updateLogState (Master.updateLogState m S cs).1 S2
        (Master.updateLogState m S cs).2.1 =
      ((Master.updateLogState m S cs).1, (Master.updateLogState m S cs).2.1, []) ∧
    (∀ (t : UnsyncedRpcTracker) (op : Op) (k : Session) (ma mb : Master),
      t.masters.lookup k = some ma →
      (t.step op).1.masters.lookup k = some mb →
      LogState.lt mb.lastestLogState ma.lastestLogState = false) := by
  have hmax3 : LogState.lt (Master.updateLogState m S cs).1.lastestLogState S = false := by
    rw [updateLogState_lastest]
    by_cases hL : LogState.lt m.lastestLogState S = true
    · rw [if_pos hL]
      exact LogState.lt_irrefl S
    · rw [if_neg hL]
      rw [Bool.eq_false_iff]
      exact hL
  refine ⟨?_, lt_lastest_updateLogState m S cs, hmax3, ?_, ?_⟩
  · rw [updateLogState_lastest]
    by_cases hL : LogState.lt m.lastestLogState S = true
    · rw [if_pos hL]
      right
      rfl
    · rw [if_neg hL]
      left
      rfl
  · apply updateLogState_noop
    · exact LogState.lt_false_trans _ _ _ hmax3 h2
    · intro x hx
      have hx1 : coveredBy S x = false := by
        apply dropWhile_head_not (coveredBy S) m.rpcs
        rw [← updateLogState_rpcs m S cs]
        exact hx
      rw [coveredBy_false_iff] at hx1 ⊢
      rw [LogState.lt_false_iff] at h2
      omega
  · intro t op k ma mb hma hmb
    cases op with
    | register s req tableId keyHash objVer pos cb =>
      exact registerEntry_lastest_mono t s _ pos k ma mb hma hmb
    | registerTx s txTask pos =>
      exact registerEntry_lastest_mono t s _ pos k ma mb hma hmb
    | update s st => exact updateOp_lastest_mono t s st k ma mb hma hmb
    | flush s statuses => exact flushOp_lastest_mono t s statuses k ma mb hma hmb
    | syncBlocking resp => exact syncRound_lastest_mono none t resp k ma mb hma hmb
    | effSync skip resp => exact syncRound_lastest_mono (some skip) t resp k ma mb hma hmb
    | syncCb agg => exact syncCb_lastest_mono t agg k ma mb hma hmb

/-- Witness for C6: the scenario master folded at (20,20) and then at the
smaller (15,15), which changes nothing. -/
theorem c6_monotonic_max_idempotent_witness :
    LogState.lt { appended := 20, synced := 20 } { appended := 15, synced := 15 } = false ∧
    Master.updateLogState
        (Master.updateLogState
          (demoMaster [demoEntry 10 1 1, demoEntry 20 2 2, demoEntry 30 3 3])
          { appended := 20, synced := 20 } []).1
        { appended := 15, synced := 15 }
        (Master.updateLogState
          (demoMaster [demoEntry 10 1 1, demoEntry 20 2 2, demoEntry 30 3 3])
          { appended := 20, synced := 20 } []).2.1 =
      ((Master.updateLogState
          (demoMaster [demoEntry 10 1 1, demoEntry 20 2 2, demoEntry 30 3 3])
          { appended := 20, synced := 20 } []).1,
       (Master.updateLogState
          (demoMaster [demoEntry 10 1 1, demoEntry 20 2 2, demoEntry 30 3 3])
          { appended := 20, synced := 20 } []).2.1, []) :=
  ⟨by decide,
   (c6_monotonic_max_idempotent
     (demoMaster [demoEntry 10 1 1, demoEntry 20 2 2, demoEntry 30 3 3])
     { appended := 20, synced := 20 } { appended := 15, synced := 15 } []
     (by decide)).2.2.2.1⟩

/-! Counter accounting for one fan-in round. -/

theorem getD_set_self (cs : List Nat) (i v : Nat) (h : i < cs.length) :
    (cs.set i v).getD i 0 = v := by
  rw [List.getD_eq_getElem?_getD]
  rw [List.getElem?_set_self]
  · rfl
  · exact h

theorem getD_set_ne (cs : List Nat) (i j v : Nat) (h : i ≠ j) :
    (cs.set i v).getD j 0 = cs.getD j 0 := by
  rw [List.getD_eq_getElem?_getD, List.getD_eq_getElem?_getD]
  rw [List.getElem?_set_ne h]

theorem runCb_fanin (r n a : Nat) (cb : Cb) (cs : List Nat)
    (hshape : tagShapeOk r n a cb = true) (hr : r < cs.length) :
    (runCb cb cs).1.length = cs.length ∧
    (runCb cb cs).1.getD r 0 =
      cs.getD r 0 + (if cbMentions a cb then 1 else 0) ∧
    aggCount a (runCb cb cs).2 =
      (if cbMentions a cb then (if n ≤ cs.getD r 0 + 1 then 1 else 0) else 0) := by
  cases cb with
  | user i =>
    simp [runCb, cbMentions, aggCount, List.count_cons, List.count_nil]
  | nop =>
    simp [runCb, cbMentions, aggCount, List.count_cons, List.count_nil]
  | fanin r2 n2 b =>
    by_cases hb : (b == a) = true
    · have hba : b = a := beq_iff_eq.mp hb
      simp only [tagShapeOk, hb, if_true, Bool.and_eq_true, beq_iff_eq] at hshape
      obtain ⟨hr2, hn2⟩ := hshape
      subst hba
      subst hr2
      subst hn2
      have hcondm : cbMentions b (Cb.fanin r2 n2 b) = true := by simp [cbMentions]
      rw [hcondm]
      simp only [if_true]
      refine ⟨?_, ?_, ?_⟩
      · simp only [runCb]
        split <;> simp [List.length_set]
      · simp only [runCb]
        split <;> exact getD_set_self _ _ _ hr
      · simp only [runCb]
        by_cases hc : n2 ≤ cs.getD r2 0 + 1
        · rw [if_pos hc, if_pos hc]
          simp [aggCount, List.count_cons, List.count_nil]
        · rw [if_neg hc, if_neg hc]
          simp [aggCount, List.count_cons, List.count_nil]
    · have hb2 : (b == a) = false := by
        rw [Bool.eq_false_iff]
        exact hb
      simp only [tagShapeOk, hb2, Bool.false_eq_true, if_false] at hshape
      have hrne : r2 ≠ r := bne_iff_ne.mp hshape
      have hmen : cbMentions a (Cb.fanin r2 n2 b) = false := by
        simp [cbMentions, hb2]
      rw [hmen]
      have hbne : b ≠ a := by
        intro hcon
        rw [hcon] at hb2
        simp at hb2
      have hba : Event.agg b ≠ Event.agg a := by
        intro hcon
        apply hbne
        injection hcon
      simp only [Bool.false_eq_true, if_false]
      refine ⟨?_, ?_, ?_⟩
      · simp only [runCb]
        split <;> simp [List.length_set]
      · simp only [runCb]
        split <;> simpa using getD_set_ne cs r2 r _ hrne
      · simp only [runCb]
        split <;> simp [aggCount, List.count_cons, List.count_nil, hba]

theorem aggCount_append (a : Nat) (l1 l2 : List Event) :
    aggCount a (l1 ++ l2) = aggCount a l1 + aggCount a l2 := by
  simp [aggCount, List.count_append]

theorem aggCount_txFree (a : Nat) (e : UnsyncedRpc) :
    aggCount a (if e.txWithUnsyncedPrepare.isSome then ([] : List Event)
      else [Event.free e.request.data]) = 0 := by
  split <;> simp [aggCount, List.count_cons, List.count_nil]

theorem mcountQ_cons (a : Nat) (e : UnsyncedRpc) (rest : List UnsyncedRpc) :
    mcountQ a (e :: rest) =
      (if cbMentions a e.callback then 1 else 0) + mcountQ a rest := by
  by_cases hm : cbMentions a e.callback = true
  · simp [mcountQ, List.filter_cons, hm]
    omega
  · rw [Bool.not_eq_true] at hm
    simp [mcountQ, List.filter_cons, hm]

theorem gcDrain_fanin (r n a : Nat) (S : LogState) (q : List UnsyncedRpc)
    (cs : List Nat)
    (hshape : ∀ e ∈ q, tagShapeOk r n a e.callback = true)
    (hr : r < cs.length)
    (hbound : cs.getD r 0 + mcountQ a q ≤ n) :
    (gcDrain S q cs).2.1.length = cs.length ∧
    (gcDrain S q cs).2.1.getD r 0 + mcountQ a (gcDrain S q cs).1 =
      cs.getD r 0 + mcountQ a q ∧
    mcountQ a (gcDrain S q cs).1 ≤ mcountQ a q ∧
    aggCount a (gcDrain S q cs).2.2 =
      (if (gcDrain S q cs).2.1.getD r 0 = n ∧
          mcountQ a (gcDrain S q cs).1 < mcountQ a q then 1 else 0) := by
  induction q generalizing cs with
  | nil =>
    simp [gcDrain, mcountQ, aggCount]
  | cons e rest ih =>
    have hsh_e := hshape e (by simp)
    have hsh_r : ∀ x ∈ rest, tagShapeOk r n a x.callback = true :=
      fun x hx => hshape x (by simp [hx])
    by_cases hcov : LogState.isSynced e.logPosition S = true
    · obtain ⟨hL, hG, hA⟩ := runCb_fanin r n a e.callback cs hsh_e hr
      have hmc := mcountQ_cons a e rest
      have hr1 : r < (runCb e.callback cs).1.length := by
        rw [hL]
        exact hr
      have hbound1 : (runCb e.callback cs).1.getD r 0 + mcountQ a rest ≤ n := by
        by_cases hm : cbMentions a e.callback = true
        · have hG2 : (runCb e.callback cs).1.getD r 0 = cs.getD r 0 + 1 := by
            rw [hG, if_pos hm]
          have hmc2 : mcountQ a (e :: rest) = 1 + mcountQ a rest := by
            rw [hmc, if_pos hm]
          omega
        · have hG2 : (runCb e.callback cs).1.getD r 0 = cs.getD r 0 := by
            rw [hG, if_neg hm]
            omega
          have hmc2 : mcountQ a (e :: rest) = mcountQ a rest := by
            rw [hmc, if_neg hm]
            omega
          omega
      obtain ⟨ihL, ihG, ihLe, ihA⟩ := ih (runCb e.callback cs).1 hsh_r hr1 hbound1
      have hgc : gcDrain S (e :: rest) cs =
          ((gcDrain S rest (runCb e.callback cs).1).1,
           (gcDrain S rest (runCb e.callback cs).1).2.1,
           (runCb e.callback cs).2 ++
             (if e.txWithUnsyncedPrepare.isSome then ([] : List Event)
              else [Event.free e.request.data]) ++
             (gcDrain S rest (runCb e.callback cs).1).2.2) := by
        simp only [gcDrain]
        rw [if_pos hcov]
      rw [hgc]
      simp only []
      by_cases hm : cbMentions a e.callback = true
      · have hG2 : (runCb e.callback cs).1.getD r 0 = cs.getD r 0 + 1 := by
          rw [hG, if_pos hm]
        have hmc2 : mcountQ a (e :: rest) = 1 + mcountQ a rest := by
          rw [hmc, if_pos hm]
        have hA2 : aggCount a (runCb e.callback cs).2 =
            (if n ≤ cs.getD r 0 + 1 then 1 else 0) := by
          rw [hA, if_pos hm]
        refine ⟨ihL.trans hL, by omega, by omega, ?_⟩
        rw [aggCount_append, aggCount_append, aggCount_txFree, hA2, ihA, hmc2]
        by_cases hc : n ≤ cs.getD r 0 + 1
        · have hn1 : n = cs.getD r 0 + 1 := by omega
          have hrest0 : mcountQ a rest = 0 := by omega
          rw [if_pos hc]
          rw [if_neg (by rintro ⟨h1, h2⟩; omega)]
          rw [if_pos (by refine ⟨by omega, by omega⟩)]
        · rw [if_neg hc]
          by_cases h1 : ((gcDrain S rest (runCb e.callback cs).1).2.1.getD r 0 = n ∧
              mcountQ a (gcDrain S rest (runCb e.callback cs).1).1 < mcountQ a rest)
          · rw [if_pos h1]
            obtain ⟨h1a, h1b⟩ := h1
            rw [if_pos (by refine ⟨h1a, by omega⟩)]
          · rw [if_neg h1]
            rw [if_neg (by rintro ⟨h2a, h2b⟩; exact h1 ⟨h2a, by omega⟩)]
      · have hG2 : (runCb e.callback cs).1.getD r 0 = cs.getD r 0 := by
          rw [hG, if_neg hm]
          omega
        have hmc2 : mcountQ a (e :: rest) = mcountQ a rest := by
          rw [hmc, if_neg hm]
          omega
        have hA2 : aggCount a (runCb e.callback cs).2 = 0 := by
          rw [hA, if_neg hm]
        refine ⟨ihL.trans hL, by omega, by omega, ?_⟩
        rw [aggCount_append, aggCount_append, aggCount_txFree, hA2, ihA, hmc2]
        by_cases h1 : ((gcDrain S rest (runCb e.callback cs).1).2.1.getD r 0 = n ∧
            mcountQ a (gcDrain S rest (runCb e.callback cs).1).1 < mcountQ a rest)
        · rw [if_pos h1]
        · rw [if_neg h1]
    · have hgc : gcDrain S (e :: rest) cs = (e :: rest, cs, []) := by
        simp only [gcDrain]
        rw [if_neg hcov]
      rw [hgc]
      simp [aggCount]

/-! Behaviour of the flush retry loop. -/

theorem waitOk_ok (st : Status) (h : waitOk st = true) :
    RetryUnsyncedRpc.wait st = Except.ok () := by
  cases st <;> simp [waitOk] at h ⊢ <;> rfl

theorem headD_waitOk (sts : List Status) (hok : ∀ st ∈ sts, waitOk st = true) :
    waitOk (sts.headD Status.ok) = true := by
  cases sts with
  | nil => rfl
  | cons s t => exact hok s (by simp)

theorem tail_waitOk (sts : List Status) (hok : ∀ st ∈ sts, waitOk st = true) :
    ∀ st ∈ sts.tail, waitOk st = true := by
  intro st hst
  cases sts with
  | nil => simp at hst
  | cons s t => exact hok st (by simp at hst; simp [hst])

theorem flushLoop_ok_drain (q : List UnsyncedRpc) (sts : List Status)
    (cs : List Nat) (hok : ∀ st ∈ sts, waitOk st = true) :
    (flushLoop q sts cs).1 = [] ∧ (flushLoop q sts cs).2.2.2 = none := by
  induction q generalizing sts cs with
  | nil => simp [flushLoop]
  | cons e rest ih =>
    by_cases htx : e.txWithUnsyncedPrepare.isSome = true
    · have : flushLoop (e :: rest) sts cs = flushLoop rest sts cs := by
        simp only [flushLoop]
        rw [if_pos htx]
      rw [this]
      exact ih sts cs hok
    · have hw : RetryUnsyncedRpc.wait (sts.headD Status.ok) = Except.ok () :=
        waitOk_ok _ (headD_waitOk sts hok)
    
      have : flushLoop (e :: rest) sts cs =
          ((flushLoop rest sts.tail (runCb e.callback cs).1).1,
           (flushLoop rest sts.tail (runCb e.callback cs).1).2.1,
           Event.retrySent e.request.data ::
             ((runCb e.callback cs).2 ++ [Event.free e.request.data] ++
              (flushLoop rest sts.tail (runCb e.callback cs).1).2.2.1),
           (flushLoop rest sts.tail (runCb e.callback cs).1).2.2.2) := by
        simp only [flushLoop]
        rw [if_neg htx, hw]
      rw [this]
      exact ih sts.tail _ (tail_waitOk sts hok)

theorem flushLoop_ok_invoked (q : List UnsyncedRpc) (sts : List Status)
    (cs : List Nat) (hok : ∀ st ∈ sts, waitOk st = true) :
    (flushLoop q sts cs).2.2.1.filterMap evInvoked =
      (q.filter (fun e => e.txWithUnsyncedPrepare.isNone)).map (fun e => e.callback) := by
  induction q generalizing sts cs with
  | nil => simp [flushLoop]
  | cons e rest ih =>
    by_cases htx : e.txWithUnsyncedPrepare.isSome = true
    · have hstep : flushLoop (e :: rest) sts cs = flushLoop rest sts cs := by
        simp only [flushLoop]
        rw [if_pos htx]
      have hnone : e.txWithUnsyncedPrepare.isNone = false := by
        cases hv : e.txWithUnsyncedPrepare with
        | none =>
          rw [hv] at htx
          simp at htx
        | some v => simp
      rw [hstep, List.filter_cons, if_neg (by rw [hnone]; exact Bool.false_ne_true)]
      exact ih sts cs hok
    · have hw : RetryUnsyncedRpc.wait (sts.headD Status.ok) = Except.ok () :=
        waitOk_ok _ (headD_waitOk sts hok)
      have hstep : flushLoop (e :: rest) sts cs =
          ((flushLoop rest sts.tail (runCb e.callback cs).1).1,
           (flushLoop rest sts.tail (runCb e.callback cs).1).2.1,
           Event.retrySent e.request.data ::
             ((runCb e.callback cs).2 ++ [Event.free e.request.data] ++
              (flushLoop rest sts.tail (runCb e.callback cs).1).2.2.1),
           (flushLoop rest sts.tail (runCb e.callback cs).1).2.2.2) := by
        simp only [flushLoop]
        rw [if_neg htx, hw]
      have hnone : e.txWithUnsyncedPrepare.isNone = true := by
        cases hv : e.txWithUnsyncedPrepare with
        | none => simp
        | some v =>
          rw [hv] at htx
          simp at htx
      rw [hstep, List.filter_cons, if_pos (by rw [hnone])]
      simp only [List.filterMap_cons, evInvoked, List.filterMap_append,
        runCb_filterMap_invoked, List.map_cons]
      rw [ih sts.tail _ (tail_waitOk sts hok)]
      simp [evInvoked]

theorem flushLoop_ok_free (q : List UnsyncedRpc) (sts : List Status)
    (cs : List Nat) (hok : ∀ st ∈ sts, waitOk st = true) :
    (flushLoop q sts cs).2.2.1.filterMap evFree =
      (q.filter (fun e => e.txWithUnsyncedPrepare.isNone)).map
        (fun e => e.request.data) := by
  induction q generalizing sts cs with
  | nil => simp [flushLoop]
  | cons e rest ih =>
    by_cases htx : e.txWithUnsyncedPrepare.isSome = true
    · have hstep : flushLoop (e :: rest) sts cs = flushLoop rest sts cs := by
        simp only [flushLoop]
        rw [if_pos htx]
      have hnone : e.txWithUnsyncedPrepare.isNone = false := by
        cases hv : e.txWithUnsyncedPrepare with
        | none =>
          rw [hv] at htx
          simp at htx
        | some v => simp
      rw [hstep, List.filter_cons, if_neg (by rw [hnone]; exact Bool.false_ne_true)]
      exact ih sts cs hok
    · have hw : RetryUnsyncedRpc.wait (sts.headD Status.ok) = Except.ok () :=
        waitOk_ok _ (headD_waitOk sts hok)
      have hstep : flushLoop (e :: rest) sts cs =
          ((flushLoop rest sts.tail (runCb e.callback cs).1).1,
           (flushLoop rest sts.tail (runCb e.callback cs).1).2.1,
           Event.retrySent e.request.data ::
             ((runCb e.callback cs).2 ++ [Event.free e.request.data] ++
              (flushLoop rest sts.tail (runCb e.callback cs).1).2.2.1),
           (flushLoop rest sts.tail (runCb e.callback cs).1).2.2.2) := by
        simp only [flushLoop]
        rw [if_neg htx, hw]
      have hnone : e.txWithUnsyncedPrepare.isNone = true := by
        cases hv : e.txWithUnsyncedPrepare with
        | none => simp
        | some v =>
          rw [hv] at htx
          simp at htx
      rw [hstep, List.filter_cons, if_pos (by rw [hnone])]
      simp only [List.filterMap_cons, evFree, List.filterMap_append,
        runCb_filterMap_free, List.map_cons]
      rw [ih sts.tail _ (tail_waitOk sts hok)]
      simp [evFree]

theorem flushLoop_ok_retry (q : List UnsyncedRpc) (sts : List Status)
    (cs : List Nat) (hok : ∀ st ∈ sts, waitOk st = true) :
    (flushLoop q sts cs).2.2.1.filterMap evRetry =
      (q.filter (fun e => e.txWithUnsyncedPrepare.isNone)).map
        (fun e => e.request.data) := by
  induction q generalizing sts cs with
  | nil => simp [flushLoop]
  | cons e rest ih =>
    by_cases htx : e.txWithUnsyncedPrepare.isSome = true
    · have hstep : flushLoop (e :: rest) sts cs = flushLoop rest sts cs := by
        simp only [flushLoop]
        rw [if_pos htx]
      have hnone : e.txWithUnsyncedPrepare.isNone = false := by
        cases hv : e.txWithUnsyncedPrepare with
        | none =>
          rw [hv] at htx
          simp at htx
        | some v => simp
      rw [hstep, List.filter_cons, if_neg (by rw [hnone]; exact Bool.false_ne_true)]
      exact ih sts cs hok
    · have hw : RetryUnsyncedRpc.wait (sts.headD Status.ok) = Except.ok () :=
        waitOk_ok _ (headD_waitOk sts hok)
      have hstep : flushLoop (e :: rest) sts cs =
          ((flushLoop rest sts.tail (runCb e.callback cs).1).1,
           (flushLoop rest sts.tail (runCb e.callback cs).1).2.1,
           Event.retrySent e.request.data ::
             ((runCb e.callback cs).2 ++ [Event.free e.request.data] ++
              (flushLoop rest sts.tail (runCb e.callback cs).1).2.2.1),
           (flushLoop rest sts.tail (runCb e.callback cs).1).2.2.2) := by
        simp only [flushLoop]
        rw [if_neg htx, hw]
      have hnone : e.txWithUnsyncedPrepare.isNone = true := by
        cases hv : e.txWithUnsyncedPrepare with
        | none => simp
        | some v =>
          rw [hv] at htx
          simp at htx
      rw [hstep, List.filter_cons, if_pos (by rw [hnone])]
      simp only [List.filterMap_cons, evRetry, List.filterMap_append,
        runCb_filterMap_retry, List.map_cons]
      rw [ih sts.tail _ (tail_waitOk sts hok)]
      simp [evRetry]

theorem flushLoop_fanin (r n a : Nat) (q : List UnsyncedRpc) (sts : List Status)
    (cs : List Nat)
    (hshape : ∀ e ∈ q, tagShapeOk r n a e.callback = true)
    (htxm : ∀ e ∈ q, e.txWithUnsyncedPrepare.isSome = true →
      cbMentions a e.callback = false)
    (hr : r < cs.length)
    (hbound : cs.getD r 0 + mcountQ a q ≤ n) :
    (flushLoop q sts cs).2.1.length = cs.length ∧
    (flushLoop q sts cs).2.1.getD r 0 + mcountQ a (flushLoop q sts cs).1 =
      cs.getD r 0 + mcountQ a q ∧
    mcountQ a (flushLoop q sts cs).1 ≤ mcountQ a q ∧
    aggCount a (flushLoop q sts cs).2.2.1 =
      (if (flushLoop q sts cs).2.1.getD r 0 = n ∧
          mcountQ a (flushLoop q sts cs).1 < mcountQ a q then 1 else 0) := by
  induction q generalizing sts cs with
  | nil =>
    simp [flushLoop, mcountQ, aggCount]
  | cons e rest ih =>
    have hsh_e := hshape e (by simp)
    have hsh_r : ∀ x ∈ rest, tagShapeOk r n a x.callback = true :=
      fun x hx => hshape x (by simp [hx])
    have htx_r : ∀ x ∈ rest, x.txWithUnsyncedPrepare.isSome = true →
        cbMentions a x.callback = false :=
      fun x hx => htxm x (by simp [hx])
    have hmc := mcountQ_cons a e rest
    by_cases htx : e.txWithUnsyncedPrepare.isSome = true
    · have hstep : flushLoop (e :: rest) sts cs = flushLoop rest sts cs := by
        simp only [flushLoop]
        rw [if_pos htx]
      have hm0 : cbMentions a e.callback = false := htxm e (by simp) htx
      have hmc2 : mcountQ a (e :: rest) = mcountQ a rest := by
        rw [hmc, if_neg (by rw [hm0]; exact Bool.false_ne_true)]
        omega
      rw [hstep, hmc2]
      exact ih sts cs hsh_r htx_r hr (by omega)
    · cases hw : RetryUnsyncedRpc.wait (sts.headD Status.ok) with
      | error err =>
        have hstep : flushLoop (e :: rest) sts cs =
            (e :: rest, cs, [Event.retrySent e.request.data], some err) := by
          simp only [flushLoop]
          rw [if_neg htx, hw]
        rw [hstep]
        simp [aggCount, List.count_cons, List.count_nil]
      | ok u =>
        obtain ⟨hL, hG, hA⟩ := runCb_fanin r n a e.callback cs hsh_e hr
        have hr1 : r < (runCb e.callback cs).1.length := by
          rw [hL]
          exact hr
        have hbound1 : (runCb e.callback cs).1.getD r 0 + mcountQ a rest ≤ n := by
          by_cases hm : cbMentions a e.callback = true
          · have hG2 : (runCb e.callback cs).1.getD r 0 = cs.getD r 0 + 1 := by
              rw [hG, if_pos hm]
            have hmc2 : mcountQ a (e :: rest) = 1 + mcountQ a rest := by
              rw [hmc, if_pos hm]
            omega
          · have hG2 : (runCb e.callback cs).1.getD r 0 = cs.getD r 0 := by
              rw [hG, if_neg hm]
              omega
            have hmc2 : mcountQ a (e :: rest) = mcountQ a rest := by
              rw [hmc, if_neg hm]
              omega
            omega
        obtain ⟨ihL, ihG, ihLe, ihA⟩ :=
          ih sts.tail (runCb e.callback cs).1 hsh_r htx_r hr1 hbound1
        have hstep : flushLoop (e :: rest) sts cs =
            ((flushLoop rest sts.tail (runCb e.callback cs).1).1,
             (flushLoop rest sts.tail (runCb e.callback cs).1).2.1,
             Event.retrySent e.request.data ::
               ((runCb e.callback cs).2 ++ [Event.free e.request.data] ++
                (flushLoop rest sts.tail (runCb e.callback cs).1).2.2.1),
             (flushLoop rest sts.tail (runCb e.callback cs).1).2.2.2) := by
          simp only [flushLoop]
          rw [if_neg htx, hw]
        rw [hstep]
        simp only []
        have haggcons : aggCount a (Event.retrySent e.request.data ::
            ((runCb e.callback cs).2 ++ [Event.free e.request.data] ++
             (flushLoop rest sts.tail (runCb e.callback cs).1).2.2.1)) =
            aggCount a (runCb e.callback cs).2 +
            aggCount a (flushLoop rest sts.tail (runCb e.callback cs).1).2.2.1 := by
          simp [aggCount, List.count_cons, List.count_append, List.count_nil]
        by_cases hm : cbMentions a e.callback = true
        · have hG2 : (runCb e.callback cs).1.getD r 0 = cs.getD r 0 + 1 := by
            rw [hG, if_pos hm]
          have hmc2 : mcountQ a (e :: rest) = 1 + mcountQ a rest := by
            rw [hmc, if_pos hm]
          have hA2 : aggCount a (runCb e.callback cs).2 =
              (if n ≤ cs.getD r 0 + 1 then 1 else 0) := by
            rw [hA, if_pos hm]
          refine ⟨ihL.trans hL, by omega, by omega, ?_⟩
          rw [haggcons, hA2, ihA, hmc2]
          by_cases hc : n ≤ cs.getD r 0 + 1
          · have hrest0 : mcountQ a rest = 0 := by omega
            rw [if_pos hc]
            rw [if_neg (by rintro ⟨h1, h2⟩; omega)]
            rw [if_pos (by refine ⟨by omega, by omega⟩)]
          · rw [if_neg hc]
            by_cases h1 : ((flushLoop rest sts.tail (runCb e.callback cs).1).2.1.getD r 0 = n ∧
                mcountQ a (flushLoop rest sts.tail (runCb e.callback cs).1).1 <
                  mcountQ a rest)
            · rw [if_pos h1]
              obtain ⟨h1a, h1b⟩ := h1
              rw [if_pos (by refine ⟨h1a, by omega⟩)]
            · rw [if_neg h1]
              rw [if_neg (by rintro ⟨h2a, h2b⟩; exact h1 ⟨h2a, by omega⟩)]
        · have hG2 : (runCb e.callback cs).1.getD r 0 = cs.getD r 0 := by
            rw [hG, if_neg hm]
            omega
          have hmc2 : mcountQ a (e :: rest) = mcountQ a rest := by
            rw [hmc, if_neg hm]
            omega
          have hA2 : aggCount a (runCb e.callback cs).2 = 0 := by
            rw [hA, if_neg hm]
          refine ⟨ihL.trans hL, by omega, by omega, ?_⟩
          rw [haggcons, hA2, ihA, hmc2]
          by_cases h1 : ((flushLoop rest sts.tail (runCb e.callback cs).1).2.1.getD r 0 = n ∧
              mcountQ a (flushLoop rest sts.tail (runCb e.callback cs).1).1 <
                mcountQ a rest)
          · rw [if_pos h1]
          · rw [if_neg h1]

/-- C5 (counterexample): the claim fails on the code at a queue holding a
single transaction-prepare entry.  flushSession removes the entry from
the queue and produces no retry, no callback invocation, no payload
release and no error: the entry is silently dropped rather than left
unresolved-but-surfaced. -/
theorem c5_counterexample :
    (demoT [demoTxEntry]).flushSession 0 [] =
      ({ masters := [(0, demoMaster [])], counters := [] }, [], none) := by
  decide

/-- C5 (amended): flushSession on an unknown session is a no-op; on a
known session it drains the queue in FIFO order, resolving every
non-transaction entry — a retry exchange is sent and waited for, the
original callback fires and the payload is released — while
transaction-prepare entries are popped with no retry, no callback and no
release (silently dropped), and the master record remains in the map with
an empty queue. -/
theorem c5_flush_amended (t : UnsyncedRpcTracker) (s : Session)
    (statuses : List Status) (m : Master)
    (hok : ∀ st ∈ statuses, waitOk st = true)
    (hm : t.masters.lookup s = some m) :
    (∀ (t2 : UnsyncedRpcTracker) (s2 : Session) (st2 : List Status),
      t2.masters.lookup s2 = none → t2.flushSession s2 st2 = (t2, [], none)) ∧
    (t.flushSession s statuses).1.masters.lookup s = some { m with rpcs := [] } ∧
    (t.flushSession s statuses).2.2 = none ∧
    (t.flushSession s statuses).2.1.filterMap evRetry =
      (m.rpcs.filter (fun e => e.txWithUnsyncedPrepare.isNone)).map
        (fun e => e.request.data) ∧
    (t.flushSession s statuses).2.1.filterMap evInvoked =
      (m.rpcs.filter (fun e => e.txWithUnsyncedPrepare.isNone)).map
        (fun e => e.callback) ∧
    (t.flushSession s statuses).2.1.filterMap evFree =
      (m.rpcs.filter (fun e => e.txWithUnsyncedPrepare.isNone)).map
        (fun e => e.request.data) := by
  obtain ⟨hdrain, herr⟩ := flushLoop_ok_drain m.rpcs statuses t.counters hok
  refine ⟨?_, ?_, ?_, ?_, ?_, ?_⟩
  · intro t2 s2 st2 h2
    simp [UnsyncedRpcTracker.flushSession, h2]
  · show (UnsyncedRpcTracker.flushSession t s statuses).1.masters.lookup s = _
    simp only [UnsyncedRpcTracker.flushSession, hm]
    rw [lookup_setMaster_self _ _ m _ hm, hdrain]
  · simp only [UnsyncedRpcTracker.flushSession, hm]
    exact herr
  · simp only [UnsyncedRpcTracker.flushSession, hm]
    exact flushLoop_ok_retry m.rpcs statuses t.counters hok
  · simp only [UnsyncedRpcTracker.flushSession, hm]
    exact flushLoop_ok_invoked m.rpcs statuses t.counters hok
  · simp only [UnsyncedRpcTracker.flushSession, hm]
    exact flushLoop_ok_free m.rpcs statuses t.counters hok

/-- Witness for C5 (amended) at a concrete two-entry queue with an OK and
a STALE_RPC retry response. -/
theorem c5_flush_amended_witness :
    (∀ st ∈ [Status.ok, Status.staleRpc], waitOk st = true) ∧
    (demoT [demoEntry 10 1 1, demoEntry 20 2 2]).masters.lookup 0 =
      some (demoMaster [demoEntry 10 1 1, demoEntry 20 2 2]) ∧
    ((demoT [demoEntry 10 1 1, demoEntry 20 2 2]).flushSession 0
        [Status.ok, Status.staleRpc]).1.masters.lookup 0 =
      some { demoMaster [demoEntry 10 1 1, demoEntry 20 2 2] with rpcs := [] } ∧
    ((demoT [demoEntry 10 1 1, demoEntry 20 2 2]).flushSession 0
        [Status.ok, Status.staleRpc]).2.1.filterMap evRetry =
      ([demoEntry 10 1 1, demoEntry 20 2 2].filter
        (fun e => e.txWithUnsyncedPrepare.isNone)).map (fun e => e.request.data) :=
  ⟨by decide, by decide,
   (c5_flush_amended (demoT [demoEntry 10 1 1, demoEntry 20 2 2]) 0
     [Status.ok, Status.staleRpc] (demoMaster [demoEntry 10 1 1, demoEntry 20 2 2])
     (by decide) (by decide)).2.1,
   (c5_flush_amended (demoT [demoEntry 10 1 1, demoEntry 20 2 2]) 0
     [Status.ok, Status.staleRpc] (demoMaster [demoEntry 10 1 1, demoEntry 20 2 2])
     (by decide) (by decide)).2.2.2.1⟩

/-- C10: once sync(callback) has installed its fan-in wrapper as an
entry's callback, any path that resolves the entry invokes the wrapper:
when it is the round's last outstanding wrapper (counter at n-1), both
the flushSession retry drain and updateLogState garbage collection
deliver the aggregate callback exactly once. -/
theorem c10_flush_invokes_wrapper (t : UnsyncedRpcTracker) (s : Session) (m : Master)
    (r n a : Nat) (statuses : List Status) (S : LogState)
    (hm : t.masters.lookup s = some m)
    (hshape : ∀ e ∈ m.rpcs, tagShapeOk r n a e.callback = true)
    (hnotx : ∀ e ∈ m.rpcs, e.txWithUnsyncedPrepare = none)
    (hr : r < t.counters.length)
    (hone : mcountQ a m.rpcs = 1)
    (hctr : t.counters.getD r 0 + 1 = n)
    (hok : ∀ st ∈ statuses, waitOk st = true)
    (hcov : ∀ e ∈ m.rpcs, coveredBy S e = true) :
    aggCount a (t.flushSession s statuses).2.1 = 1 ∧
    aggCount a (t.updateLogState s S).2 = 1 := by
  have htxm : ∀ e ∈ m.rpcs, e.txWithUnsyncedPrepare.isSome = true →
      cbMentions a e.callback = false := by
    intro e he hsome
    rw [hnotx e he] at hsome
    simp at hsome
  constructor
  · simp only [UnsyncedRpcTracker.flushSession, hm]
    obtain ⟨hL, hB, hLe, hAgg⟩ :=
      flushLoop_fanin r n a m.rpcs statuses t.counters hshape htxm hr (by omega)
    obtain ⟨hdrain, _⟩ := flushLoop_ok_drain m.rpcs statuses t.counters hok
    have hz : mcountQ a (flushLoop m.rpcs statuses t.counters).1 = 0 := by
      rw [hdrain]
      simp [mcountQ]
    rw [hAgg]
    rw [if_pos (by refine ⟨by omega, by omega⟩)]
  · simp only [UnsyncedRpcTracker.updateLogState, hm]
    show aggCount a (Master.updateLogState m S t.counters).2.2 = 1
    show aggCount a (gcDrain S m.rpcs t.counters).2.2 = 1
    obtain ⟨hL, hB, hLe, hAgg⟩ :=
      gcDrain_fanin r n a S m.rpcs t.counters hshape hr (by omega)
    have hz : mcountQ a (gcDrain S m.rpcs t.counters).1 = 0 := by
      rw [gcDrain_rpcs, dropWhile_all _ _ hcov]
      simp [mcountQ]
    rw [hAgg]
    rw [if_pos (by refine ⟨by omega, by omega⟩)]

/-- Witness for C10: a one-entry queue carrying the last outstanding
wrapper of a one-master round; both recovery paths fire the aggregate. -/
theorem c10_flush_invokes_wrapper_witness :
    demoFaninT.masters.lookup 0 = some (demoMaster [demoFaninEntry]) ∧
    aggCount 7 (demoFaninT.flushSession 0 []).2.1 = 1 ∧
    aggCount 7 (demoFaninT.updateLogState 0 { appended := 20, synced := 20 }).2 = 1 :=
  ⟨by decide,
   (c10_flush_invokes_wrapper demoFaninT 0 (demoMaster [demoFaninEntry]) 0 1 7 []
     { appended := 20, synced := 20 } (by decide) (by decide) (by decide) (by decide)
     (by decide) (by decide) (by decide) (by decide)).1,
   (c10_flush_invokes_wrapper demoFaninT 0 (demoMaster [demoFaninEntry]) 0 1 7 []
     { appended := 20, synced := 20 } (by decide) (by decide) (by decide) (by decide)
     (by decide) (by decide) (by decide) (by decide)).2⟩

/-! Where entries of a post-step tracker come from. -/

theorem mem_dropWhile {α : Type} (p : α → Bool) (l : List α) (e : α)
    (h : e ∈ l.dropWhile p) : e ∈ l := by
  induction l with
  | nil => simp [List.dropWhile] at h
  | cons a t ih =>
    rw [List.dropWhile_cons] at h
    by_cases hp : p a = true
    · rw [if_pos hp] at h
      exact List.mem_cons_of_mem a (ih h)
    · rw [if_neg hp] at h
      exact h

theorem setLast_mem (q : List UnsyncedRpc) (c : Cb) (e : UnsyncedRpc)
    (h : e ∈ setLast q c) : e ∈ q ∨ ∃ e0 ∈ q, e = { e0 with callback := c } := by
  induction q with
  | nil => simp [setLast] at h
  | cons x rest ih =>
    cases rest with
    | nil =>
      simp only [setLast, List.mem_singleton] at h
      right
      exact ⟨x, by simp, h⟩
    | cons y rest2 =>
      simp only [setLast, List.mem_cons] at h
      cases h with
      | inl h1 =>
        left
        simp [h1]
      | inr h1 =>
        cases ih h1 with
        | inl h2 => left; simp [h2]
        | inr h2 =>
          right
          obtain ⟨e0, he0, heq⟩ := h2
          exact ⟨e0, by simp [he0], heq⟩

theorem mem_setMaster (ms : List (Session × Master)) (s : Session) (m' : Master)
    (p : Session × Master) (h : p ∈ setMaster ms s m') : p ∈ ms ∨ p = (s, m') := by
  induction ms with
  | nil => simp [setMaster] at h
  | cons q rest ih =>
    simp only [setMaster] at h
    by_cases hq : q.1 = s
    · rw [if_pos hq] at h
      simp only [List.mem_cons] at h
      cases h with
      | inl h1 => right; exact h1
      | inr h1 => left; exact List.mem_cons_of_mem q h1
    · rw [if_neg hq] at h
      simp only [List.mem_cons] at h
      cases h with
      | inl h1 => left; simp [h1]
      | inr h1 =>
        cases ih h1 with
        | inl h2 => left; exact List.mem_cons_of_mem q h2
        | inr h2 => right; exact h2

theorem flushLoop_rpcs_mem (q : List UnsyncedRpc) (sts : List Status)
    (cs : List Nat) (e : UnsyncedRpc) (h : e ∈ (flushLoop q sts cs).1) : e ∈ q := by
  induction q generalizing sts cs with
  | nil => simp [flushLoop] at h
  | cons x rest ih =>
    by_cases htx : x.txWithUnsyncedPrepare.isSome = true
    · have hstep : flushLoop (x :: rest) sts cs = flushLoop rest sts cs := by
        simp only [flushLoop]
        rw [if_pos htx]
      rw [hstep] at h
      exact List.mem_cons_of_mem x (ih sts cs h)
    · cases hw : RetryUnsyncedRpc.wait (sts.headD Status.ok) with
      | error err =>
        have hstep : (flushLoop (x :: rest) sts cs).1 = x :: rest := by
          simp only [flushLoop]
          rw [if_neg htx, hw]
        rw [hstep] at h
        exact h
      | ok u =>
        have hstep : (flushLoop (x :: rest) sts cs).1 =
            (flushLoop rest sts.tail (runCb x.callback cs).1).1 := by
          simp only [flushLoop]
          rw [if_neg htx, hw]
        rw [hstep] at h
        exact List.mem_cons_of_mem x (ih sts.tail _ h)

theorem step_mem (t : UnsyncedRpcTracker) (op : Op) (e : UnsyncedRpc)
    (h : memT e (t.step op).1) : memT e t ∨ opNew op e ∨ opRetag t op e := by
  obtain ⟨p, hp, he⟩ := h
  cases op with
  | register s req tableId keyHash objVer pos cb =>
    simp only [UnsyncedRpcTracker.step, UnsyncedRpcTracker.registerUnsynced,
      UnsyncedRpcTracker.registerEntry] at hp
    cases hl : t.masters.lookup s with
    | some m =>
      rw [hl] at hp
      simp only [] at hp
      cases mem_setMaster _ _ _ p hp with
      | inl h1 => exact Or.inl ⟨p, h1, he⟩
      | inr h1 =>
        rw [h1] at he
        simp only [] at he
        have he2 := he
        rw [show (Master.updateLogState
            { m with rpcs := m.rpcs ++ [mkWrite req tableId keyHash objVer pos cb] }
            pos t.counters).1.rpcs =
          (m.rpcs ++ [mkWrite req tableId keyHash objVer pos cb]).dropWhile
            (coveredBy pos) from updateLogState_rpcs _ _ _] at he2
        have he3 := mem_dropWhile _ _ _ he2
        rcases List.mem_append.mp he3 with h4 | h4
        · exact Or.inl ⟨(s, m), lookup_mem _ _ _ hl, h4⟩
        · simp only [List.mem_singleton] at h4
          exact Or.inr (Or.inl h4)
    | none =>
      rw [hl] at hp
      simp only [] at hp
      rcases List.mem_append.mp hp with h1 | h1
      · exact Or.inl ⟨p, h1, he⟩
      · simp only [List.mem_singleton] at h1
        rw [h1] at he
        simp only [] at he
        have he2 := he
        rw [updateLogState_rpcs _ _ _] at he2
        have he3 := mem_dropWhile _ _ _ he2
        simp only [List.mem_singleton] at he3
        exact Or.inr (Or.inl he3)
  | registerTx s txTask pos =>
    simp only [UnsyncedRpcTracker.step, UnsyncedRpcTracker.registerUnsyncedTx,
      UnsyncedRpcTracker.registerEntry] at hp
    cases hl : t.masters.lookup s with
    | some m =>
      rw [hl] at hp
      simp only [] at hp
      cases mem_setMaster _ _ _ p hp with
      | inl h1 => exact Or.inl ⟨p, h1, he⟩
      | inr h1 =>
        rw [h1] at he
        simp only [] at he
        have he2 := he
        rw [updateLogState_rpcs _ _ _] at he2
        have he3 := mem_dropWhile _ _ _ he2
        rcases List.mem_append.mp he3 with h4 | h4
        · exact Or.inl ⟨(s, m), lookup_mem _ _ _ hl, h4⟩
        · simp only [List.mem_singleton] at h4
          exact Or.inr (Or.inl h4)
    | none =>
      rw [hl] at hp
      simp only [] at hp
      rcases List.mem_append.mp hp with h1 | h1
      · exact Or.inl ⟨p, h1, he⟩
      · simp only [List.mem_singleton] at h1
        rw [h1] at he
        simp only [] at he
        have he2 := he
        rw [updateLogState_rpcs _ _ _] at he2
        have he3 := mem_dropWhile _ _ _ he2
        simp only [List.mem_singleton] at he3
        exact Or.inr (Or.inl he3)
  | update s st =>
    simp only [UnsyncedRpcTracker.step, UnsyncedRpcTracker.updateLogState] at hp
    cases hl : t.masters.lookup s with
    | some m =>
      rw [hl] at hp
      simp only [] at hp
      cases mem_setMaster _ _ _ p hp with
      | inl h1 => exact Or.inl ⟨p, h1, he⟩
      | inr h1 =>
        rw [h1] at he
        simp only [] at he
        have he2 := he
        rw [updateLogState_rpcs _ _ _] at he2
        have he3 := mem_dropWhile _ _ _ he2
        exact Or.inl ⟨(s, m), lookup_mem _ _ _ hl, he3⟩
    | none =>
      rw [hl] at hp
      exact Or.inl ⟨p, hp, he⟩
  | flush s statuses =>
    simp only [UnsyncedRpcTracker.step, UnsyncedRpcTracker.flushSession] at hp
    cases hl : t.masters.lookup s with
    | some m =>
      rw [hl] at hp
      simp only [] at hp
      cases mem_setMaster _ _ _ p hp with
      | inl h1 => exact Or.inl ⟨p, h1, he⟩
      | inr h1 =>
        rw [h1] at he
        simp only [] at he
        have he3 := flushLoop_rpcs_mem _ _ _ _ he
        exact Or.inl ⟨(s, m), lookup_mem _ _ _ hl, he3⟩
    | none =>
      rw [hl] at hp
      exact Or.inl ⟨p, hp, he⟩
  | syncBlocking resp =>
    have hms : (t.step (Op.syncBlocking resp)).1.masters =
        t.masters.map (fun q => (q.1, phase2M resp (phase1M none q.2))) := by
      show (syncPhase2 (syncPhase1 none t.masters).1 resp t.counters).1 = _
      rw [syncPhase2_masters, syncPhase1_masters, List.map_map]
      rfl
    rw [hms] at hp
    obtain ⟨q, hq, hpq⟩ := List.mem_map.mp hp
    rw [← hpq] at he
    simp only [] at he
    have he2 : e ∈ (phase1M none q.2).rpcs := by
      unfold phase2M at he
      cases hh : (phase1M none q.2).syncRpcHolder with
      | none =>
        rw [hh] at he
        exact he
      | some g =>
        rw [hh] at he
        rw [updateLogState_rpcs _ _ _] at he
        exact mem_dropWhile _ _ _ he
    rw [phase1M_rpcs] at he2
    exact Or.inl ⟨q, hq, he2⟩
  | effSync skip resp =>
    have hms : (t.step (Op.effSync skip resp)).1.masters =
        t.masters.map (fun q => (q.1, phase2M resp (phase1M (some skip) q.2))) := by
      show (syncPhase2 (syncPhase1 (some skip) t.masters).1 resp t.counters).1 = _
      rw [syncPhase2_masters, syncPhase1_masters, List.map_map]
      rfl
    rw [hms] at hp
    obtain ⟨q, hq, hpq⟩ := List.mem_map.mp hp
    rw [← hpq] at he
    simp only [] at he
    have he2 : e ∈ (phase1M (some skip) q.2).rpcs := by
      unfold phase2M at he
      cases hh : (phase1M (some skip) q.2).syncRpcHolder with
      | none =>
        rw [hh] at he
        exact he
      | some g =>
        rw [hh] at he
        rw [updateLogState_rpcs _ _ _] at he
        exact mem_dropWhile _ _ _ he
    rw [phase1M_rpcs] at he2
    exact Or.inl ⟨q, hq, he2⟩
  | syncCb agg =>
    simp only [UnsyncedRpcTracker.step, UnsyncedRpcTracker.syncCallback] at hp
    by_cases h0 : (((t.masters.filter (fun p => !p.2.rpcs.isEmpty)).length == 0) = true)
    · rw [if_pos h0] at hp
      exact Or.inl ⟨p, hp, he⟩
    · rw [if_neg h0] at hp
      simp only [] at hp
      obtain ⟨q, hq, hpq⟩ := List.mem_map.mp hp
      rw [← hpq] at he
      simp only [syncCbM] at he
      by_cases hc : q.2.rpcs.isEmpty = true
      · rw [if_pos hc] at he
        exact Or.inl ⟨q, hq, he⟩
      · rw [if_neg hc] at he
        simp only [] at he
        cases setLast_mem _ _ _ he with
        | inl h1 => exact Or.inl ⟨q, hq, h1⟩
        | inr h1 =>
          obtain ⟨e0, he0, heq⟩ := h1
          refine Or.inr (Or.inr ?_)
          show ∃ e1, memT e1 t ∧ _
          exact ⟨e0, ⟨q, hq, he0⟩, heq⟩

/-! Payload and callback accounting. -/

theorem count_free_filterMap (evs : List Event) (d : Nat) :
    evs.count (Event.free d) = (evs.filterMap evFree).count d := by
  induction evs with
  | nil => rfl
  | cons ev rest ih =>
    cases ev with
    | invoked c => simp [evFree, List.count_cons, ih]
    | agg i => simp [evFree, List.count_cons, ih]
    | free d2 =>
      simp only [evFree, List.filterMap_cons, List.count_cons, ih]
      by_cases hd : d2 = d
      · simp [hd]
      · simp [hd, Event.free.injEq]
    | retrySent d2 => simp [evFree, List.count_cons, ih]
    | syncSent s => simp [evFree, List.count_cons, ih]

theorem count_invoked_filterMap (evs : List Event) (c : Cb) :
    evs.count (Event.invoked c) = (evs.filterMap evInvoked).count c := by
  induction evs with
  | nil => rfl
  | cons ev rest ih =>
    cases ev with
    | invoked c2 =>
      simp only [evInvoked, List.filterMap_cons, List.count_cons, ih]
      by_cases hc : c2 = c
      · simp [hc]
      · simp [hc, Event.invoked.injEq]
    | agg i => simp [evInvoked, List.count_cons, ih]
    | free d2 => simp [evInvoked, List.count_cons, ih]
    | retrySent d2 => simp [evInvoked, List.count_cons, ih]
    | syncSent s => simp [evInvoked, List.count_cons, ih]

theorem count_map_data (l : List UnsyncedRpc) (d : Nat) :
    ((l.map (fun e => e.request.data)).count d) = dcountQ d l := by
  induction l with
  | nil => rfl
  | cons e rest ih =>
    simp only [List.map_cons, List.count_cons, mcountQ, dcountQ, List.filter_cons]
    by_cases hd : e.request.data = d
    · simp [hd, dcountQ] at ih ⊢
      omega
    · have : (e.request.data == d) = false := by simp [hd]
      simp [hd, this, dcountQ] at ih ⊢
      omega

theorem count_map_callback (l : List UnsyncedRpc) (c : Nat) :
    ((l.map (fun e => e.callback)).count (Cb.user c)) = ccountQ c l := by
  induction l with
  | nil => rfl
  | cons e rest ih =>
    simp only [List.map_cons, List.count_cons, ccountQ, List.filter_cons]
    by_cases hc : e.callback = Cb.user c
    · simp [hc, ccountQ] at ih ⊢
      omega
    · have : (e.callback == Cb.user c) = false := by simp [hc]
      simp [hc, this, ccountQ] at ih ⊢
      omega

theorem dcount_filter_nontx (l : List UnsyncedRpc) (d : Nat)
    (hPd : ∀ e ∈ l, e.request.data = d → e.txWithUnsyncedPrepare = none) :
    dcountQ d (l.filter (fun e => e.txWithUnsyncedPrepare.isNone)) = dcountQ d l := by
  induction l with
  | nil => rfl
  | cons e rest ih =>
    have ihr := ih (fun x hx => hPd x (by simp [hx]))
    by_cases hd : e.request.data = d
    · have hnone : e.txWithUnsyncedPrepare = none := hPd e (by simp) hd
      have h1 : e.txWithUnsyncedPrepare.isNone = true := by simp [hnone]
      have hdb : (e.request.data == d) = true := by simp [hd]
      simp [dcountQ, List.filter_cons, h1, hdb] at ihr ⊢
      omega
    · have hdb : (e.request.data == d) = false := by simp [hd]
      by_cases h1 : e.txWithUnsyncedPrepare.isNone = true
      · simp [dcountQ, List.filter_cons, h1, hdb] at ihr ⊢
        omega
      · have h2 : e.txWithUnsyncedPrepare.isNone = false := by
          rw [Bool.eq_false_iff]
          exact h1
        simp [dcountQ, List.filter_cons, h2, hdb] at ihr ⊢
        omega

theorem dcountQ_append (d : Nat) (l1 l2 : List UnsyncedRpc) :
    dcountQ d (l1 ++ l2) = dcountQ d l1 + dcountQ d l2 := by
  simp [dcountQ, List.filter_append]

theorem ccountQ_append (c : Nat) (l1 l2 : List UnsyncedRpc) :
    ccountQ c (l1 ++ l2) = ccountQ c l1 + ccountQ c l2 := by
  simp [ccountQ, List.filter_append]

theorem takeWhile_dropWhile_count (p : UnsyncedRpc → Bool) (q : List UnsyncedRpc)
    (d : Nat) :
    dcountQ d (q.takeWhile p) + dcountQ d (q.dropWhile p) = dcountQ d q := by
  rw [← dcountQ_append, List.takeWhile_append_dropWhile]

theorem takeWhile_dropWhile_ccount (p : UnsyncedRpc → Bool) (q : List UnsyncedRpc)
    (c : Nat) :
    ccountQ c (q.takeWhile p) + ccountQ c (q.dropWhile p) = ccountQ c q := by
  rw [← ccountQ_append, List.takeWhile_append_dropWhile]

theorem mem_takeWhile {α : Type} (p : α → Bool) (l : List α) (e : α)
    (h : e ∈ l.takeWhile p) : e ∈ l := by
  induction l with
  | nil => simp [List.takeWhile] at h
  | cons a t ih =>
    rw [List.takeWhile_cons] at h
    by_cases hp : p a = true
    · rw [if_pos hp] at h
      simp only [List.mem_cons] at h
      cases h with
      | inl h1 => simp [h1]
      | inr h1 => exact List.mem_cons_of_mem a (ih h1)
    · rw [if_neg hp] at h
      simp at h

theorem gcDrain_freeBalance (S : LogState) (q : List UnsyncedRpc) (cs : List Nat)
    (d : Nat) (hPd : ∀ e ∈ q, e.request.data = d → e.txWithUnsyncedPrepare = none) :
    (gcDrain S q cs).2.2.count (Event.free d) + dcountQ d (gcDrain S q cs).1 =
      dcountQ d q := by
  rw [count_free_filterMap, gcDrain_free, gcDrain_rpcs, count_map_data]
  rw [dcount_filter_nontx _ d (fun e he hd => hPd e (mem_takeWhile _ _ _ he) hd)]
  exact takeWhile_dropWhile_count _ q d

theorem gcDrain_cbBalance (S : LogState) (q : List UnsyncedRpc) (cs : List Nat)
    (c : Nat) :
    (gcDrain S q cs).2.2.count (Event.invoked (Cb.user c)) +
      ccountQ c (gcDrain S q cs).1 = ccountQ c q := by
  rw [count_invoked_filterMap, gcDrain_invoked, gcDrain_rpcs, count_map_callback]
  exact takeWhile_dropWhile_ccount _ q c

theorem count_cons_ne {x y : Event} (l : List Event) (h : x ≠ y) :
    (x :: l).count y = l.count y := by
  simp [List.count_cons, h]

theorem count_cons_eq (x : Event) (l : List Event) :
    (x :: l).count x = l.count x + 1 := by
  simp [List.count_cons]

theorem flushLoop_freeBalance (q : List UnsyncedRpc) (sts : List Status)
    (cs : List Nat) (d : Nat)
    (hPd : ∀ e ∈ q, e.request.data = d → e.txWithUnsyncedPrepare = none) :
    (flushLoop q sts cs).2.2.1.count (Event.free d) +
      dcountQ d (flushLoop q sts cs).1 = dcountQ d q := by
  induction q generalizing sts cs with
  | nil => simp [flushLoop, dcountQ]
  | cons e rest ih =>
    have hPd_r : ∀ x ∈ rest, x.request.data = d → x.txWithUnsyncedPrepare = none :=
      fun x hx => hPd x (by simp [hx])
    have hdc := dcountQ_append d [e] rest
    simp only [List.singleton_append] at hdc
    by_cases htx : e.txWithUnsyncedPrepare.isSome = true
    · have hstep : flushLoop (e :: rest) sts cs = flushLoop rest sts cs := by
        simp only [flushLoop]
        rw [if_pos htx]
      have hdne : e.request.data ≠ d := by
        intro hcon
        rw [hPd e (by simp) hcon] at htx
        simp at htx
      have hdcb : (e.request.data == d) = false := by simp [hdne]
      have hde : dcountQ d (e :: rest) = dcountQ d rest := by
        simp [dcountQ, List.filter_cons, hdcb]
      rw [hstep, hde]
      exact ih sts cs hPd_r
    · cases hw : RetryUnsyncedRpc.wait (sts.headD Status.ok) with
      | error err =>
        have hstep : flushLoop (e :: rest) sts cs =
            (e :: rest, cs, [Event.retrySent e.request.data], some err) := by
          simp only [flushLoop]
          rw [if_neg htx, hw]
        rw [hstep]
        simp [List.count_cons, List.count_nil]
      | ok u =>
        have hstep : flushLoop (e :: rest) sts cs =
            ((flushLoop rest sts.tail (runCb e.callback cs).1).1,
             (flushLoop rest sts.tail (runCb e.callback cs).1).2.1,
             Event.retrySent e.request.data ::
               ((runCb e.callback cs).2 ++ [Event.free e.request.data] ++
                (flushLoop rest sts.tail (runCb e.callback cs).1).2.2.1),
             (flushLoop rest sts.tail (runCb e.callback cs).1).2.2.2) := by
          simp only [flushLoop]
          rw [if_neg htx, hw]
        rw [hstep]
        simp only []
        have hrc : ∀ cbv csv, (runCb cbv csv).2.count (Event.free d) = 0 := by
          intro cbv csv
          rw [count_free_filterMap, runCb_filterMap_free]
          rfl
        have hcnt : (Event.retrySent e.request.data ::
            ((runCb e.callback cs).2 ++ [Event.free e.request.data] ++
             (flushLoop rest sts.tail (runCb e.callback cs).1).2.2.1)).count
              (Event.free d) =
            (if e.request.data == d then 1 else 0) +
            (flushLoop rest sts.tail (runCb e.callback cs).1).2.2.1.count
              (Event.free d) := by
          rw [count_cons_ne _ (by intro hcon; cases hcon)]
          rw [List.count_append, List.count_append, hrc]
          by_cases hd : e.request.data = d
          · rw [hd]
            simp [List.count_cons]
          · have : Event.free e.request.data ≠ Event.free d := by
              intro hcon
              apply hd
              injection hcon
            have hdb : (e.request.data == d) = false := by simp [hd]
            simp [List.count_cons, this, hdb]
        rw [hcnt]
        have ihr := ih sts.tail (runCb e.callback cs).1 hPd_r
        have hde : dcountQ d (e :: rest) =
            (if e.request.data == d then 1 else 0) + dcountQ d rest := by
          by_cases hd : (e.request.data == d) = true
          · simp [dcountQ, List.filter_cons, hd]
            omega
          · have hdb : (e.request.data == d) = false := by
              rw [Bool.eq_false_iff]
              exact hd
            simp [dcountQ, List.filter_cons, hdb]
        rw [hde]
        omega

theorem flushLoop_cbBound (q : List UnsyncedRpc) (sts : List Status)
    (cs : List Nat) (c : Nat) :
    (flushLoop q sts cs).2.2.1.count (Event.invoked (Cb.user c)) +
      ccountQ c (flushLoop q sts cs).1 ≤ ccountQ c q := by
  induction q generalizing sts cs with
  | nil => simp [flushLoop, ccountQ]
  | cons e rest ih =>
    have hce : ccountQ c (e :: rest) =
        (if e.callback == Cb.user c then 1 else 0) + ccountQ c rest := by
      by_cases hc2 : (e.callback == Cb.user c) = true
      · simp [ccountQ, List.filter_cons, hc2]
        omega
      · have hcb : (e.callback == Cb.user c) = false := by
          rw [Bool.eq_false_iff]
          exact hc2
        simp [ccountQ, List.filter_cons, hcb]
    by_cases htx : e.txWithUnsyncedPrepare.isSome = true
    · have hstep : flushLoop (e :: rest) sts cs = flushLoop rest sts cs := by
        simp only [flushLoop]
        rw [if_pos htx]
      rw [hstep, hce]
      have := ih sts cs
      omega
    · cases hw : RetryUnsyncedRpc.wait (sts.headD Status.ok) with
      | error err =>
        have hstep : flushLoop (e :: rest) sts cs =
            (e :: rest, cs, [Event.retrySent e.request.data], some err) := by
          simp only [flushLoop]
          rw [if_neg htx, hw]
        rw [hstep]
        simp [List.count_cons, List.count_nil]
      | ok u =>
        have hstep : flushLoop (e :: rest) sts cs =
            ((flushLoop rest sts.tail (runCb e.callback cs).1).1,
             (flushLoop rest sts.tail (runCb e.callback cs).1).2.1,
             Event.retrySent e.request.data ::
               ((runCb e.callback cs).2 ++ [Event.free e.request.data] ++
                (flushLoop rest sts.tail (runCb e.callback cs).1).2.2.1),
             (flushLoop rest sts.tail (runCb e.callback cs).1).2.2.2) := by
          simp only [flushLoop]
          rw [if_neg htx, hw]
        rw [hstep]
        simp only []
        have hrc : (runCb e.callback cs).2.count (Event.invoked (Cb.user c)) =
            (if e.callback == Cb.user c then 1 else 0) := by
          rw [count_invoked_filterMap, runCb_filterMap_invoked]
          by_cases hc2 : e.callback = Cb.user c
          · rw [hc2]
            simp [List.count_cons]
          · have hcb : (e.callback == Cb.user c) = false := by simp [hc2]
            simp [List.count_cons, hc2, hcb]
        have hcnt : (Event.retrySent e.request.data ::
            ((runCb e.callback cs).2 ++ [Event.free e.request.data] ++
             (flushLoop rest sts.tail (runCb e.callback cs).1).2.2.1)).count
              (Event.invoked (Cb.user c)) =
            (if e.callback == Cb.user c then 1 else 0) +
            (flushLoop rest sts.tail (runCb e.callback cs).1).2.2.1.count
              (Event.invoked (Cb.user c)) := by
          rw [count_cons_ne _ (by intro hcon; cases hcon)]
          rw [List.count_append, List.count_append, hrc]
          simp [List.count_cons, List.count_nil]
        rw [hcnt, hce]
        have := ih sts.tail (runCb e.callback cs).1
        omega

/-! Sums of per-master measures over the master map. -/

theorem sumOver_cons (f : Master → Nat) (p : Session × Master)
    (rest : List (Session × Master)) :
    sumOver f (p :: rest) = f p.2 + sumOver f rest := by
  simp [sumOver]

theorem sumOver_append_one (f : Master → Nat) (ms : List (Session × Master))
    (s : Session) (m : Master) :
    sumOver f (ms ++ [(s, m)]) = sumOver f ms + f m := by
  simp [sumOver]

theorem sumOver_setMaster (f : Master → Nat) (ms : List (Session × Master))
    (s : Session) (m m' : Master) (h : ms.lookup s = some m) :
    sumOver f (setMaster ms s m') + f m = sumOver f ms + f m' := by
  induction ms with
  | nil => simp [List.lookup] at h
  | cons p rest ih =>
    simp only [List.lookup] at h
    by_cases hp : p.1 = s
    · have hsb : (s == p.1) = true := by simp [hp]
      rw [hsb] at h
      simp only [Option.some_inj] at h
      have hstep : setMaster (p :: rest) s m' = (s, m') :: rest := by
        simp only [setMaster]
        rw [if_pos hp]
      rw [hstep, sumOver_cons, sumOver_cons, h]
      have hfe : ((s, m') : Session × Master).2 = m' := rfl
      rw [hfe]
      omega
    · have hsb : (s == p.1) = false := by
        simp [beq_iff_eq]
        exact fun hc => hp hc.symm
      rw [hsb] at h
      have hstep : setMaster (p :: rest) s m' = p :: setMaster rest s m' := by
        simp only [setMaster]
        rw [if_neg hp]
      rw [hstep, sumOver_cons, sumOver_cons]
      have := ih h
      omega

theorem sumOver_map (f : Master → Nat) (g : Master → Master)
    (ms : List (Session × Master)) :
    sumOver f (ms.map (fun p => (p.1, g p.2))) = sumOver (fun m => f (g m)) ms := by
  induction ms with
  | nil => rfl
  | cons p rest ih =>
    rw [List.map_cons, sumOver_cons, sumOver_cons, ih]

theorem count_syncSent_free (l : List (Session × Master)) (d : Nat) :
    ((l.map (fun p => Event.syncSent p.2.session)).count (Event.free d)) = 0 := by
  induction l with
  | nil => rfl
  | cons p rest ih =>
    rw [List.map_cons, count_cons_ne _ (by intro hcon; cases hcon)]
    exact ih

theorem count_syncSent_invoked (l : List (Session × Master)) (c : Cb) :
    ((l.map (fun p => Event.syncSent p.2.session)).count (Event.invoked c)) = 0 := by
  induction l with
  | nil => rfl
  | cons p rest ih =>
    rw [List.map_cons, count_cons_ne _ (by intro hcon; cases hcon)]
    exact ih

theorem syncPhase2_freeBalance (ms : List (Session × Master))
    (resp : List (Session × LogState)) (cs : List Nat) (d : Nat)
    (hPd : ∀ p ∈ ms, ∀ e ∈ p.2.rpcs, e.request.data = d →
      e.txWithUnsyncedPrepare = none) :
    (syncPhase2 ms resp cs).2.2.count (Event.free d) +
      sumOver (fun m => dcountQ d m.rpcs) (syncPhase2 ms resp cs).1 =
      sumOver (fun m => dcountQ d m.rpcs) ms := by
  induction ms generalizing cs with
  | nil => simp [syncPhase2, sumOver]
  | cons p rest ih =>
    have hPd_p : ∀ e ∈ p.2.rpcs, e.request.data = d →
        e.txWithUnsyncedPrepare = none := hPd p (by simp)
    have hPd_r : ∀ q ∈ rest, ∀ e ∈ q.2.rpcs, e.request.data = d →
        e.txWithUnsyncedPrepare = none := fun q hq => hPd q (by simp [hq])
    cases hh : p.2.syncRpcHolder with
    | none =>
      simp only [syncPhase2, hh]
      rw [sumOver_cons, sumOver_cons]
      have := ih cs hPd_r
      omega
    | some g =>
      simp only [syncPhase2, hh]
      rw [sumOver_cons, sumOver_cons, List.count_append]
      have hgc := gcDrain_freeBalance
        ((resp.lookup p.2.session).getD { appended := 0, synced := 0 })
        p.2.rpcs cs d hPd_p
      have hrec := ih (Master.updateLogState { p.2 with syncRpcHolder := none }
        ((resp.lookup p.2.session).getD { appended := 0, synced := 0 }) cs).2.1 hPd_r
      simp only [Master.updateLogState] at *
      omega

theorem syncPhase2_cbBound (ms : List (Session × Master))
    (resp : List (Session × LogState)) (cs : List Nat) (c : Nat) :
    (syncPhase2 ms resp cs).2.2.count (Event.invoked (Cb.user c)) +
      sumOver (fun m => ccountQ c m.rpcs) (syncPhase2 ms resp cs).1 =
      sumOver (fun m => ccountQ c m.rpcs) ms := by
  induction ms generalizing cs with
  | nil => simp [syncPhase2, sumOver]
  | cons p rest ih =>
    cases hh : p.2.syncRpcHolder with
    | none =>
      simp only [syncPhase2, hh]
      rw [sumOver_cons, sumOver_cons]
      have := ih cs
      omega
    | some g =>
      simp only [syncPhase2, hh]
      rw [sumOver_cons, sumOver_cons, List.count_append]
      have hgc := gcDrain_cbBalance
        ((resp.lookup p.2.session).getD { appended := 0, synced := 0 }) p.2.rpcs cs c
      have hrec := ih (Master.updateLogState { p.2 with syncRpcHolder := none }
        ((resp.lookup p.2.session).getD { appended := 0, synced := 0 }) cs).2.1
      simp only [Master.updateLogState] at *
      omega

theorem dcountQ_setLast (d : Nat) (q : List UnsyncedRpc) (c : Cb) :
    dcountQ d (setLast q c) = dcountQ d q := by
  induction q with
  | nil => rfl
  | cons x rest ih =>
    cases rest with
    | nil =>
      by_cases hd : (x.request.data == d) = true
      · simp [setLast, dcountQ, List.filter_cons, hd]
      · have hdb : (x.request.data == d) = false := by
          rw [Bool.eq_false_iff]
          exact hd
        simp [setLast, dcountQ, List.filter_cons, hdb]
    | cons y rest2 =>
      simp only [setLast]
      simp only [dcountQ, List.filter_cons] at ih ⊢
      by_cases hd : (x.request.data == d) = true
      · simp [hd, ih]
      · have hdb : (x.request.data == d) = false := by
          rw [Bool.eq_false_iff]
          exact hd
        simp only [hdb, Bool.false_eq_true, if_false]
        exact ih

theorem ccountQ_cons (c : Nat) (x : UnsyncedRpc) (l : List UnsyncedRpc) :
    ccountQ c (x :: l) = (if x.callback == Cb.user c then 1 else 0) + ccountQ c l := by
  by_cases hx : (x.callback == Cb.user c) = true
  · simp [ccountQ, List.filter_cons, hx]
    omega
  · have hxb : (x.callback == Cb.user c) = false := by
      rw [Bool.eq_false_iff]
      exact hx
    simp [ccountQ, List.filter_cons, hxb]

theorem ccountQ_setLast_le (c : Nat) (q : List UnsyncedRpc) (cb : Cb)
    (hcb : (cb == Cb.user c) = false) : ccountQ c (setLast q cb) ≤ ccountQ c q := by
  induction q with
  | nil => simp [setLast]
  | cons x rest ih =>
    cases rest with
    | nil =>
      have hstep : setLast [x] cb = [{ x with callback := cb }] := rfl
      rw [hstep, ccountQ_cons, ccountQ_cons]
      have hmod : (({ x with callback := cb } : UnsyncedRpc).callback ==
          Cb.user c) = false := hcb
      rw [hmod]
      simp
    | cons y rest2 =>
      have hstep : setLast (x :: y :: rest2) cb = x :: setLast (y :: rest2) cb := rfl
      rw [hstep, ccountQ_cons, ccountQ_cons]
      omega

/-! Per-operation payload balance. -/

theorem registerEntry_freeBalance (t : UnsyncedRpcTracker) (s : Session)
    (entry : UnsyncedRpc) (logPos : LogState) (d : Nat)
    (hPd : dataTxOk d t)
    (hPde : entry.request.data = d → entry.txWithUnsyncedPrepare = none) :
    (t.registerEntry s entry logPos).2.count (Event.free d) +
      pendingData d (t.registerEntry s entry logPos).1 =
      pendingData d t + (if entry.request.data == d then 1 else 0) := by
  have hone : dcountQ d [entry] = (if entry.request.data == d then 1 else 0) := by
    by_cases hd2 : (entry.request.data == d) = true
    · simp [dcountQ, List.filter_cons, hd2]
    · have hdb : (entry.request.data == d) = false := by
        rw [Bool.eq_false_iff]
        exact hd2
      simp [dcountQ, List.filter_cons, hdb]
  unfold UnsyncedRpcTracker.registerEntry
  cases hl : t.masters.lookup s with
  | some m =>
    have hPdq : ∀ e ∈ m.rpcs ++ [entry], e.request.data = d →
        e.txWithUnsyncedPrepare = none := by
      intro e he hdata
      rcases List.mem_append.mp he with h1 | h1
      · exact hPd (s, m) (lookup_mem _ _ _ hl) e h1 hdata
      · simp only [List.mem_singleton] at h1
        subst h1
        exact hPde hdata
    have hgc := gcDrain_freeBalance logPos (m.rpcs ++ [entry]) t.counters d hPdq
    have happ := dcountQ_append d m.rpcs [entry]
    have hrpcs : dcountQ d (Master.updateLogState { m with rpcs := m.rpcs ++ [entry] }
        logPos t.counters).1.rpcs =
        dcountQ d (gcDrain logPos (m.rpcs ++ [entry]) t.counters).1 := rfl
    have hsum := sumOver_setMaster (fun mm => dcountQ d mm.rpcs) t.masters s m
      (Master.updateLogState { m with rpcs := m.rpcs ++ [entry] } logPos t.counters).1
      hl
    simp only [] at hsum
    rw [hrpcs] at hsum
    show (gcDrain logPos (m.rpcs ++ [entry]) t.counters).2.2.count (Event.free d) +
      sumOver (fun mm => dcountQ d mm.rpcs)
        (setMaster t.masters s
          (Master.updateLogState { m with rpcs := m.rpcs ++ [entry] }
            logPos t.counters).1) =
      sumOver (fun mm => dcountQ d mm.rpcs) t.masters +
        (if entry.request.data == d then 1 else 0)
    omega
  | none =>
    have hPdq : ∀ e ∈ [entry], e.request.data = d →
        e.txWithUnsyncedPrepare = none := by
      intro e he hdata
      simp only [List.mem_singleton] at he
      subst he
      exact hPde hdata
    have hgc := gcDrain_freeBalance logPos [entry] t.counters d hPdq
    have hrpcs : dcountQ d (Master.updateLogState
        { session := s, rpcs := [entry],
          lastestLogState := { appended := 0, synced := 0 }, syncRpcHolder := none }
        logPos t.counters).1.rpcs =
        dcountQ d (gcDrain logPos [entry] t.counters).1 := rfl
    have hsum := sumOver_append_one (fun mm => dcountQ d mm.rpcs) t.masters s
      (Master.updateLogState
        { session := s, rpcs := [entry],
          lastestLogState := { appended := 0, synced := 0 }, syncRpcHolder := none }
        logPos t.counters).1
    simp only [] at hsum
    rw [hrpcs] at hsum
    show (gcDrain logPos [entry] t.counters).2.2.count (Event.free d) +
      sumOver (fun mm => dcountQ d mm.rpcs)
        (t.masters ++ [(s, (Master.updateLogState
          { session := s, rpcs := [entry],
            lastestLogState := { appended := 0, synced := 0 },
            syncRpcHolder := none } logPos t.counters).1)]) =
      sumOver (fun mm => dcountQ d mm.rpcs) t.masters +
        (if entry.request.data == d then 1 else 0)
    omega

theorem registerEntry_cbBalance (t : UnsyncedRpcTracker) (s : Session)
    (entry : UnsyncedRpc) (logPos : LogState) (c : Nat) :
    (t.registerEntry s entry logPos).2.count (Event.invoked (Cb.user c)) +
      pendingCb c (t.registerEntry s entry logPos).1 =
      pendingCb c t + (if entry.callback == Cb.user c then 1 else 0) := by
  have hone : ccountQ c [entry] = (if entry.callback == Cb.user c then 1 else 0) := by
    rw [ccountQ_cons]
    simp [ccountQ]
  unfold UnsyncedRpcTracker.registerEntry
  cases hl : t.masters.lookup s with
  | some m =>
    have hgc := gcDrain_cbBalance logPos (m.rpcs ++ [entry]) t.counters c
    have happ := ccountQ_append c m.rpcs [entry]
    have hrpcs : ccountQ c (Master.updateLogState { m with rpcs := m.rpcs ++ [entry] }
        logPos t.counters).1.rpcs =
        ccountQ c (gcDrain logPos (m.rpcs ++ [entry]) t.counters).1 := rfl
    have hsum := sumOver_setMaster (fun mm => ccountQ c mm.rpcs) t.masters s m
      (Master.updateLogState { m with rpcs := m.rpcs ++ [entry] } logPos t.counters).1
      hl
    simp only [] at hsum
    rw [hrpcs] at hsum
    show (gcDrain logPos (m.rpcs ++ [entry]) t.counters).2.2.count
        (Event.invoked (Cb.user c)) +
      sumOver (fun mm => ccountQ c mm.rpcs)
        (setMaster t.masters s
          (Master.updateLogState { m with rpcs := m.rpcs ++ [entry] }
            logPos t.counters).1) =
      sumOver (fun mm => ccountQ c mm.rpcs) t.masters +
        (if entry.callback == Cb.user c then 1 else 0)
    omega
  | none =>
    have hgc := gcDrain_cbBalance logPos [entry] t.counters c
    have hrpcs : ccountQ c (Master.updateLogState
        { session := s, rpcs := [entry],
          lastestLogState := { appended := 0, synced := 0 }, syncRpcHolder := none }
        logPos t.counters).1.rpcs =
        ccountQ c (gcDrain logPos [entry] t.counters).1 := rfl
    have hsum := sumOver_append_one (fun mm => ccountQ c mm.rpcs) t.masters s
      (Master.updateLogState
        { session := s, rpcs := [entry],
          lastestLogState := { appended := 0, synced := 0 }, syncRpcHolder := none }
        logPos t.counters).1
    simp only [] at hsum
    rw [hrpcs] at hsum
    show (gcDrain logPos [entry] t.counters).2.2.count (Event.invoked (Cb.user c)) +
      sumOver (fun mm => ccountQ c mm.rpcs)
        (t.masters ++ [(s, (Master.updateLogState
          { session := s, rpcs := [entry],
            lastestLogState := { appended := 0, synced := 0 },
            syncRpcHolder := none } logPos t.counters).1)]) =
      sumOver (fun mm => ccountQ c mm.rpcs) t.masters +
        (if entry.callback == Cb.user c then 1 else 0)
    omega

theorem updateOp_freeBalance (t : UnsyncedRpcTracker) (s : Session) (st : LogState)
    (d : Nat) (hPd : dataTxOk d t) :
    (t.updateLogState s st).2.count (Event.free d) +
      pendingData d (t.updateLogState s st).1 = pendingData d t := by
  unfold UnsyncedRpcTracker.updateLogState
  cases hl : t.masters.lookup s with
  | none => simp [pendingData]
  | some m =>
    have hPdq : ∀ e ∈ m.rpcs, e.request.data = d →
        e.txWithUnsyncedPrepare = none :=
      fun e he => hPd (s, m) (lookup_mem _ _ _ hl) e he
    have hgc := gcDrain_freeBalance st m.rpcs t.counters d hPdq
    have hrpcs : dcountQ d (Master.updateLogState m st t.counters).1.rpcs =
        dcountQ d (gcDrain st m.rpcs t.counters).1 := rfl
    have hsum := sumOver_setMaster (fun mm => dcountQ d mm.rpcs) t.masters s m
      (Master.updateLogState m st t.counters).1 hl
    simp only [] at hsum
    rw [hrpcs] at hsum
    show (gcDrain st m.rpcs t.counters).2.2.count (Event.free d) +
      sumOver (fun mm => dcountQ d mm.rpcs)
        (setMaster t.masters s (Master.updateLogState m st t.counters).1) =
      sumOver (fun mm => dcountQ d mm.rpcs) t.masters
    omega

theorem updateOp_cbBalance (t : UnsyncedRpcTracker) (s : Session) (st : LogState)
    (c : Nat) :
    (t.updateLogState s st).2.count (Event.invoked (Cb.user c)) +
      pendingCb c (t.updateLogState s st).1 = pendingCb c t := by
  unfold UnsyncedRpcTracker.updateLogState
  cases hl : t.masters.lookup s with
  | none => simp [pendingCb]
  | some m =>
    have hgc := gcDrain_cbBalance st m.rpcs t.counters c
    have hrpcs : ccountQ c (Master.updateLogState m st t.counters).1.rpcs =
        ccountQ c (gcDrain st m.rpcs t.counters).1 := rfl
    have hsum := sumOver_setMaster (fun mm => ccountQ c mm.rpcs) t.masters s m
      (Master.updateLogState m st t.counters).1 hl
    simp only [] at hsum
    rw [hrpcs] at hsum
    show (gcDrain st m.rpcs t.counters).2.2.count (Event.invoked (Cb.user c)) +
      sumOver (fun mm => ccountQ c mm.rpcs)
        (setMaster t.masters s (Master.updateLogState m st t.counters).1) =
      sumOver (fun mm => ccountQ c mm.rpcs) t.masters
    omega

theorem flushOp_freeBalance (t : UnsyncedRpcTracker) (s : Session)
    (statuses : List Status) (d : Nat) (hPd : dataTxOk d t) :
    (t.flushSession s statuses).2.1.count (Event.free d) +
      pendingData d (t.flushSession s statuses).1 = pendingData d t := by
  unfold UnsyncedRpcTracker.flushSession
  cases hl : t.masters.lookup s with
  | none => simp [pendingData]
  | some m =>
    have hPdq : ∀ e ∈ m.rpcs, e.request.data = d →
        e.txWithUnsyncedPrepare = none :=
      fun e he => hPd (s, m) (lookup_mem _ _ _ hl) e he
    have hfl := flushLoop_freeBalance m.rpcs statuses t.counters d hPdq
    have hsum := sumOver_setMaster (fun mm => dcountQ d mm.rpcs) t.masters s m
      { m with rpcs := (flushLoop m.rpcs statuses t.counters).1 } hl
    simp only [] at hsum
    show (flushLoop m.rpcs statuses t.counters).2.2.1.count (Event.free d) +
      sumOver (fun mm => dcountQ d mm.rpcs)
        (setMaster t.masters s
          { m with rpcs := (flushLoop m.rpcs statuses t.counters).1 }) =
      sumOver (fun mm => dcountQ d mm.rpcs) t.masters
    omega

theorem flushOp_cbBound (t : UnsyncedRpcTracker) (s : Session)
    (statuses : List Status) (c : Nat) :
    (t.flushSession s statuses).2.1.count (Event.invoked (Cb.user c)) +
      pendingCb c (t.flushSession s statuses).1 ≤ pendingCb c t := by
  unfold UnsyncedRpcTracker.flushSession
  cases hl : t.masters.lookup s with
  | none => simp [pendingCb]
  | some m =>
    have hfl := flushLoop_cbBound m.rpcs statuses t.counters c
    have hsum := sumOver_setMaster (fun mm => ccountQ c mm.rpcs) t.masters s m
      { m with rpcs := (flushLoop m.rpcs statuses t.counters).1 } hl
    simp only [] at hsum
    show (flushLoop m.rpcs statuses t.counters).2.2.1.count
        (Event.invoked (Cb.user c)) +
      sumOver (fun mm => ccountQ c mm.rpcs)
        (setMaster t.masters s
          { m with rpcs := (flushLoop m.rpcs statuses t.counters).1 }) ≤
      sumOver (fun mm => ccountQ c mm.rpcs) t.masters
    omega

theorem sumOver_mono (f1 f2 : Master → Nat) (ms : List (Session × Master))
    (h : ∀ p ∈ ms, f1 p.2 ≤ f2 p.2) : sumOver f1 ms ≤ sumOver f2 ms := by
  induction ms with
  | nil => simp [sumOver]
  | cons p rest ih =>
    rw [sumOver_cons, sumOver_cons]
    have h1 := h p (by simp)
    have h2 := ih (fun q hq => h q (by simp [hq]))
    omega

theorem syncRound_freeBalance (skip : Option Session) (t : UnsyncedRpcTracker)
    (resp : List (Session × LogState)) (d : Nat) (hPd : dataTxOk d t) :
    ((syncPhase1 skip t.masters).2 ++
      (syncPhase2 (syncPhase1 skip t.masters).1 resp t.counters).2.2).count
        (Event.free d) +
      sumOver (fun m => dcountQ d m.rpcs)
        (syncPhase2 (syncPhase1 skip t.masters).1 resp t.counters).1 =
      pendingData d t := by
  have hPd1 : ∀ p ∈ (syncPhase1 skip t.masters).1, ∀ e ∈ p.2.rpcs,
      e.request.data = d → e.txWithUnsyncedPrepare = none := by
    intro p hp e he
    rw [syncPhase1_masters] at hp
    obtain ⟨q, hq, hpq⟩ := List.mem_map.mp hp
    rw [← hpq] at he
    simp only [] at he
    rw [phase1M_rpcs] at he
    exact hPd q hq e he
  have hp2 := syncPhase2_freeBalance (syncPhase1 skip t.masters).1 resp t.counters d
    hPd1
  have hp1c : (syncPhase1 skip t.masters).2.count (Event.free d) = 0 := by
    rw [syncPhase1_evs]
    exact count_syncSent_free _ d
  have hsum1 : sumOver (fun m => dcountQ d m.rpcs) (syncPhase1 skip t.masters).1 =
      pendingData d t := by
    rw [syncPhase1_masters, sumOver_map]
    show sumOver (fun m => dcountQ d (phase1M skip m).rpcs) t.masters = _
    have hfx : (fun m => dcountQ d (phase1M skip m).rpcs) =
        (fun m => dcountQ d m.rpcs) := by
      funext m
      rw [phase1M_rpcs]
    rw [hfx]
    rfl
  rw [List.count_append, hp1c]
  omega

theorem syncRound_cbBalance (skip : Option Session) (t : UnsyncedRpcTracker)
    (resp : List (Session × LogState)) (c : Nat) :
    ((syncPhase1 skip t.masters).2 ++
      (syncPhase2 (syncPhase1 skip t.masters).1 resp t.counters).2.2).count
        (Event.invoked (Cb.user c)) +
      sumOver (fun m => ccountQ c m.rpcs)
        (syncPhase2 (syncPhase1 skip t.masters).1 resp t.counters).1 =
      pendingCb c t := by
  have hp2 := syncPhase2_cbBound (syncPhase1 skip t.masters).1 resp t.counters c
  have hp1c : (syncPhase1 skip t.masters).2.count (Event.invoked (Cb.user c)) = 0 := by
    rw [syncPhase1_evs]
    exact count_syncSent_invoked _ _
  have hsum1 : sumOver (fun m => ccountQ c m.rpcs) (syncPhase1 skip t.masters).1 =
      pendingCb c t := by
    rw [syncPhase1_masters, sumOver_map]
    show sumOver (fun m => ccountQ c (phase1M skip m).rpcs) t.masters = _
    have hfx : (fun m => ccountQ c (phase1M skip m).rpcs) =
        (fun m => ccountQ c m.rpcs) := by
      funext m
      rw [phase1M_rpcs]
    rw [hfx]
    rfl
  rw [List.count_append, hp1c]
  omega

theorem syncCbOp_freeBalance (t : UnsyncedRpcTracker) (agg : Nat) (d : Nat) :
    (t.syncCallback agg).2.count (Event.free d) +
      pendingData d (t.syncCallback agg).1 = pendingData d t := by
  unfold UnsyncedRpcTracker.syncCallback
  by_cases h0 : (((t.masters.filter (fun p => !p.2.rpcs.isEmpty)).length == 0) = true)
  · rw [if_pos h0]
    simp [pendingData]
  · rw [if_neg h0]
    show ([] : List Event).count (Event.free d) +
      sumOver (fun m => dcountQ d m.rpcs)
        (t.masters.map (fun p => (p.1, syncCbM t.counters.length
          (t.masters.filter (fun p => !p.2.rpcs.isEmpty)).length agg p.2))) =
      pendingData d t
    rw [sumOver_map]
    have hfx : (fun m => dcountQ d (syncCbM t.counters.length
        (t.masters.filter (fun p => !p.2.rpcs.isEmpty)).length agg m).rpcs) =
        (fun m => dcountQ d m.rpcs) := by
      funext m
      unfold syncCbM
      by_cases hc : m.rpcs.isEmpty = true
      · rw [if_pos hc]
      · rw [if_neg hc]
        exact dcountQ_setLast d m.rpcs _
    rw [hfx]
    simp [pendingData]

theorem syncCbOp_cbBound (t : UnsyncedRpcTracker) (agg : Nat) (c : Nat) :
    (t.syncCallback agg).2.count (Event.invoked (Cb.user c)) +
      pendingCb c (t.syncCallback agg).1 ≤ pendingCb c t := by
  unfold UnsyncedRpcTracker.syncCallback
  by_cases h0 : (((t.masters.filter (fun p => !p.2.rpcs.isEmpty)).length == 0) = true)
  · rw [if_pos h0]
    simp [pendingCb]
  · rw [if_neg h0]
    show ([] : List Event).count (Event.invoked (Cb.user c)) +
      sumOver (fun m => ccountQ c m.rpcs)
        (t.masters.map (fun p => (p.1, syncCbM t.counters.length
          (t.masters.filter (fun p => !p.2.rpcs.isEmpty)).length agg p.2))) ≤
      pendingCb c t
    rw [sumOver_map]
    have hmono : sumOver (fun m => ccountQ c (syncCbM t.counters.length
        (t.masters.filter (fun p => !p.2.rpcs.isEmpty)).length agg m).rpcs)
          t.masters ≤
        sumOver (fun m => ccountQ c m.rpcs) t.masters := by
      apply sumOver_mono
      intro p hp
      unfold syncCbM
      by_cases hc : p.2.rpcs.isEmpty = true
      · rw [if_pos hc]
      · rw [if_neg hc]
        exact ccountQ_setLast_le c p.2.rpcs _ rfl
    simp only [List.count_nil, Nat.zero_add]
    exact hmono

theorem step_dataTxOk (t : UnsyncedRpcTracker) (op : Op) (d : Nat) (hd : d ≠ 0)
    (hPd : dataTxOk d t) : dataTxOk d (t.step op).1 := by
  intro p hp e he hdata
  have hm : memT e (t.step op).1 := ⟨p, hp, he⟩
  rcases step_mem t op e hm with h1 | h1 | h1
  · obtain ⟨q, hq, he2⟩ := h1
    exact hPd q hq e he2 hdata
  · cases op with
    | register s req tableId keyHash objVer pos cb =>
      simp only [opNew] at h1
      subst h1
      rfl
    | registerTx s txTask pos =>
      simp only [opNew] at h1
      subst h1
      exact absurd hdata.symm hd
    | update s st => simp [opNew] at h1
    | flush s statuses => simp [opNew] at h1
    | syncBlocking resp => simp [opNew] at h1
    | effSync skip resp => simp [opNew] at h1
    | syncCb agg => simp [opNew] at h1
  · cases op with
    | register s req tableId keyHash objVer pos cb => simp [opRetag] at h1
    | registerTx s txTask pos => simp [opRetag] at h1
    | update s st => simp [opRetag] at h1
    | flush s statuses => simp [opRetag] at h1
    | syncBlocking resp => simp [opRetag] at h1
    | effSync skip resp => simp [opRetag] at h1
    | syncCb agg =>
      simp only [opRetag] at h1
      obtain ⟨e0, hmem, heq⟩ := h1
      obtain ⟨q, hq, he0⟩ := hmem
      subst heq
      exact hPd q hq e0 he0 hdata

theorem step_freeBalance (t : UnsyncedRpcTracker) (op : Op) (d : Nat)
    (hd : d ≠ 0) (hPd : dataTxOk d t) :
    (t.step op).2.count (Event.free d) + pendingData d (t.step op).1 =
      pendingData d t + registersFor d [op] := by
  cases op with
  | register s req tableId keyHash objVer pos cb =>
    have h := registerEntry_freeBalance t s
      (mkWrite req tableId keyHash objVer pos cb) pos d hPd (fun _ => rfl)
    have hdm : (mkWrite req tableId keyHash objVer pos cb).request.data =
        req.data := rfl
    rw [hdm] at h
    have hreg : registersFor d [Op.register s req tableId keyHash objVer pos cb] =
        (if req.data == d then 1 else 0) := by
      by_cases hb : (req.data == d) = true
      · simp [registersFor, List.filter_cons, hb]
      · have hbb : (req.data == d) = false := by
          rw [Bool.eq_false_iff]
          exact hb
        simp [registersFor, List.filter_cons, hbb]
    rw [hreg]
    exact h
  | registerTx s txTask pos =>
    have h2 := registerEntry_freeBalance t s (mkPrepare txTask pos) pos d hPd
      (fun hdd => absurd hdd.symm hd)
    have hdm : (mkPrepare txTask pos).request.data = 0 := rfl
    rw [hdm] at h2
    have hz : ((0 : Nat) == d) = false := by
      simp [beq_iff_eq]
      exact fun hc => hd hc.symm
    rw [hz] at h2
    have hreg : registersFor d [Op.registerTx s txTask pos] = 0 := rfl
    rw [hreg]
    simpa using h2
  | update s st =>
    have h := updateOp_freeBalance t s st d hPd
    have hreg : registersFor d [Op.update s st] = 0 := rfl
    rw [hreg]
    simpa using h
  | flush s statuses =>
    have h := flushOp_freeBalance t s statuses d hPd
    have hreg : registersFor d [Op.flush s statuses] = 0 := rfl
    rw [hreg]
    simpa using h
  | syncBlocking resp =>
    have h := syncRound_freeBalance none t resp d hPd
    have hreg : registersFor d [Op.syncBlocking resp] = 0 := rfl
    rw [hreg]
    show ((syncPhase1 none t.masters).2 ++
      (syncPhase2 (syncPhase1 none t.masters).1 resp t.counters).2.2).count
        (Event.free d) +
      sumOver (fun m => dcountQ d m.rpcs)
        (syncPhase2 (syncPhase1 none t.masters).1 resp t.counters).1 =
      pendingData d t + 0
    omega
  | effSync skip resp =>
    have h := syncRound_freeBalance (some skip) t resp d hPd
    have hreg : registersFor d [Op.effSync skip resp] = 0 := rfl
    rw [hreg]
    show ((syncPhase1 (some skip) t.masters).2 ++
      (syncPhase2 (syncPhase1 (some skip) t.masters).1 resp t.counters).2.2).count
        (Event.free d) +
      sumOver (fun m => dcountQ d m.rpcs)
        (syncPhase2 (syncPhase1 (some skip) t.masters).1 resp t.counters).1 =
      pendingData d t + 0
    omega
  | syncCb agg =>
    have h := syncCbOp_freeBalance t agg d
    have hreg : registersFor d [Op.syncCb agg] = 0 := rfl
    rw [hreg]
    simpa using h

theorem step_cbBound (t : UnsyncedRpcTracker) (op : Op) (c : Nat) :
    (t.step op).2.count (Event.invoked (Cb.user c)) +
      pendingCb c (t.step op).1 ≤ pendingCb c t + registersCb c [op] := by
  cases op with
  | register s req tableId keyHash objVer pos cb =>
    have h := registerEntry_cbBalance t s
      (mkWrite req tableId keyHash objVer pos cb) pos c
    have hdm : (mkWrite req tableId keyHash objVer pos cb).callback = cb := rfl
    rw [hdm] at h
    have hreg : registersCb c [Op.register s req tableId keyHash objVer pos cb] =
        (if cb == Cb.user c then 1 else 0) := by
      by_cases hb : (cb == Cb.user c) = true
      · simp [registersCb, List.filter_cons, hb]
      · have hbb : (cb == Cb.user c) = false := by
          rw [Bool.eq_false_iff]
          exact hb
        simp [registersCb, List.filter_cons, hbb]
    rw [hreg]
    exact le_of_eq h
  | registerTx s txTask pos =>
    have h := registerEntry_cbBalance t s (mkPrepare txTask pos) pos c
    have hdm : (mkPrepare txTask pos).callback = Cb.nop := rfl
    rw [hdm] at h
    have hz : ((Cb.nop : Cb) == Cb.user c) = false := rfl
    rw [hz] at h
    have hreg : registersCb c [Op.registerTx s txTask pos] = 0 := rfl
    rw [hreg]
    exact le_of_eq h
  | update s st =>
    have h := updateOp_cbBalance t s st c
    have hreg : registersCb c [Op.update s st] = 0 := rfl
    rw [hreg]
    exact le_of_eq h
  | flush s statuses =>
    have h := flushOp_cbBound t s statuses c
    have hreg : registersCb c [Op.flush s statuses] = 0 := rfl
    rw [hreg]
    exact h
  | syncBlocking resp =>
    have h := syncRound_cbBalance none t resp c
    have hreg : registersCb c [Op.syncBlocking resp] = 0 := rfl
    rw [hreg]
    show ((syncPhase1 none t.masters).2 ++
      (syncPhase2 (syncPhase1 none t.masters).1 resp t.counters).2.2).count
        (Event.invoked (Cb.user c)) +
      sumOver (fun m => ccountQ c m.rpcs)
        (syncPhase2 (syncPhase1 none t.masters).1 resp t.counters).1 ≤
      pendingCb c t + 0
    omega
  | effSync skip resp =>
    have h := syncRound_cbBalance (some skip) t resp c
    have hreg : registersCb c [Op.effSync skip resp] = 0 := rfl
    rw [hreg]
    show ((syncPhase1 (some skip) t.masters).2 ++
      (syncPhase2 (syncPhase1 (some skip) t.masters).1 resp t.counters).2.2).count
        (Event.invoked (Cb.user c)) +
      sumOver (fun m => ccountQ c m.rpcs)
        (syncPhase2 (syncPhase1 (some skip) t.masters).1 resp t.counters).1 ≤
      pendingCb c t + 0
    omega
  | syncCb agg =>
    have h := syncCbOp_cbBound t agg c
    have hreg : registersCb c [Op.syncCb agg] = 0 := rfl
    rw [hreg]
    exact h

theorem registersFor_cons (d : Nat) (op : Op) (ops : List Op) :
    registersFor d (op :: ops) = registersFor d [op] + registersFor d ops := by
  simp only [registersFor, List.filter_cons]
  cases hm : (match op with
    | Op.register _ req _ _ _ _ _ => req.data == d
    | _ => false) with
  | true => simp [hm]; omega
  | false => simp [hm]

theorem registersCb_cons (c : Nat) (op : Op) (ops : List Op) :
    registersCb c (op :: ops) = registersCb c [op] + registersCb c ops := by
  simp only [registersCb, List.filter_cons]
  cases hm : (match op with
    | Op.register _ _ _ _ _ _ cb => cb == Cb.user c
    | _ => false) with
  | true => simp [hm]; omega
  | false => simp [hm]

theorem runOps_freeBalance (d : Nat) (hd : d ≠ 0) (ops : List Op)
    (t : UnsyncedRpcTracker) (hPd : dataTxOk d t) :
    (t.runOps ops).2.count (Event.free d) + pendingData d (t.runOps ops).1 =
      pendingData d t + registersFor d ops := by
  induction ops generalizing t with
  | nil => simp [UnsyncedRpcTracker.runOps, registersFor]
  | cons op rest ih =>
    have hstep := step_freeBalance t op d hd hPd
    have hinv := step_dataTxOk t op d hd hPd
    have hrest := ih (t.step op).1 hinv
    have hrun : t.runOps (op :: rest) =
        (((t.step op).1.runOps rest).1,
          (t.step op).2 ++ ((t.step op).1.runOps rest).2) := rfl
    rw [hrun, registersFor_cons]
    simp only [List.count_append]
    omega

theorem runOps_cbBound (c : Nat) (ops : List Op) (t : UnsyncedRpcTracker) :
    (t.runOps ops).2.count (Event.invoked (Cb.user c)) +
      pendingCb c (t.runOps ops).1 ≤ pendingCb c t + registersCb c ops := by
  induction ops generalizing t with
  | nil => simp [UnsyncedRpcTracker.runOps, registersCb]
  | cons op rest ih =>
    have hstep := step_cbBound t op c
    have hrest := ih (t.step op).1
    have hrun : t.runOps (op :: rest) =
        (((t.step op).1.runOps rest).1,
          (t.step op).2 ++ ((t.step op).1.runOps rest).2) := rfl
    rw [hrun, registersCb_cons]
    simp only [List.count_append]
    omega

/-- C2 counterexample: in the trace c2ops a plain write with payload 1
and user callback 5 is registered and later fully resolved (its payload
freed, its queue empty), yet the originally supplied callback is never
invoked: sync(callback) replaced it with the fan-in wrapper, so
resolution is not exactly-once with the original callback. -/
theorem c2_counterexample :
    registersCb 5 c2ops = 1 ∧
    (UnsyncedRpcTracker.runOps ⟨[], []⟩ c2ops).2.count
      (Event.invoked (Cb.user 5)) = 0 ∧
    pendingCb 5 (UnsyncedRpcTracker.runOps ⟨[], []⟩ c2ops).1 = 0 ∧
    (UnsyncedRpcTracker.runOps ⟨[], []⟩ c2ops).2.count (Event.free 1) = 1 ∧
    registersFor 1 c2ops = 1 := by
  decide

/-- C2 (amended): starting from the empty tracker, along any operation
trace every registered payload d ≠ 0 is freed exactly once (frees so far
plus entries still queued equals the number of registrations carrying d),
and the originally supplied user callback is invoked at most once per
registration — not exactly once, because sync(callback) may overwrite the
tail entry's callback. -/
theorem c2_amended (d c : Nat) (hd : d ≠ 0) (ops : List Op) :
    ((UnsyncedRpcTracker.runOps ⟨[], []⟩ ops).2.count (Event.free d) +
        pendingData d (UnsyncedRpcTracker.runOps ⟨[], []⟩ ops).1 =
      registersFor d ops) ∧
    ((UnsyncedRpcTracker.runOps ⟨[], []⟩ ops).2.count
        (Event.invoked (Cb.user c)) +
        pendingCb c (UnsyncedRpcTracker.runOps ⟨[], []⟩ ops).1 ≤
      registersCb c ops) := by
  constructor
  · have h := runOps_freeBalance d hd ops ⟨[], []⟩ (by intro p hp; cases hp)
    have h0 : pendingData d (⟨[], []⟩ : UnsyncedRpcTracker) = 0 := rfl
    rw [h0] at h
    omega
  · have h := runOps_cbBound c ops ⟨[], []⟩
    have h0 : pendingCb c (⟨[], []⟩ : UnsyncedRpcTracker) = 0 := rfl
    rw [h0] at h
    omega

/-- Witness for c2_amended at the concrete trace c2ops. -/
theorem c2_amended_witness :
    (1 : Nat) ≠ 0 ∧
    (((UnsyncedRpcTracker.runOps ⟨[], []⟩ c2ops).2.count (Event.free 1) +
        pendingData 1 (UnsyncedRpcTracker.runOps ⟨[], []⟩ c2ops).1 =
      registersFor 1 c2ops) ∧
    ((UnsyncedRpcTracker.runOps ⟨[], []⟩ c2ops).2.count
        (Event.invoked (Cb.user 5)) +
        pendingCb 5 (UnsyncedRpcTracker.runOps ⟨[], []⟩ c2ops).1 ≤
      registersCb 5 c2ops)) :=
  ⟨by decide, c2_amended 1 5 (by decide) c2ops⟩

theorem mcountQ_append_one (a : Nat) (q : List UnsyncedRpc) (e : UnsyncedRpc) :
    mcountQ a (q ++ [e]) =
      mcountQ a q + (if cbMentions a e.callback then 1 else 0) := by
  by_cases hm : cbMentions a e.callback = true
  · simp [mcountQ, List.filter_append, List.filter_cons, hm]
  · rw [Bool.not_eq_true] at hm
    simp [mcountQ, List.filter_append, List.filter_cons, hm]

theorem sumOver_le_of_mem (f : Master → Nat) (ms : List (Session × Master))
    (p : Session × Master) (h : p ∈ ms) : f p.2 ≤ sumOver f ms := by
  induction ms with
  | nil => cases h
  | cons q rest ih =>
    rw [sumOver_cons]
    rcases List.mem_cons.mp h with h1 | h1
    · rw [h1]
      omega
    · have := ih h1
      omega

theorem count_syncSent_agg (l : List (Session × Master)) (a : Nat) :
    aggCount a (l.map (fun p => Event.syncSent p.2.session)) = 0 := by
  induction l with
  | nil => rfl
  | cons p rest ih =>
    simp [aggCount, List.count_cons] at *
    exact ih

theorem masterUpdate_fanin (r n a : Nat) (m : Master) (S : LogState)
    (cs : List Nat)
    (hshape : ∀ e ∈ m.rpcs, tagShapeOk r n a e.callback = true)
    (hr : r < cs.length)
    (hbound : cs.getD r 0 + mcountQ a m.rpcs ≤ n) :
    (Master.updateLogState m S cs).2.1.length = cs.length ∧
    (Master.updateLogState m S cs).2.1.getD r 0 +
      mcountQ a (Master.updateLogState m S cs).1.rpcs =
      cs.getD r 0 + mcountQ a m.rpcs ∧
    mcountQ a (Master.updateLogState m S cs).1.rpcs ≤ mcountQ a m.rpcs ∧
    aggCount a (Master.updateLogState m S cs).2.2 =
      (if (Master.updateLogState m S cs).2.1.getD r 0 = n ∧
          mcountQ a (Master.updateLogState m S cs).1.rpcs < mcountQ a m.rpcs
       then 1 else 0) :=
  gcDrain_fanin r n a S m.rpcs cs hshape hr hbound

theorem syncPhase2_fanin (r n a : Nat) (ms : List (Session × Master))
    (resp : List (Session × LogState)) (cs : List Nat)
    (hshape : ∀ p ∈ ms, ∀ e ∈ p.2.rpcs, tagShapeOk r n a e.callback = true)
    (hr : r < cs.length)
    (hbound : cs.getD r 0 + sumOver (fun m => mcountQ a m.rpcs) ms ≤ n) :
    (syncPhase2 ms resp cs).2.1.length = cs.length ∧
    (syncPhase2 ms resp cs).2.1.getD r 0 +
      sumOver (fun m => mcountQ a m.rpcs) (syncPhase2 ms resp cs).1 =
      cs.getD r 0 + sumOver (fun m => mcountQ a m.rpcs) ms ∧
    sumOver (fun m => mcountQ a m.rpcs) (syncPhase2 ms resp cs).1 ≤
      sumOver (fun m => mcountQ a m.rpcs) ms ∧
    aggCount a (syncPhase2 ms resp cs).2.2 =
      (if (syncPhase2 ms resp cs).2.1.getD r 0 = n ∧
          sumOver (fun m => mcountQ a m.rpcs) (syncPhase2 ms resp cs).1 <
            sumOver (fun m => mcountQ a m.rpcs) ms then 1 else 0) := by
  induction ms generalizing cs with
  | nil =>
    simp [syncPhase2, sumOver, aggCount]
  | cons p rest ih =>
    have hsh_p : ∀ e ∈ p.2.rpcs, tagShapeOk r n a e.callback = true :=
      hshape p (by simp)
    have hsh_r : ∀ q ∈ rest, ∀ e ∈ q.2.rpcs, tagShapeOk r n a e.callback = true :=
      fun q hq => hshape q (by simp [hq])
    rw [sumOver_cons] at hbound
    cases hh : p.2.syncRpcHolder with
    | none =>
      have hstep : syncPhase2 (p :: rest) resp cs =
          (p :: (syncPhase2 rest resp cs).1, (syncPhase2 rest resp cs).2.1,
           (syncPhase2 rest resp cs).2.2) := by
        simp only [syncPhase2, hh]
      obtain ⟨ihL, ihG, ihLe, ihA⟩ := ih cs hsh_r hr (by omega)
      rw [hstep]
      simp only []
      rw [sumOver_cons, sumOver_cons]
      refine ⟨ihL, by omega, by omega, ?_⟩
      rw [ihA]
      by_cases h1 : ((syncPhase2 rest resp cs).2.1.getD r 0 = n ∧
          sumOver (fun m => mcountQ a m.rpcs) (syncPhase2 rest resp cs).1 <
            sumOver (fun m => mcountQ a m.rpcs) rest)
      · rw [if_pos h1]
        obtain ⟨h1a, h1b⟩ := h1
        rw [if_pos ⟨h1a, by omega⟩]
      · rw [if_neg h1]
        rw [if_neg (by rintro ⟨h2a, h2b⟩; exact h1 ⟨h2a, by omega⟩)]
    | some g =>
      obtain ⟨gL, gG, gLe, gA⟩ := masterUpdate_fanin r n a
        { session := p.2.session, rpcs := p.2.rpcs, lastestLogState := p.2.lastestLogState, syncRpcHolder := none }
        ((resp.lookup p.2.session).getD { appended := 0, synced := 0 }) cs
        hsh_p hr (by show cs.getD r 0 + mcountQ a p.2.rpcs ≤ n; omega)
      have hsrc : ({ session := p.2.session, rpcs := p.2.rpcs, lastestLogState := p.2.lastestLogState, syncRpcHolder := none } : Master).rpcs =
          p.2.rpcs := rfl
      rw [hsrc] at gG gLe gA
      have hr1 : r < (Master.updateLogState { session := p.2.session, rpcs := p.2.rpcs, lastestLogState := p.2.lastestLogState, syncRpcHolder := none }
          ((resp.lookup p.2.session).getD { appended := 0, synced := 0 })
          cs).2.1.length := by
        rw [gL]
        exact hr
      obtain ⟨ihL, ihG, ihLe, ihA⟩ := ih
        (Master.updateLogState { session := p.2.session, rpcs := p.2.rpcs, lastestLogState := p.2.lastestLogState, syncRpcHolder := none }
          ((resp.lookup p.2.session).getD { appended := 0, synced := 0 }) cs).2.1
        hsh_r hr1 (by omega)
      have hstep : syncPhase2 (p :: rest) resp cs =
          ((p.1, (Master.updateLogState { session := p.2.session, rpcs := p.2.rpcs, lastestLogState := p.2.lastestLogState, syncRpcHolder := none }
              ((resp.lookup p.2.session).getD { appended := 0, synced := 0 })
              cs).1) ::
            (syncPhase2 rest resp
              (Master.updateLogState { session := p.2.session, rpcs := p.2.rpcs, lastestLogState := p.2.lastestLogState, syncRpcHolder := none }
                ((resp.lookup p.2.session).getD { appended := 0, synced := 0 })
                cs).2.1).1,
           (syncPhase2 rest resp
             (Master.updateLogState { session := p.2.session, rpcs := p.2.rpcs, lastestLogState := p.2.lastestLogState, syncRpcHolder := none }
               ((resp.lookup p.2.session).getD { appended := 0, synced := 0 })
               cs).2.1).2.1,
           (Master.updateLogState { session := p.2.session, rpcs := p.2.rpcs, lastestLogState := p.2.lastestLogState, syncRpcHolder := none }
             ((resp.lookup p.2.session).getD { appended := 0, synced := 0 })
             cs).2.2 ++
           (syncPhase2 rest resp
             (Master.updateLogState { session := p.2.session, rpcs := p.2.rpcs, lastestLogState := p.2.lastestLogState, syncRpcHolder := none }
               ((resp.lookup p.2.session).getD { appended := 0, synced := 0 })
               cs).2.1).2.2) := by
        simp only [syncPhase2, hh]
      rw [hstep]
      simp only []
      rw [sumOver_cons, sumOver_cons]
      simp only []
      refine ⟨ihL.trans gL, by omega, by omega, ?_⟩
      rw [aggCount_append, gA, ihA]
      by_cases hc1 : ((Master.updateLogState { session := p.2.session, rpcs := p.2.rpcs, lastestLogState := p.2.lastestLogState, syncRpcHolder := none }
          ((resp.lookup p.2.session).getD { appended := 0, synced := 0 })
          cs).2.1.getD r 0 = n ∧
          mcountQ a (Master.updateLogState { session := p.2.session, rpcs := p.2.rpcs, lastestLogState := p.2.lastestLogState, syncRpcHolder := none }
            ((resp.lookup p.2.session).getD { appended := 0, synced := 0 })
            cs).1.rpcs < mcountQ a p.2.rpcs)
      · rw [if_pos hc1]
        obtain ⟨hc1a, hc1b⟩ := hc1
        rw [if_neg (by rintro ⟨h2a, h2b⟩; omega)]
        rw [if_pos ⟨by omega, by omega⟩]
      · rw [if_neg hc1]
        by_cases hc2 : ((syncPhase2 rest resp
            (Master.updateLogState { session := p.2.session, rpcs := p.2.rpcs, lastestLogState := p.2.lastestLogState, syncRpcHolder := none }
              ((resp.lookup p.2.session).getD { appended := 0, synced := 0 })
              cs).2.1).2.1.getD r 0 = n ∧
            sumOver (fun m => mcountQ a m.rpcs)
              (syncPhase2 rest resp
                (Master.updateLogState { session := p.2.session, rpcs := p.2.rpcs, lastestLogState := p.2.lastestLogState, syncRpcHolder := none }
                  ((resp.lookup p.2.session).getD { appended := 0, synced := 0 })
                  cs).2.1).1 <
              sumOver (fun m => mcountQ a m.rpcs) rest)
        · rw [if_pos hc2]
          obtain ⟨hc2a, hc2b⟩ := hc2
          rw [if_pos ⟨hc2a, by omega⟩]
        · rw [if_neg hc2]
          rw [if_neg (by
            rintro ⟨h3a, h3b⟩
            by_cases hsr : sumOver (fun m => mcountQ a m.rpcs)
                (syncPhase2 rest resp
                  (Master.updateLogState { session := p.2.session, rpcs := p.2.rpcs, lastestLogState := p.2.lastestLogState, syncRpcHolder := none }
                    ((resp.lookup p.2.session).getD { appended := 0, synced := 0 })
                    cs).2.1).1 <
                sumOver (fun m => mcountQ a m.rpcs) rest
            · exact hc2 ⟨h3a, hsr⟩
            · exact hc1 ⟨by omega, by omega⟩)]

theorem step_stateTagOk (r n a : Nat) (t : UnsyncedRpcTracker) (op : Op)
    (hst : stateTagOk r n a t) (hb : opsBenign [op] = true) :
    stateTagOk r n a (t.step op).1 := by
  intro p hp e he
  have hm : memT e (t.step op).1 := ⟨p, hp, he⟩
  rcases step_mem t op e hm with h1 | h1 | h1
  · obtain ⟨q, hq, he2⟩ := h1
    exact hst q hq e he2
  · cases op with
    | register s req tableId keyHash objVer pos cb =>
      simp only [opNew] at h1
      subst h1
      simp only [opsBenign, List.all_cons, List.all_nil, Bool.and_true] at hb
      cases cb with
      | user c => exact ⟨rfl, by intro hx; rfl⟩
      | nop => exact ⟨rfl, by intro hx; rfl⟩
      | fanin r2 n2 b => cases hb
    | registerTx s txTask pos =>
      simp only [opNew] at h1
      subst h1
      exact ⟨rfl, by intro hx; rfl⟩
    | update s st => simp [opNew] at h1
    | flush s statuses => simp [opNew] at h1
    | syncBlocking resp => simp [opNew] at h1
    | effSync skip resp => simp [opNew] at h1
    | syncCb agg => simp [opNew] at h1
  · cases op with
    | register s req tableId keyHash objVer pos cb => simp [opRetag] at h1
    | registerTx s txTask pos => simp [opRetag] at h1
    | update s st => simp [opRetag] at h1
    | flush s statuses => simp [opRetag] at h1
    | syncBlocking resp => simp [opRetag] at h1
    | effSync skip resp => simp [opRetag] at h1
    | syncCb agg =>
      simp only [opsBenign, List.all_cons, List.all_nil, Bool.and_true] at hb
      cases hb

theorem updateOp_fanin (r n a : Nat) (t : UnsyncedRpcTracker) (s : Session)
    (st : LogState) (hst : stateTagOk r n a t) (hr : r < t.counters.length)
    (hbound : t.counters.getD r 0 + tagCount a t ≤ n) :
    (t.updateLogState s st).1.counters.length = t.counters.length ∧
    (t.updateLogState s st).1.counters.getD r 0 +
      tagCount a (t.updateLogState s st).1 =
      t.counters.getD r 0 + tagCount a t ∧
    tagCount a (t.updateLogState s st).1 ≤ tagCount a t ∧
    aggCount a (t.updateLogState s st).2 =
      (if (t.updateLogState s st).1.counters.getD r 0 = n ∧
          tagCount a (t.updateLogState s st).1 < tagCount a t
       then 1 else 0) := by
  unfold UnsyncedRpcTracker.updateLogState
  cases hl : t.masters.lookup s with
  | none =>
    refine ⟨rfl, rfl, Nat.le_refl _, ?_⟩
    show aggCount a ([] : List Event) =
      (if t.counters.getD r 0 = n ∧ tagCount a t < tagCount a t then 1 else 0)
    rw [if_neg (by rintro ⟨h1, h2⟩; omega)]
    rfl
  | some m =>
    have hshm : ∀ e ∈ m.rpcs, tagShapeOk r n a e.callback = true :=
      fun e he => (hst (s, m) (lookup_mem _ _ _ hl) e he).1
    have hmle : mcountQ a m.rpcs ≤ tagCount a t :=
      sumOver_le_of_mem (fun mm => mcountQ a mm.rpcs) t.masters (s, m)
        (lookup_mem _ _ _ hl)
    obtain ⟨gL, gG, gLe, gA⟩ := masterUpdate_fanin r n a m st t.counters hshm hr
      (by omega)
    have hsum := sumOver_setMaster (fun mm => mcountQ a mm.rpcs) t.masters s m
      (Master.updateLogState m st t.counters).1 hl
    simp only [] at hsum
    refine ⟨gL, ?_, ?_, ?_⟩
    · show (Master.updateLogState m st t.counters).2.1.getD r 0 +
        sumOver (fun mm => mcountQ a mm.rpcs)
          (setMaster t.masters s (Master.updateLogState m st t.counters).1) =
        t.counters.getD r 0 + sumOver (fun mm => mcountQ a mm.rpcs) t.masters
      omega
    · show sumOver (fun mm => mcountQ a mm.rpcs)
          (setMaster t.masters s (Master.updateLogState m st t.counters).1) ≤
        sumOver (fun mm => mcountQ a mm.rpcs) t.masters
      omega
    · show aggCount a (Master.updateLogState m st t.counters).2.2 =
        (if (Master.updateLogState m st t.counters).2.1.getD r 0 = n ∧
            sumOver (fun mm => mcountQ a mm.rpcs)
              (setMaster t.masters s (Master.updateLogState m st t.counters).1) <
              sumOver (fun mm => mcountQ a mm.rpcs) t.masters
         then 1 else 0)
      rw [gA]
      by_cases hc : ((Master.updateLogState m st t.counters).2.1.getD r 0 = n ∧
          mcountQ a (Master.updateLogState m st t.counters).1.rpcs <
            mcountQ a m.rpcs)
      · rw [if_pos hc]
        obtain ⟨hc1, hc2⟩ := hc
        rw [if_pos ⟨hc1, by omega⟩]
      · rw [if_neg hc]
        rw [if_neg (by rintro ⟨h1, h2⟩; exact hc ⟨h1, by omega⟩)]

theorem flushOp_fanin (r n a : Nat) (t : UnsyncedRpcTracker) (s : Session)
    (statuses : List Status) (hst : stateTagOk r n a t)
    (hr : r < t.counters.length)
    (hbound : t.counters.getD r 0 + tagCount a t ≤ n) :
    (t.flushSession s statuses).1.counters.length = t.counters.length ∧
    (t.flushSession s statuses).1.counters.getD r 0 +
      tagCount a (t.flushSession s statuses).1 =
      t.counters.getD r 0 + tagCount a t ∧
    tagCount a (t.flushSession s statuses).1 ≤ tagCount a t ∧
    aggCount a (t.flushSession s statuses).2.1 =
      (if (t.flushSession s statuses).1.counters.getD r 0 = n ∧
          tagCount a (t.flushSession s statuses).1 < tagCount a t
       then 1 else 0) := by
  unfold UnsyncedRpcTracker.flushSession
  cases hl : t.masters.lookup s with
  | none =>
    refine ⟨rfl, rfl, Nat.le_refl _, ?_⟩
    show aggCount a ([] : List Event) =
      (if t.counters.getD r 0 = n ∧ tagCount a t < tagCount a t then 1 else 0)
    rw [if_neg (by rintro ⟨h1, h2⟩; omega)]
    rfl
  | some m =>
    have hshm : ∀ e ∈ m.rpcs, tagShapeOk r n a e.callback = true :=
      fun e he => (hst (s, m) (lookup_mem _ _ _ hl) e he).1
    have htxm : ∀ e ∈ m.rpcs, e.txWithUnsyncedPrepare.isSome = true →
        cbMentions a e.callback = false :=
      fun e he => (hst (s, m) (lookup_mem _ _ _ hl) e he).2
    have hmle : mcountQ a m.rpcs ≤ tagCount a t :=
      sumOver_le_of_mem (fun mm => mcountQ a mm.rpcs) t.masters (s, m)
        (lookup_mem _ _ _ hl)
    obtain ⟨gL, gG, gLe, gA⟩ := flushLoop_fanin r n a m.rpcs statuses t.counters
      hshm htxm hr (by omega)
    have hsum := sumOver_setMaster (fun mm => mcountQ a mm.rpcs) t.masters s m
      { m with rpcs := (flushLoop m.rpcs statuses t.counters).1 } hl
    simp only [] at hsum
    refine ⟨gL, ?_, ?_, ?_⟩
    · show (flushLoop m.rpcs statuses t.counters).2.1.getD r 0 +
        sumOver (fun mm => mcountQ a mm.rpcs)
          (setMaster t.masters s
            { m with rpcs := (flushLoop m.rpcs statuses t.counters).1 }) =
        t.counters.getD r 0 + sumOver (fun mm => mcountQ a mm.rpcs) t.masters
      omega
    · show sumOver (fun mm => mcountQ a mm.rpcs)
          (setMaster t.masters s
            { m with rpcs := (flushLoop m.rpcs statuses t.counters).1 }) ≤
        sumOver (fun mm => mcountQ a mm.rpcs) t.masters
      omega
    · show aggCount a (flushLoop m.rpcs statuses t.counters).2.2.1 =
        (if (flushLoop m.rpcs statuses t.counters).2.1.getD r 0 = n ∧
            sumOver (fun mm => mcountQ a mm.rpcs)
              (setMaster t.masters s
                { m with rpcs := (flushLoop m.rpcs statuses t.counters).1 }) <
              sumOver (fun mm => mcountQ a mm.rpcs) t.masters
         then 1 else 0)
      rw [gA]
      by_cases hc : ((flushLoop m.rpcs statuses t.counters).2.1.getD r 0 = n ∧
          mcountQ a (flushLoop m.rpcs statuses t.counters).1 < mcountQ a m.rpcs)
      · rw [if_pos hc]
        obtain ⟨hc1, hc2⟩ := hc
        rw [if_pos ⟨hc1, by omega⟩]
      · rw [if_neg hc]
        rw [if_neg (by rintro ⟨h1, h2⟩; exact hc ⟨h1, by omega⟩)]

theorem registerEntry_fanin (r n a : Nat) (t : UnsyncedRpcTracker) (s : Session)
    (entry : UnsyncedRpc) (logPos : LogState)
    (hst : stateTagOk r n a t) (hr : r < t.counters.length)
    (hbound : t.counters.getD r 0 + tagCount a t ≤ n)
    (hesh : tagShapeOk r n a entry.callback = true)
    (hem : cbMentions a entry.callback = false) :
    (t.registerEntry s entry logPos).1.counters.length = t.counters.length ∧
    (t.registerEntry s entry logPos).1.counters.getD r 0 +
      tagCount a (t.registerEntry s entry logPos).1 =
      t.counters.getD r 0 + tagCount a t ∧
    tagCount a (t.registerEntry s entry logPos).1 ≤ tagCount a t ∧
    aggCount a (t.registerEntry s entry logPos).2 =
      (if (t.registerEntry s entry logPos).1.counters.getD r 0 = n ∧
          tagCount a (t.registerEntry s entry logPos).1 < tagCount a t
       then 1 else 0) := by
  unfold UnsyncedRpcTracker.registerEntry
  cases hl : t.masters.lookup s with
  | some m =>
    have hshm : ∀ e ∈ m.rpcs ++ [entry], tagShapeOk r n a e.callback = true := by
      intro e he
      rcases List.mem_append.mp he with h1 | h1
      · exact (hst (s, m) (lookup_mem _ _ _ hl) e h1).1
      · rw [List.mem_singleton.mp h1]
        exact hesh
    have hmq : mcountQ a (m.rpcs ++ [entry]) = mcountQ a m.rpcs := by
      rw [mcountQ_append_one, hem]
      simp
    have hmle : mcountQ a m.rpcs ≤ tagCount a t :=
      sumOver_le_of_mem (fun mm => mcountQ a mm.rpcs) t.masters (s, m)
        (lookup_mem _ _ _ hl)
    obtain ⟨gL, gG, gLe, gA⟩ := masterUpdate_fanin r n a
      { m with rpcs := m.rpcs ++ [entry] } logPos t.counters hshm hr
      (by show t.counters.getD r 0 + mcountQ a (m.rpcs ++ [entry]) ≤ n; omega)
    have hsrc : ({ m with rpcs := m.rpcs ++ [entry] } : Master).rpcs =
        m.rpcs ++ [entry] := rfl
    rw [hsrc, hmq] at gG gLe gA
    have hsum := sumOver_setMaster (fun mm => mcountQ a mm.rpcs) t.masters s m
      (Master.updateLogState { m with rpcs := m.rpcs ++ [entry] }
        logPos t.counters).1 hl
    simp only [] at hsum
    refine ⟨gL, ?_, ?_, ?_⟩
    · show (Master.updateLogState { m with rpcs := m.rpcs ++ [entry] }
          logPos t.counters).2.1.getD r 0 +
        sumOver (fun mm => mcountQ a mm.rpcs)
          (setMaster t.masters s
            (Master.updateLogState { m with rpcs := m.rpcs ++ [entry] }
              logPos t.counters).1) =
        t.counters.getD r 0 + sumOver (fun mm => mcountQ a mm.rpcs) t.masters
      omega
    · show sumOver (fun mm => mcountQ a mm.rpcs)
          (setMaster t.masters s
            (Master.updateLogState { m with rpcs := m.rpcs ++ [entry] }
              logPos t.counters).1) ≤
        sumOver (fun mm => mcountQ a mm.rpcs) t.masters
      omega
    · show aggCount a (Master.updateLogState { m with rpcs := m.rpcs ++ [entry] }
          logPos t.counters).2.2 =
        (if (Master.updateLogState { m with rpcs := m.rpcs ++ [entry] }
            logPos t.counters).2.1.getD r 0 = n ∧
            sumOver (fun mm => mcountQ a mm.rpcs)
              (setMaster t.masters s
                (Master.updateLogState { m with rpcs := m.rpcs ++ [entry] }
                  logPos t.counters).1) <
              sumOver (fun mm => mcountQ a mm.rpcs) t.masters
         then 1 else 0)
      rw [gA]
      by_cases hc : ((Master.updateLogState { m with rpcs := m.rpcs ++ [entry] }
          logPos t.counters).2.1.getD r 0 = n ∧
          mcountQ a (Master.updateLogState { m with rpcs := m.rpcs ++ [entry] }
            logPos t.counters).1.rpcs < mcountQ a m.rpcs)
      · rw [if_pos hc]
        obtain ⟨hc1, hc2⟩ := hc
        rw [if_pos ⟨hc1, by omega⟩]
      · rw [if_neg hc]
        rw [if_neg (by rintro ⟨h1, h2⟩; exact hc ⟨h1, by omega⟩)]
  | none =>
    have hshm : ∀ e ∈ (freshMaster s entry).rpcs,
        tagShapeOk r n a e.callback = true := by
      intro e he
      rw [List.mem_singleton.mp he]
      exact hesh
    have hmq : mcountQ a (freshMaster s entry).rpcs = 0 := by
      show mcountQ a [entry] = 0
      rw [mcountQ_cons, hem]
      simp [mcountQ]
    obtain ⟨gL, gG, gLe, gA⟩ := masterUpdate_fanin r n a (freshMaster s entry)
      logPos t.counters hshm hr (by omega)
    rw [hmq] at gG gLe gA
    refine ⟨gL, ?_, ?_, ?_⟩
    · show (Master.updateLogState (freshMaster s entry)
          logPos t.counters).2.1.getD r 0 +
        sumOver (fun mm => mcountQ a mm.rpcs)
          (t.masters ++
            [(s, (Master.updateLogState (freshMaster s entry)
              logPos t.counters).1)]) =
        t.counters.getD r 0 + sumOver (fun mm => mcountQ a mm.rpcs) t.masters
      rw [sumOver_append_one]
      omega
    · show sumOver (fun mm => mcountQ a mm.rpcs)
          (t.masters ++
            [(s, (Master.updateLogState (freshMaster s entry)
              logPos t.counters).1)]) ≤
        sumOver (fun mm => mcountQ a mm.rpcs) t.masters
      rw [sumOver_append_one]
      omega
    · show aggCount a (Master.updateLogState (freshMaster s entry)
          logPos t.counters).2.2 =
        (if (Master.updateLogState (freshMaster s entry)
            logPos t.counters).2.1.getD r 0 = n ∧
            sumOver (fun mm => mcountQ a mm.rpcs)
              (t.masters ++
                [(s, (Master.updateLogState (freshMaster s entry)
                  logPos t.counters).1)]) <
              sumOver (fun mm => mcountQ a mm.rpcs) t.masters
         then 1 else 0)
      rw [gA, sumOver_append_one]
      by_cases hc : ((Master.updateLogState (freshMaster s entry)
          logPos t.counters).2.1.getD r 0 = n ∧
          mcountQ a (Master.updateLogState (freshMaster s entry)
            logPos t.counters).1.rpcs < 0)
      · obtain ⟨hc1, hc2⟩ := hc
        omega
      · rw [if_neg hc]
        rw [if_neg (by rintro ⟨h1, h2⟩; exact hc ⟨h1, by omega⟩)]

theorem syncRound_fanin (r n a : Nat) (skip : Option Session)
    (t : UnsyncedRpcTracker) (resp : List (Session × LogState))
    (hst : stateTagOk r n a t) (hr : r < t.counters.length)
    (hbound : t.counters.getD r 0 + tagCount a t ≤ n) :
    (syncPhase2 (syncPhase1 skip t.masters).1 resp t.counters).2.1.length =
      t.counters.length ∧
    (syncPhase2 (syncPhase1 skip t.masters).1 resp t.counters).2.1.getD r 0 +
      sumOver (fun m => mcountQ a m.rpcs)
        (syncPhase2 (syncPhase1 skip t.masters).1 resp t.counters).1 =
      t.counters.getD r 0 + tagCount a t ∧
    sumOver (fun m => mcountQ a m.rpcs)
      (syncPhase2 (syncPhase1 skip t.masters).1 resp t.counters).1 ≤
      tagCount a t ∧
    aggCount a ((syncPhase1 skip t.masters).2 ++
      (syncPhase2 (syncPhase1 skip t.masters).1 resp t.counters).2.2) =
      (if (syncPhase2 (syncPhase1 skip t.masters).1 resp
            t.counters).2.1.getD r 0 = n ∧
          sumOver (fun m => mcountQ a m.rpcs)
            (syncPhase2 (syncPhase1 skip t.masters).1 resp t.counters).1 <
            tagCount a t then 1 else 0) := by
  have hsh1 : ∀ p ∈ (syncPhase1 skip t.masters).1, ∀ e ∈ p.2.rpcs,
      tagShapeOk r n a e.callback = true := by
    intro p hp e he
    rw [syncPhase1_masters] at hp
    obtain ⟨q, hq, hpq⟩ := List.mem_map.mp hp
    rw [← hpq] at he
    simp only [] at he
    rw [phase1M_rpcs] at he
    exact (hst q hq e he).1
  have hsum1 : sumOver (fun m => mcountQ a m.rpcs)
      (syncPhase1 skip t.masters).1 = tagCount a t := by
    rw [syncPhase1_masters, sumOver_map]
    show sumOver (fun m => mcountQ a (phase1M skip m).rpcs) t.masters = _
    have hfx : (fun m => mcountQ a (phase1M skip m).rpcs) =
        (fun m => mcountQ a m.rpcs) := by
      funext m
      rw [phase1M_rpcs]
    rw [hfx]
    rfl
  obtain ⟨pL, pG, pLe, pA⟩ := syncPhase2_fanin r n a
    (syncPhase1 skip t.masters).1 resp t.counters hsh1 hr
    (by rw [hsum1]; exact hbound)
  rw [hsum1] at pG pLe pA
  have hp1agg : aggCount a (syncPhase1 skip t.masters).2 = 0 := by
    rw [syncPhase1_evs]
    exact count_syncSent_agg _ _
  refine ⟨pL, pG, pLe, ?_⟩
  rw [aggCount_append, hp1agg, pA]
  omega

theorem step_fanin (r n a : Nat) (t : UnsyncedRpcTracker) (op : Op)
    (hst : stateTagOk r n a t) (hr : r < t.counters.length)
    (hbound : t.counters.getD r 0 + tagCount a t ≤ n)
    (hb : opsBenign [op] = true) :
    (t.step op).1.counters.length = t.counters.length ∧
    (t.step op).1.counters.getD r 0 + tagCount a (t.step op).1 =
      t.counters.getD r 0 + tagCount a t ∧
    tagCount a (t.step op).1 ≤ tagCount a t ∧
    aggCount a (t.step op).2 =
      (if (t.step op).1.counters.getD r 0 = n ∧
          tagCount a (t.step op).1 < tagCount a t then 1 else 0) := by
  cases op with
  | register s req tableId keyHash objVer pos cb =>
    simp only [opsBenign, List.all_cons, List.all_nil, Bool.and_true] at hb
    have hesh : tagShapeOk r n a cb = true := by
      cases cb with
      | user c => rfl
      | nop => rfl
      | fanin r2 n2 b => cases hb
    have hem : cbMentions a cb = false := by
      cases cb with
      | user c => rfl
      | nop => rfl
      | fanin r2 n2 b => cases hb
    exact registerEntry_fanin r n a t s
      (mkWrite req tableId keyHash objVer pos cb) pos hst hr hbound hesh hem
  | registerTx s txTask pos =>
    exact registerEntry_fanin r n a t s (mkPrepare txTask pos) pos hst hr hbound
      rfl rfl
  | update s st =>
    exact updateOp_fanin r n a t s st hst hr hbound
  | flush s statuses =>
    exact flushOp_fanin r n a t s statuses hst hr hbound
  | syncBlocking resp =>
    exact syncRound_fanin r n a none t resp hst hr hbound
  | effSync skip resp =>
    exact syncRound_fanin r n a (some skip) t resp hst hr hbound
  | syncCb agg =>
    simp only [opsBenign, List.all_cons, List.all_nil, Bool.and_true] at hb
    cases hb

theorem opsBenign_cons (op : Op) (ops : List Op)
    (h : opsBenign (op :: ops) = true) :
    opsBenign [op] = true ∧ opsBenign ops = true := by
  simp only [opsBenign, List.all_cons, Bool.and_eq_true, List.all_nil,
    Bool.and_true] at *
  exact ⟨h.1, h.2⟩

theorem runOps_fanin (r n a : Nat) (ops : List Op) (t : UnsyncedRpcTracker)
    (hst : stateTagOk r n a t) (hr : r < t.counters.length)
    (hbal : t.counters.getD r 0 + tagCount a t = n)
    (hb : opsBenign ops = true) :
    tagCount a (t.runOps ops).1 ≤ tagCount a t ∧
    aggCount a (t.runOps ops).2 =
      (if tagCount a (t.runOps ops).1 = 0 ∧ 0 < tagCount a t
       then 1 else 0) := by
  induction ops generalizing t with
  | nil =>
    constructor
    · exact Nat.le_refl _
    · show aggCount a ([] : List Event) =
        (if tagCount a t = 0 ∧ 0 < tagCount a t then 1 else 0)
      rw [if_neg (by rintro ⟨h1, h2⟩; omega)]
      rfl
  | cons op rest ih =>
    obtain ⟨hb1, hb2⟩ := opsBenign_cons op rest hb
    obtain ⟨sL, sG, sLe, sA⟩ := step_fanin r n a t op hst hr (by omega) hb1
    have hst2 := step_stateTagOk r n a t op hst hb1
    have hr2 : r < (t.step op).1.counters.length := by
      rw [sL]
      exact hr
    have hbal2 : (t.step op).1.counters.getD r 0 + tagCount a (t.step op).1 =
        n := by omega
    obtain ⟨iLe, iA⟩ := ih (t.step op).1 hst2 hr2 hbal2 hb2
    have hrun : t.runOps (op :: rest) =
        (((t.step op).1.runOps rest).1,
          (t.step op).2 ++ ((t.step op).1.runOps rest).2) := rfl
    rw [hrun]
    simp only []
    constructor
    · omega
    · rw [aggCount_append, sA, iA]
      by_cases hc1 : ((t.step op).1.counters.getD r 0 = n ∧
          tagCount a (t.step op).1 < tagCount a t)
      · rw [if_pos hc1]
        obtain ⟨hc1a, hc1b⟩ := hc1
        have ht0 : tagCount a (t.step op).1 = 0 := by omega
        rw [if_neg (by rintro ⟨h2a, h2b⟩; omega)]
        rw [if_pos ⟨by omega, by omega⟩]
      · rw [if_neg hc1]
        by_cases hc2 : (tagCount a ((t.step op).1.runOps rest).1 = 0 ∧
            0 < tagCount a (t.step op).1)
        · rw [if_pos hc2]
          obtain ⟨hc2a, hc2b⟩ := hc2
          rw [if_pos ⟨hc2a, by omega⟩]
        · rw [if_neg hc2]
          rw [if_neg (by
            rintro ⟨h3a, h3b⟩
            by_cases h4 : 0 < tagCount a (t.step op).1
            · exact hc2 ⟨h3a, h4⟩
            · exact hc1 ⟨by omega, by omega⟩)]

theorem setLast_mcount (a r2 N : Nat) (q : List UnsyncedRpc)
    (hne : q ≠ [])
    (hfresh : ∀ e ∈ q, cbMentions a e.callback = false) :
    mcountQ a (setLast q (Cb.fanin r2 N a)) = 1 := by
  induction q with
  | nil => cases hne rfl
  | cons x rest ih =>
    cases rest with
    | nil =>
      show mcountQ a [{ x with callback := Cb.fanin r2 N a }] = 1
      rw [mcountQ_cons]
      have hw : ({ x with callback := Cb.fanin r2 N a } : UnsyncedRpc).callback =
          Cb.fanin r2 N a := rfl
      have hm : cbMentions a (Cb.fanin r2 N a) = true := by
        simp [cbMentions]
      rw [hw, hm, if_pos rfl]
      rfl
    | cons y rest2 =>
      show mcountQ a (x :: setLast (y :: rest2) (Cb.fanin r2 N a)) = 1
      rw [mcountQ_cons]
      have hx := hfresh x (by simp)
      rw [hx, if_neg Bool.false_ne_true]
      rw [ih (by simp) (fun e he => hfresh e (by simp [he]))]

theorem sumOver_syncCbM (a r2 N : Nat) (ms : List (Session × Master))
    (hfresh : ∀ p ∈ ms, ∀ e ∈ p.2.rpcs, cbMentions a e.callback = false) :
    sumOver (fun m => mcountQ a (syncCbM r2 N a m).rpcs) ms =
      (ms.filter (fun p => !p.2.rpcs.isEmpty)).length := by
  induction ms with
  | nil => rfl
  | cons p rest ih =>
    have hfr : ∀ q ∈ rest, ∀ e ∈ q.2.rpcs, cbMentions a e.callback = false :=
      fun q hq => hfresh q (by simp [hq])
    rw [sumOver_cons, List.filter_cons, ih hfr]
    by_cases hemp : p.2.rpcs.isEmpty = true
    · have hm : mcountQ a (syncCbM r2 N a p.2).rpcs = 0 := by
        unfold syncCbM
        rw [if_pos hemp]
        cases hq : p.2.rpcs with
        | nil => rfl
        | cons z zs => rw [hq] at hemp; simp [List.isEmpty] at hemp
      have hb : (!p.2.rpcs.isEmpty) = false := by
        rw [hemp]
        rfl
      rw [hm, hb]
      simp
    · have hemp2 : p.2.rpcs.isEmpty = false := by
        rw [Bool.eq_false_iff]
        exact hemp
      have hne : p.2.rpcs ≠ [] := by
        cases hq : p.2.rpcs with
        | nil => rw [hq] at hemp2; simp [List.isEmpty] at hemp2
        | cons z zs => simp
      have hm : mcountQ a (syncCbM r2 N a p.2).rpcs = 1 := by
        unfold syncCbM
        rw [if_neg (by rw [hemp2]; exact Bool.false_ne_true)]
        exact setLast_mcount a r2 N p.2.rpcs hne (hfresh p (by simp))
      have hb : (!p.2.rpcs.isEmpty) = true := by
        rw [hemp2]
        rfl
      rw [hm, hb]
      simp
      omega

theorem getD_append_self (cs : List Nat) (x : Nat) :
    (cs ++ [x]).getD cs.length 0 = x := by
  rw [List.getD_eq_getElem?_getD]
  rw [List.getElem?_append_right (Nat.le_refl _)]
  simp

theorem syncCallback_install (t : UnsyncedRpcTracker) (a : Nat)
    (hfresh : aggFreshT a t) (hrounds : roundsOk t) (hnontx : allNonTx t)
    (hN : 1 ≤ countNonEmpty t) :
    (t.syncCallback a).1.counters = t.counters ++ [0] ∧
    (t.syncCallback a).2 = [] ∧
    stateTagOk t.counters.length (countNonEmpty t) a (t.syncCallback a).1 ∧
    tagCount a (t.syncCallback a).1 = countNonEmpty t := by
  have h0 : ¬(((t.masters.filter (fun p => !p.2.rpcs.isEmpty)).length == 0) =
      true) := by
    rw [beq_iff_eq]
    have he : countNonEmpty t =
        (t.masters.filter (fun p => !p.2.rpcs.isEmpty)).length := rfl
    omega
  unfold UnsyncedRpcTracker.syncCallback
  rw [if_neg h0]
  refine ⟨rfl, rfl, ?_, ?_⟩
  · intro p hp e he
    simp only [] at hp
    obtain ⟨q, hq, hpq⟩ := List.mem_map.mp hp
    rw [← hpq] at he
    simp only [] at he
    have hold : ∀ e0 ∈ q.2.rpcs, tagShapeOk t.counters.length (countNonEmpty t)
        a e0.callback = true ∧
        (e0.txWithUnsyncedPrepare.isSome = true →
          cbMentions a e0.callback = false) := by
      intro e0 he0
      refine ⟨?_, fun _ => hfresh q hq e0 he0⟩
      cases hcb : e0.callback with
      | user c => rfl
      | nop => rfl
      | fanin r2 n2 b =>
        have hm := hfresh q hq e0 he0
        rw [hcb] at hm
        have hb : (b == a) = false := hm
        have hro := hrounds q hq e0 he0
        rw [hcb] at hro
        have hr2 : r2 < t.counters.length := Nat.blt_eq.mp hro
        show tagShapeOk t.counters.length (countNonEmpty t) a
          (Cb.fanin r2 n2 b) = true
        simp only [tagShapeOk]
        rw [hb]
        simp only [if_neg Bool.false_ne_true]
        simp [bne_iff_ne]
        omega
    unfold syncCbM at he
    by_cases hemp : q.2.rpcs.isEmpty = true
    · rw [if_pos hemp] at he
      exact hold e he
    · rw [if_neg hemp] at he
      simp only [] at he
      rcases setLast_mem q.2.rpcs
          (Cb.fanin t.counters.length (countNonEmpty t) a) e he with h1 | h1
      · exact hold e h1
      · obtain ⟨e0, he0, heq⟩ := h1
        subst heq
        constructor
        · show tagShapeOk t.counters.length (countNonEmpty t) a
            (Cb.fanin t.counters.length (countNonEmpty t) a) = true
          unfold tagShapeOk
          simp
        · intro hs
          have htx : e0.txWithUnsyncedPrepare = none := hnontx q hq e0 he0
          have : ({ e0 with callback := Cb.fanin t.counters.length (countNonEmpty t) a } : UnsyncedRpc).txWithUnsyncedPrepare = e0.txWithUnsyncedPrepare := rfl
          rw [this, htx] at hs
          cases hs
  · show sumOver (fun m => mcountQ a m.rpcs)
      (t.masters.map (fun p => (p.1, syncCbM t.counters.length
        ((t.masters.filter (fun p => !p.2.rpcs.isEmpty)).length) a p.2))) =
      countNonEmpty t
    rw [sumOver_map]
    exact sumOver_syncCbM a t.counters.length
      ((t.masters.filter (fun p => !p.2.rpcs.isEmpty)).length) t.masters hfresh

/-- C4 counterexample: starting from a tracker with one peer holding one
pending write, sync(callback) is called with aggregate 7, then again with
aggregate 8, then the queue is garbage-collected.  The tail entry that
round 7 tagged is fully resolved (freed, queue empty), countNonEmpty was
1 ≥ 1 at the first call, yet aggregate 7 never fires: the second
sync(callback) overwrote its wrapper, so the claimed exactly-once firing
after tail resolution fails. -/
theorem c4_counterexample :
    1 ≤ countNonEmpty c4start ∧
    (c4start.runOps c4ops).2.count (Event.free 1) = 1 ∧
    pendingData 1 (c4start.runOps c4ops).1 = 0 ∧
    aggCount 7 (c4start.runOps c4ops).2 = 0 ∧
    aggCount 8 (c4start.runOps c4ops).2 = 1 := by
  decide

/-- C4 (amended): sync(callback) with zero peers holding pending writes is
a no-op that never invokes the callback.  With N ≥ 1 such peers it
installs exactly N fan-in wrappers (one per non-empty queue, replacing the
tail entry's callback) and returns without events; along any continuation
trace that issues no further sync(callback) and registers no wrapper
callbacks, the aggregate fires exactly once if every tagged entry has been
resolved by the end of the trace, and not at all otherwise — firing is
tied to all tagged entries resolving, not merely the N call-time tails,
and a later sync(callback) round may steal tags (see the counterexample),
which is why the trace must be benign. -/
theorem c4_amended (t : UnsyncedRpcTracker) (a : Nat) (ops : List Op)
    (hfresh : aggFreshT a t) (hrounds : roundsOk t) (hnontx : allNonTx t)
    (hb : opsBenign ops = true) :
    (countNonEmpty t = 0 → t.syncCallback a = (t, [])) ∧
    (1 ≤ countNonEmpty t →
      tagCount a (t.syncCallback a).1 = countNonEmpty t ∧
      (t.syncCallback a).2 = [] ∧
      aggCount a ((t.syncCallback a).1.runOps ops).2 =
        (if tagCount a ((t.syncCallback a).1.runOps ops).1 = 0
         then 1 else 0)) := by
  constructor
  · intro h0
    unfold UnsyncedRpcTracker.syncCallback
    rw [if_pos (by rw [beq_iff_eq]; exact h0)]
  · intro hN
    obtain ⟨hc, hev, hst, htag⟩ :=
      syncCallback_install t a hfresh hrounds hnontx hN
    refine ⟨htag, hev, ?_⟩
    have hr : t.counters.length < (t.syncCallback a).1.counters.length := by
      rw [hc]
      simp
    have hbal : (t.syncCallback a).1.counters.getD t.counters.length 0 +
        tagCount a (t.syncCallback a).1 = countNonEmpty t := by
      rw [hc, getD_append_self, htag]
      omega
    obtain ⟨iLe, iA⟩ := runOps_fanin t.counters.length (countNonEmpty t) a ops
      (t.syncCallback a).1 hst hr hbal hb
    rw [iA]
    by_cases hcf : tagCount a ((t.syncCallback a).1.runOps ops).1 = 0
    · rw [if_pos ⟨hcf, by omega⟩, if_pos hcf]
    · rw [if_neg (by rintro ⟨h1, h2⟩; exact hcf h1), if_neg hcf]

/-- Witness for c4_amended at the one-peer demo tracker, aggregate 9 and a
single garbage-collecting update as the continuation trace. -/
theorem c4_amended_witness :
    aggFreshT 9 c4start ∧ roundsOk c4start ∧ allNonTx c4start ∧
    opsBenign [Op.update 0 { appended := 20, synced := 20 }] = true ∧
    ((countNonEmpty c4start = 0 → c4start.syncCallback 9 = (c4start, [])) ∧
     (1 ≤ countNonEmpty c4start →
       tagCount 9 (c4start.syncCallback 9).1 = countNonEmpty c4start ∧
       (c4start.syncCallback 9).2 = [] ∧
       aggCount 9 ((c4start.syncCallback 9).1.runOps
           [Op.update 0 { appended := 20, synced := 20 }]).2 =
         (if tagCount 9 ((c4start.syncCallback 9).1.runOps
             [Op.update 0 { appended := 20, synced := 20 }]).1 = 0
          then 1 else 0))) :=
  ⟨by decide, by decide, by decide, by decide,
   c4_amended c4start 9 [Op.update 0 { appended := 20, synced := 20 }]
     (by decide) (by decide) (by decide) (by decide)⟩
